import Mathlib

/-! CombLayer attachment kernel: FixedComp frames and link points.

A shallow embedding of `src/System/attachComp/FixedComp.cxx`, and of the
functions of `src/System/construct/TwinChopper.cxx`,
`src/System/tally/meshConstruct.cxx` and `src/System/process/surfDIter.cxx`
that build on it or are stated with it, over exact reals.
`double` is read as `ℝ`, `size_t` as `Nat`, `long int` as `Int`
(`static_cast<size_t>` of a non-negative `long` is `Int.toNat`).

`Vec3D`, `Quaternion`, `HeadRule` and `LinkUnit` are used by `FixedComp.cxx`
but their own sources are not part of the source tree; the definitions below
that stand for them say so in their doc comments.
-/

namespace Geometry

/-- Modelled from the spec: the constant `Geometry::zeroTol` is declared outside
the source tree; the spec gives the parallelism tolerance as `1e-6`. -/
noncomputable def zeroTol : ℝ := 1e-6

/-- Modelled from the spec: the class `Geometry::Vec3D` (three reals) is declared
outside the source tree. -/
@[ext]
structure Vec3D where
  x : ℝ
  y : ℝ
  z : ℝ

namespace Vec3D

/-- Modelled from the spec: `Vec3D::operator+`, componentwise sum. -/
def add (a b : Vec3D) : Vec3D := ⟨a.x + b.x, a.y + b.y, a.z + b.z⟩

/-- Modelled from the spec: `Vec3D::operator-` (binary), componentwise difference. -/
def sub (a b : Vec3D) : Vec3D := ⟨a.x - b.x, a.y - b.y, a.z - b.z⟩

/-- Modelled from the spec: `Vec3D::operator-` (unary). -/
def neg (a : Vec3D) : Vec3D := ⟨-a.x, -a.y, -a.z⟩

/-- Modelled from the spec: `Vec3D::operator*(double)`, scaling. -/
def scale (a : Vec3D) (k : ℝ) : Vec3D := ⟨a.x * k, a.y * k, a.z * k⟩

/-- Modelled from the spec: `Vec3D::operator*(Vec3D)`, the cross product
(the spec writes `X = beamAxis×zHint` for the source line `X=(Y*Z)`). -/
def cross (a b : Vec3D) : Vec3D :=
  ⟨a.y * b.z - a.z * b.y, a.z * b.x - a.x * b.z, a.x * b.y - a.y * b.x⟩

/-- Modelled from the spec: `Vec3D::dotProd`, the scalar product. -/
def dotProd (a b : Vec3D) : ℝ := a.x * b.x + a.y * b.y + a.z * b.z

/-- Modelled from the spec: `Vec3D::abs`, the Euclidean length. -/
noncomputable def abs (a : Vec3D) : ℝ := Real.sqrt (a.dotProd a)

/-- Modelled from the spec: `Vec3D::unit`, the vector divided by its length
("normalized"). Real division by zero is zero, so the zero vector is returned
as the zero vector. -/
noncomputable def unit (a : Vec3D) : Vec3D := ⟨a.x / a.abs, a.y / a.abs, a.z / a.abs⟩

end Vec3D

/-- Modelled from the spec: the class `Geometry::Quaternion` (scalar part `q0`,
vector part `Qvec`) is declared outside the source tree. -/
structure Quaternion where
  q0 : ℝ
  Qvec : Vec3D

namespace Quaternion

/-- Modelled from the spec: the Hamilton product `Quaternion::operator*`. -/
def mul (a b : Quaternion) : Quaternion :=
  ⟨a.q0 * b.q0 - a.Qvec.dotProd b.Qvec,
   ((b.Qvec.scale a.q0).add (a.Qvec.scale b.q0)).add (a.Qvec.cross b.Qvec)⟩

/-- Modelled from the spec: `Quaternion::inverse` for the unit quaternions the
frame code builds, i.e. the conjugate. -/
def inverse (a : Quaternion) : Quaternion := ⟨a.q0, a.Qvec.neg⟩

/-- Modelled from the spec: `Quaternion::calcQRot(Angle,Axis)`, the unit
quaternion of the rotation by `Angle` radians about the normalised `Axis`. -/
noncomputable def calcQRot (Angle : ℝ) (Axis : Vec3D) : Quaternion :=
  ⟨Real.cos (Angle / 2), Axis.unit.scale (Real.sin (Angle / 2))⟩

/-- Modelled from the spec: `Quaternion::calcQRotDeg(Angle,Axis)`, as `calcQRot`
with the angle given in degrees. -/
noncomputable def calcQRotDeg (Angle : ℝ) (Axis : Vec3D) : Quaternion :=
  calcQRot (Real.pi * Angle / 180) Axis

/-- Modelled from the spec: `Quaternion::rotate(V)`, the vector part of
`q * (0,V) * q⁻¹`. In the source the argument is rotated in place; here the
rotated vector is returned. -/
def rotate (q : Quaternion) (V : Vec3D) : Vec3D :=
  ((q.mul ⟨0, V⟩).mul q.inverse).Qvec

/-- A quaternion of squared norm one. -/
def IsUnit (q : Quaternion) : Prop := q.q0 * q.q0 + q.Qvec.dotProd q.Qvec = 1

end Quaternion

end Geometry

/-- Modelled from the spec: the rule tree behind `HeadRule` (`Rules.h` is outside
the source tree): literal signed surface id, intersection, union, complement. -/
inductive Rule where
  | Literal (id : Int)
  | Intersection (a b : Rule)
  | Union (a b : Rule)
  | Complement (a : Rule)
deriving DecidableEq, Repr

namespace Rule

/-- Modelled from the spec: `complementOf`, the De Morgan transform applied
recursively (intersection and union swap, a literal changes sign). -/
def complementOf : Rule → Rule
  | Literal n => Literal (-n)
  | Intersection a b => Union a.complementOf b.complementOf
  | Union a b => Intersection a.complementOf b.complementOf
  | Complement a => a

/-- Modelled from the spec: the leftmost surface number of a rule, the one a
link point reports as its link surface. -/
def primarySurface : Rule → Int
  | Literal n => n
  | Intersection a _ => a.primarySurface
  | Union a _ => a.primarySurface
  | Complement a => -a.primarySurface

end Rule

/-- Modelled from the spec: the class `HeadRule` (`HeadRule.h` is outside the
source tree), a rule tree that may still be empty. -/
structure HeadRule where
  HeadNode : Option Rule
deriving DecidableEq, Repr

namespace HeadRule

/-- Modelled from the spec: `HeadRule::complement`, a complemented copy. -/
def complement (A : HeadRule) : HeadRule := ⟨A.HeadNode.map Rule.complementOf⟩

/-- Modelled from the spec: `HeadRule::addIntersection`, the conjunction of two
rules; an empty rule is the neutral element. -/
def addIntersection (A B : HeadRule) : HeadRule :=
  match A.HeadNode, B.HeadNode with
  | some a, some b => ⟨some (Rule.Intersection a b)⟩
  | some a, none => ⟨some a⟩
  | none, b => ⟨b⟩

/-- Modelled from the spec: the rule made of one signed surface number. -/
def ofSurf (SN : Int) : HeadRule := ⟨some (Rule.Literal SN)⟩

/-- Modelled from the spec: the first surface number of a rule, 0 when empty. -/
def primarySurface (A : HeadRule) : Int :=
  match A.HeadNode with
  | some r => r.primarySurface
  | none => 0

end HeadRule

namespace attachSystem

open Geometry

/-- How a call can fail. `IndexError` and `EmptyValue` are the exceptions
`ColErr::IndexError` and `ColErr::EmptyValue`; `outOfBounds` is not an
exception: it marks a `std::vector::operator[]` access past the end of `LU`,
which the C++ library does not check. -/
inductive Failure where
  | IndexError
  | EmptyValue
  | outOfBounds
deriving DecidableEq, Repr

/-- Modelled from the spec: the class `LinkUnit` (`LinkUnit.h` is outside the
source tree): an optional connection point, an optional axis (absent fields
are the cleared presence flags), the link surface number, the primary rule and
the secondary "common" rule. -/
structure LinkUnit where
  Axis : Option Vec3D
  ConnectPt : Option Vec3D
  linkSurf : Int
  mainSurf : HeadRule
  bridgeSurf : HeadRule

namespace LinkUnit

/-- Modelled from the spec: a link unit as created with its owner, empty. -/
def empty : LinkUnit := ⟨none, none, 0, ⟨none⟩, ⟨none⟩⟩

/-- Modelled from the spec: `LinkUnit::getAxis`; fails when no axis is set. -/
def getAxis (L : LinkUnit) : Except Failure Vec3D :=
  match L.Axis with
  | some a => .ok a
  | none => .error Failure.EmptyValue

/-- Modelled from the spec: `LinkUnit::getConnectPt`; fails when no connection
point is set (the source notes at its call in `getLinkPt`: "this can throw"). -/
def getConnectPt (L : LinkUnit) : Except Failure Vec3D :=
  match L.ConnectPt with
  | some c => .ok c
  | none => .error Failure.EmptyValue

/-- Modelled from the spec: `LinkUnit::getLinkSurf`, the stored surface number. -/
def getLinkSurf (L : LinkUnit) : Int := L.linkSurf

/-- Modelled from the spec: `LinkUnit::getMainRule`, the primary rule. -/
def getMainRule (L : LinkUnit) : HeadRule := L.mainSurf

/-- Modelled from the spec: `LinkUnit::getCommonRule`, the secondary rule. -/
def getCommonRule (L : LinkUnit) : HeadRule := L.bridgeSurf

/-- Modelled from the spec: `LinkUnit::getLinkString`, the text of the primary
rule joined with the common rule; `display` is the rule serializer. -/
def getLinkString (display : HeadRule → String) (L : LinkUnit) : String :=
  display (L.mainSurf.addIntersection L.bridgeSurf)

/-- Modelled from the spec: `LinkUnit::setConnectPt`. -/
def setConnectPt (L : LinkUnit) (C : Vec3D) : LinkUnit := { L with ConnectPt := some C }

/-- Modelled from the spec: `LinkUnit::setAxis`; the axis is kept as a unit
vector ("optional unit axis"). -/
noncomputable def setAxis (L : LinkUnit) (A : Vec3D) : LinkUnit := { L with Axis := some A.unit }

/-- Modelled from the spec: `LinkUnit::setLinkSurf(const HeadRule&)`. -/
def setLinkSurfHR (L : LinkUnit) (HR : HeadRule) : LinkUnit :=
  { L with linkSurf := HR.primarySurface, mainSurf := HR }

/-- Modelled from the spec: `LinkUnit::setLinkSurf(const int)`. -/
def setLinkSurf (L : LinkUnit) (SN : Int) : LinkUnit :=
  { L with linkSurf := SN, mainSurf := HeadRule.ofSurf SN }

/-- Modelled from the spec: `LinkUnit::setLinkSurf(const std::string&)`;
`procString` is the rule parser `HeadRule::procString`. -/
def setLinkSurfStr (procString : String → HeadRule) (L : LinkUnit) (SList : String) : LinkUnit :=
  L.setLinkSurfHR (procString SList)

/-- Modelled from the spec: `LinkUnit::addLinkSurf(const HeadRule&)`: the rule is
intersected into the primary rule; the link surface is set if still unset. -/
def addLinkSurfHR (L : LinkUnit) (HR : HeadRule) : LinkUnit :=
  { L with linkSurf := if L.linkSurf = 0 then HR.primarySurface else L.linkSurf,
           mainSurf := L.mainSurf.addIntersection HR }

/-- Modelled from the spec: `LinkUnit::addLinkSurf(const int)`. -/
def addLinkSurf (L : LinkUnit) (SN : Int) : LinkUnit := L.addLinkSurfHR (HeadRule.ofSurf SN)

/-- Modelled from the spec: `LinkUnit::addLinkSurf(const std::string&)`. -/
def addLinkSurfStr (procString : String → HeadRule) (L : LinkUnit) (SList : String) : LinkUnit :=
  L.addLinkSurfHR (procString SList)

/-- Modelled from the spec: `LinkUnit::setBridgeSurf(const HeadRule&)`. -/
def setBridgeSurfHR (L : LinkUnit) (HR : HeadRule) : LinkUnit := { L with bridgeSurf := HR }

/-- Modelled from the spec: `LinkUnit::setBridgeSurf(const int)`. -/
def setBridgeSurf (L : LinkUnit) (SN : Int) : LinkUnit := L.setBridgeSurfHR (HeadRule.ofSurf SN)

/-- Modelled from the spec: `LinkUnit::addBridgeSurf(const int)`. -/
def addBridgeSurf (L : LinkUnit) (SN : Int) : LinkUnit :=
  { L with bridgeSurf := L.bridgeSurf.addIntersection (HeadRule.ofSurf SN) }

/-- Modelled from the spec: `LinkUnit::addBridgeSurf(const std::string&)`. -/
def addBridgeSurfStr (procString : String → HeadRule) (L : LinkUnit) (SList : String) : LinkUnit :=
  { L with bridgeSurf := L.bridgeSurf.addIntersection (procString SList) }

end LinkUnit

/-- The class `FixedComp`: key name, basis `X`, `Y`, `Z`, origin, beam origin,
beam axis and the link units `LU` (a `std::vector<LinkUnit>`). -/
structure FixedComp where
  keyName : String
  X : Vec3D
  Y : Vec3D
  Z : Vec3D
  Origin : Vec3D
  beamOrigin : Vec3D
  beamAxis : Vec3D
  LU : List LinkUnit

/-- The state of a component after a call of a member function that may throw,
with the exception that left the call, if any. -/
structure Outcome where
  self : FixedComp
  thrown : Option Failure

/-- The expression `LU[Index]` read from a `std::vector`: no range check. -/
def vecAt (LU : List LinkUnit) (Index : Nat) : Except Failure LinkUnit :=
  match LU[Index]? with
  | some L => .ok L
  | none => .error Failure.outOfBounds

/-- The statement `LU[Index].m(...)` for a member function `m` of `LinkUnit`:
element `Index` of the vector is replaced by its image under `m`. -/
def vecModify (m : LinkUnit → LinkUnit) : List LinkUnit → Nat → List LinkUnit
  | [], _ => []
  | L :: Ls, 0 => m L :: Ls
  | L :: Ls, n + 1 => L :: vecModify m Ls n

/-- The index conversion shared by the signed accessors:
`(sideIndex>0) ? static_cast<size_t>(sideIndex-1) : static_cast<size_t>(-sideIndex-1)`. -/
def linkIndexOf (sideIndex : Int) : Nat :=
  if sideIndex > 0 then (sideIndex - 1).toNat else (-sideIndex - 1).toNat

namespace FixedComp

/-- `FixedComp::FixedComp(KN,NL)`: the standard basis and `NL` empty links. -/
def mk0 (KN : String) (NL : Nat) : FixedComp :=
  { keyName := KN, X := ⟨1, 0, 0⟩, Y := ⟨0, 1, 0⟩, Z := ⟨0, 0, 1⟩,
    Origin := ⟨0, 0, 0⟩, beamOrigin := ⟨0, 0, 0⟩, beamAxis := ⟨0, 0, 0⟩,
    LU := List.replicate NL LinkUnit.empty }

/-- `FixedComp::createUnitVector(const FixedComp&)`. -/
def createUnitVector (self FC : FixedComp) : FixedComp :=
  { self with Z := FC.Z, Y := FC.Y, X := FC.X, Origin := FC.Origin,
              beamOrigin := FC.beamOrigin, beamAxis := FC.beamAxis }

/-- `FixedComp::createUnitVector(const Vec3D&,const Vec3D&,const Vec3D&)`:
`Z=ZAxis; Y=BeamAxis.unit(); X=(Y*Z); Origin=OG; beamOrigin=OG; beamAxis=Y;`. -/
noncomputable def createUnitVectorAxes (self : FixedComp) (OG BeamAxis ZAxis : Vec3D) : FixedComp :=
  { self with Z := ZAxis, Y := BeamAxis.unit, X := BeamAxis.unit.cross ZAxis,
              Origin := OG, beamOrigin := OG, beamAxis := BeamAxis.unit }

/-- `FixedComp::getLU(const size_t)`. -/
def getLU (self : FixedComp) (Index : Nat) : Except Failure LinkUnit :=
  if Index ≥ self.LU.length then .error Failure.IndexError
  else vecAt self.LU Index

/-- `FixedComp::createUnitVector(const FixedComp&,const long int)`. Every read
that can throw comes before the first assignment to the component. -/
noncomputable def createUnitVectorSide (self FC : FixedComp) (sideIndex : Int) : Outcome :=
  if sideIndex = 0 then ⟨self.createUnitVector FC, none⟩
  else
    let linkIndex := linkIndexOf sideIndex
    if linkIndex ≥ FC.LU.length then ⟨self, some Failure.IndexError⟩
    else
      match FC.getLU linkIndex with
      | .error e => ⟨self, some e⟩
      | .ok LU =>
        let signV : ℝ := if sideIndex > 0 then 1.0 else -1.0
        match LU.getAxis with
        | .error e => ⟨self, some e⟩
        | .ok yTest =>
          let zTest := if |FC.Z.dotProd yTest| > 1.0 - zeroTol then FC.X else FC.Z
          match LU.getConnectPt with
          | .error e => ⟨self, some e⟩
          | .ok pt => ⟨self.createUnitVectorAxes pt (yTest.scale signV) zTest, none⟩

/-- `FixedComp::applyShift`: `Origin+=X*xStep+Y*yStep+Z*zStep;`. -/
def applyShift (self : FixedComp) (xStep yStep zStep : ℝ) : FixedComp :=
  let shift := ((self.X.scale xStep).add (self.Y.scale yStep)).add (self.Z.scale zStep)
  { self with Origin := self.Origin.add shift }

/-- `FixedComp::applyAngleRotate(xAngle,yAngle,zAngle)`. The three quaternions
are built from the axes as they are on entry; `Qz` then rotates `Y` and `X`,
`Qy` and `Qx` rotate `Y`, `X` and `Z`. -/
noncomputable def applyAngleRotate3 (self : FixedComp) (xAngle yAngle zAngle : ℝ) : FixedComp :=
  let Qz := Quaternion.calcQRotDeg zAngle self.Z
  let Qy := Quaternion.calcQRotDeg yAngle self.Y
  let Qx := Quaternion.calcQRotDeg xAngle self.X
  { self with Y := Qx.rotate (Qy.rotate (Qz.rotate self.Y)),
              X := Qx.rotate (Qy.rotate (Qz.rotate self.X)),
              Z := Qx.rotate (Qy.rotate self.Z) }

/-- `FixedComp::applyAngleRotate(xyAngle,zAngle)`: `Qz` (about `X`) rotates `Y`
and `Z`, then `Qxy` (about the `Z` of entry) rotates `Y`, `X` and `Z`. -/
noncomputable def applyAngleRotate (self : FixedComp) (xyAngle zAngle : ℝ) : FixedComp :=
  let Qz := Quaternion.calcQRotDeg zAngle self.X
  let Qxy := Quaternion.calcQRotDeg xyAngle self.Z
  { self with Y := Qxy.rotate (Qz.rotate self.Y),
              X := Qxy.rotate self.X,
              Z := Qxy.rotate (Qz.rotate self.Z) }

/-- `FixedComp::applyFullRotate(xyAngle,zAngle,RotCent)`: the basis as in the
two-angle `applyAngleRotate`, and the origin turned about `RotCent`. -/
noncomputable def applyFullRotate (self : FixedComp) (xyAngle zAngle : ℝ) (RotCent : Vec3D) :
    FixedComp :=
  let Qz := Quaternion.calcQRotDeg zAngle self.X
  let Qxy := Quaternion.calcQRotDeg xyAngle self.Z
  { self with Y := Qxy.rotate (Qz.rotate self.Y),
              X := Qxy.rotate self.X,
              Z := Qxy.rotate (Qz.rotate self.Z),
              Origin := (Qxy.rotate (Qz.rotate (self.Origin.sub RotCent))).add RotCent }

/-- `FixedComp::reverseZ`: `Z*= -1.0; X*= -1.0;`. -/
def reverseZ (self : FixedComp) : FixedComp :=
  { self with Z := self.Z.scale (-1.0), X := self.X.scale (-1.0) }

/-- `FixedComp::applyRotation(Axis,Angle)`: one quaternion about `Axis.unit()`
rotates `X`, `Y`, `beamAxis` and `Z`. -/
noncomputable def applyRotation (self : FixedComp) (Axis : Vec3D) (Angle : ℝ) : FixedComp :=
  let Qrot := Quaternion.calcQRotDeg Angle Axis.unit
  { self with X := Qrot.rotate self.X, Y := Qrot.rotate self.Y,
              beamAxis := Qrot.rotate self.beamAxis, Z := Qrot.rotate self.Z }

/-- `FixedComp::operator[](const size_t)`: the guard is `Index>LU.size()`. -/
def index (self : FixedComp) (Index : Nat) : Except Failure LinkUnit :=
  if Index > self.LU.length then .error Failure.IndexError
  else vecAt self.LU Index

/-- `FixedComp::getSignedLU(const long int)`. -/
def getSignedLU (self : FixedComp) (sideIndex : Int) : Except Failure LinkUnit :=
  if sideIndex ≠ 0 ∧ linkIndexOf sideIndex < self.LU.length then
    vecAt self.LU (linkIndexOf sideIndex)
  else .error Failure.IndexError

/-- `FixedComp::getLinkSurf(const size_t)`. -/
def getLinkSurf (self : FixedComp) (Index : Nat) : Except Failure Int :=
  if Index ≥ self.LU.length then .error Failure.IndexError
  else (vecAt self.LU Index).map LinkUnit.getLinkSurf

/-- `FixedComp::getLinkPt(const size_t)`. -/
def getLinkPt (self : FixedComp) (Index : Nat) : Except Failure Vec3D :=
  if Index ≥ self.LU.length then .error Failure.IndexError
  else (vecAt self.LU Index).bind LinkUnit.getConnectPt

/-- `FixedComp::getSignedLinkPt(const long int)`. -/
def getSignedLinkPt (self : FixedComp) (sideIndex : Int) : Except Failure Vec3D :=
  if sideIndex = 0 then .ok self.Origin
  else (self.getSignedLU sideIndex).bind LinkUnit.getConnectPt

/-- `FixedComp::getSignedLinkSurf(const long int)`. -/
def getSignedLinkSurf (self : FixedComp) (sideIndex : Int) : Except Failure Int :=
  if sideIndex = 0 then .ok 0
  else
    (self.getSignedLU sideIndex).map fun LItem =>
      let sign : Int := if sideIndex > 0 then 1 else -1
      sign * LItem.getLinkSurf

/-- `FixedComp::getLinkAxis(const size_t)`. -/
def getLinkAxis (self : FixedComp) (Index : Nat) : Except Failure Vec3D :=
  if Index ≥ self.LU.length then .error Failure.IndexError
  else (vecAt self.LU Index).bind LinkUnit.getAxis

/-- `FixedComp::getSignedLinkAxis(const long int)`. -/
def getSignedLinkAxis (self : FixedComp) (sideIndex : Int) : Except Failure Vec3D :=
  if sideIndex = 0 then .ok self.Y
  else
    (self.getSignedLU sideIndex).bind fun LItem =>
      if sideIndex > 0 then LItem.getAxis else LItem.getAxis.map Vec3D.neg

/-- `FixedComp::getLinkString(const size_t)`; `display` is the rule serializer
used by `LinkUnit::getLinkString`. -/
def getLinkString (display : HeadRule → String) (self : FixedComp) (Index : Nat) :
    Except Failure String :=
  if Index ≥ self.LU.length then .error Failure.IndexError
  else (vecAt self.LU Index).map (LinkUnit.getLinkString display)

/-- `FixedComp::getSignedMainRule(const long int)`. -/
def getSignedMainRule (self : FixedComp) (sideIndex : Int) : Except Failure HeadRule :=
  (self.getSignedLU sideIndex).map fun LObj =>
    if sideIndex > 0 then LObj.getMainRule else LObj.getMainRule.complement

/-- `FixedComp::getMainRule(const size_t)`. -/
def getMainRule (self : FixedComp) (Index : Nat) : Except Failure HeadRule :=
  if Index ≥ self.LU.length then .error Failure.IndexError
  else (vecAt self.LU Index).map LinkUnit.getMainRule

/-- `FixedComp::getCommonRule(const size_t)`. -/
def getCommonRule (self : FixedComp) (Index : Nat) : Except Failure HeadRule :=
  if Index ≥ self.LU.length then .error Failure.IndexError
  else (vecAt self.LU Index).map LinkUnit.getCommonRule

/-- The body shared by the link setters:
`if (Index>=LU.size()) throw ColErr::IndexError<size_t>(...); LU[Index].m(...);`
for a member function `m` of `LinkUnit`. -/
def setLU (self : FixedComp) (Index : Nat) (m : LinkUnit → LinkUnit) : Outcome :=
  if Index ≥ self.LU.length then ⟨self, some Failure.IndexError⟩
  else ⟨{ self with LU := vecModify m self.LU Index }, none⟩

/-- `FixedComp::addLinkSurf(const size_t,const int)`. -/
def addLinkSurf (self : FixedComp) (Index : Nat) (SN : Int) : Outcome :=
  self.setLU Index fun L => L.addLinkSurf SN

/-- `FixedComp::addLinkSurf(const size_t,const std::string&)`. -/
def addLinkSurfStr (procString : String → HeadRule) (self : FixedComp) (Index : Nat)
    (SList : String) : Outcome :=
  self.setLU Index fun L => L.addLinkSurfStr procString SList

/-- `FixedComp::setLinkSurf(const size_t,const std::string&)`. -/
def setLinkSurfStr (procString : String → HeadRule) (self : FixedComp) (Index : Nat)
    (SList : String) : Outcome :=
  self.setLU Index fun L => L.setLinkSurfStr procString SList

/-- `FixedComp::setLinkSurf(const size_t,const HeadRule&)`. -/
def setLinkSurfHR (self : FixedComp) (Index : Nat) (HR : HeadRule) : Outcome :=
  self.setLU Index fun L => L.setLinkSurfHR HR

/-- `FixedComp::setLinkSurf(const size_t,const int)`. -/
def setLinkSurf (self : FixedComp) (Index : Nat) (SN : Int) : Outcome :=
  self.setLU Index fun L => L.setLinkSurf SN

/-- `FixedComp::setBridgeSurf(const size_t,const int)`. -/
def setBridgeSurf (self : FixedComp) (Index : Nat) (SN : Int) : Outcome :=
  self.setLU Index fun L => L.setBridgeSurf SN

/-- `FixedComp::setBridgeSurf(const size_t,const HeadRule&)`. -/
def setBridgeSurfHR (self : FixedComp) (Index : Nat) (HR : HeadRule) : Outcome :=
  self.setLU Index fun L => L.setBridgeSurfHR HR

/-- `FixedComp::addBridgeSurf(const size_t,const int)`. -/
def addBridgeSurf (self : FixedComp) (Index : Nat) (SN : Int) : Outcome :=
  self.setLU Index fun L => L.addBridgeSurf SN

/-- `FixedComp::addBridgeSurf(const size_t,const std::string&)`. -/
def addBridgeSurfStr (procString : String → HeadRule) (self : FixedComp) (Index : Nat)
    (SList : String) : Outcome :=
  self.setLU Index fun L => L.addBridgeSurfStr procString SList

/-- `FixedComp::setConnect(Index,C,A)`:
`LU[Index].setConnectPt(C); LU[Index].setAxis(A);` after the range check. -/
noncomputable def setConnect (self : FixedComp) (Index : Nat) (C A : Vec3D) : Outcome :=
  self.setLU Index fun L => (L.setConnectPt C).setAxis A

end FixedComp

/-- One call of a frame-mutating member function of `FixedComp`, with its
arguments. -/
inductive FrameOp where
  | applyShift (xStep yStep zStep : ℝ)
  | applyAngleRotate3 (xAngle yAngle zAngle : ℝ)
  | applyAngleRotate (xyAngle zAngle : ℝ)
  | applyRotation (Axis : Vec3D) (Angle : ℝ)
  | applyFullRotate (xyAngle zAngle : ℝ) (RotCent : Vec3D)
  | reverseZ

namespace FrameOp

/-- The calls considered: `applyRotation` is given a non-zero axis. -/
def admissible : FrameOp → Prop
  | applyRotation Axis _ => Axis ≠ ⟨0, 0, 0⟩
  | _ => True

/-- The component after the call. -/
noncomputable def run (self : FixedComp) : FrameOp → FixedComp
  | applyShift xStep yStep zStep => self.applyShift xStep yStep zStep
  | applyAngleRotate3 xAngle yAngle zAngle => self.applyAngleRotate3 xAngle yAngle zAngle
  | applyAngleRotate xyAngle zAngle => self.applyAngleRotate xyAngle zAngle
  | applyRotation Axis Angle => self.applyRotation Axis Angle
  | applyFullRotate xyAngle zAngle RotCent => self.applyFullRotate xyAngle zAngle RotCent
  | reverseZ => self.reverseZ

/-- The component after a sequence of calls, first call first. -/
noncomputable def runAll (self : FixedComp) (ops : List FrameOp) : FixedComp :=
  ops.foldl run self

end FrameOp

/-- Three vectors of length one, pairwise orthogonal, with `Z = X × Y`. -/
def OrthoBasis (X Y Z : Vec3D) : Prop :=
  X.abs = 1 ∧ Y.abs = 1 ∧ Z.abs = 1 ∧
  X.dotProd Y = 0 ∧ Y.dotProd Z = 0 ∧ X.dotProd Z = 0 ∧
  Z = X.cross Y

/-- The data-model invariant of a frame: `X`, `Y`, `Z` have length one, are
pairwise orthogonal, and `Z = X × Y`. -/
def Orthonormal (F : FixedComp) : Prop := OrthoBasis F.X F.Y F.Z

/-- A parent component for the examples: the standard basis at the origin and
two populated link points, the second with the unit axis `(0, 3/5, 4/5)`. -/
noncomputable def exampleParent : FixedComp :=
  { keyName := "Parent", X := ⟨1, 0, 0⟩, Y := ⟨0, 1, 0⟩, Z := ⟨0, 0, 1⟩,
    Origin := ⟨0, 0, 0⟩, beamOrigin := ⟨0, 0, 0⟩, beamAxis := ⟨0, 1, 0⟩,
    LU := [⟨some ⟨0, 1, 0⟩, some ⟨0, 5, 0⟩, 11, HeadRule.ofSurf 11, ⟨none⟩⟩,
           ⟨some ⟨0, 3 / 5, 4 / 5⟩, some ⟨0, 0, 7⟩, -12, HeadRule.ofSurf (-12), ⟨none⟩⟩] }

/-- A parent component whose two link axes lie along its own `Y` and `X`. -/
def exampleAligned : FixedComp :=
  { keyName := "Aligned", X := ⟨1, 0, 0⟩, Y := ⟨0, 1, 0⟩, Z := ⟨0, 0, 1⟩,
    Origin := ⟨0, 0, 0⟩, beamOrigin := ⟨0, 0, 0⟩, beamAxis := ⟨0, 1, 0⟩,
    LU := [⟨some ⟨0, 1, 0⟩, some ⟨0, 5, 0⟩, 11, HeadRule.ofSurf 11, ⟨none⟩⟩,
           ⟨some ⟨1, 0, 0⟩, some ⟨3, 0, 0⟩, -12, HeadRule.ofSurf (-12), ⟨none⟩⟩] }

/-- A child component for the examples, freshly constructed with no links. -/
def exampleChild : FixedComp := FixedComp.mk0 "Child" 0

/-- A parent for the examples whose only link point holds the axis `(0,1,0)`
but no connection point. -/
def exampleAxisOnly : FixedComp :=
  { keyName := "AxisOnly", X := ⟨1, 0, 0⟩, Y := ⟨0, 1, 0⟩, Z := ⟨0, 0, 1⟩,
    Origin := ⟨0, 0, 0⟩, beamOrigin := ⟨0, 0, 0⟩, beamAxis := ⟨0, 1, 0⟩,
    LU := [⟨some ⟨0, 1, 0⟩, none, 0, ⟨none⟩, ⟨none⟩⟩] }

namespace FixedComp

/-- `FixedComp::setLinkSurf(const size_t,const FixedComp&,const size_t)`:
`otherIndex` is checked against `FC` first, then the `int` form is called with
`-FC.getLinkSurf(otherIndex)`. -/
def setLinkSurfFC (self : FixedComp) (Index : Nat) (FC : FixedComp) (otherIndex : Nat) :
    Outcome :=
  if otherIndex ≥ FC.LU.length then ⟨self, some Failure.IndexError⟩
  else
    match FC.getLinkSurf otherIndex with
    | .error e => ⟨self, some e⟩
    | .ok SN => self.setLinkSurf Index (-SN)

/-- `FixedComp::setBridgeSurf(const size_t,const FixedComp&,const size_t)`:
`otherIndex` is checked against `FC` first, then the `int` form is called with
`-FC.getLinkSurf(otherIndex)`. -/
def setBridgeSurfFC (self : FixedComp) (Index : Nat) (FC : FixedComp) (otherIndex : Nat) :
    Outcome :=
  if otherIndex ≥ FC.LU.length then ⟨self, some Failure.IndexError⟩
  else
    match FC.getLinkSurf otherIndex with
    | .error e => ⟨self, some e⟩
    | .ok SN => self.setBridgeSurf Index (-SN)

end FixedComp

/-- A call that left the component as `r.self` changed nothing but link point
`Index`: key name, basis, origin, beam origin, beam axis, the number of link
points and every other link point are as in `self`. -/
def OnlyLinkChanged (self : FixedComp) (Index : Nat) (r : Outcome) : Prop :=
  r.self.keyName = self.keyName ∧ r.self.X = self.X ∧ r.self.Y = self.Y ∧
  r.self.Z = self.Z ∧ r.self.Origin = self.Origin ∧ r.self.beamOrigin = self.beamOrigin ∧
  r.self.beamAxis = self.beamAxis ∧ r.self.LU.length = self.LU.length ∧
  ∀ j : Nat, j ≠ Index → r.self.LU[j]? = self.LU[j]?

/-- The outcome `r` of a setter called on `self` with link number `Index` is
bounds-checked and atomic: it raises `IndexError` exactly when `Index` is not
below the number of link points, a raising call leaves the component as it
was, and a call with `Index` in range raises nothing and changes only link
point `Index`. -/
def BoundsCheckedAtomic (self : FixedComp) (Index : Nat) (r : Outcome) : Prop :=
  (r.thrown = some Failure.IndexError ↔ Index ≥ self.LU.length) ∧
  (r.thrown ≠ none → r.self = self) ∧
  (Index < self.LU.length → r.thrown = none ∧ OnlyLinkChanged self Index r)

namespace FixedComp

/-- The specification's elementary rotation: the whole basis turned by `angle`
degrees about the frame's own current `X` axis. -/
noncomputable def specRotateAboutX (F : FixedComp) (angle : ℝ) : FixedComp :=
  { F with X := (Quaternion.calcQRotDeg angle F.X).rotate F.X,
           Y := (Quaternion.calcQRotDeg angle F.X).rotate F.Y,
           Z := (Quaternion.calcQRotDeg angle F.X).rotate F.Z }

/-- The specification's elementary rotation: the whole basis turned by `angle`
degrees about the frame's own current `Y` axis. -/
noncomputable def specRotateAboutY (F : FixedComp) (angle : ℝ) : FixedComp :=
  { F with X := (Quaternion.calcQRotDeg angle F.Y).rotate F.X,
           Y := (Quaternion.calcQRotDeg angle F.Y).rotate F.Y,
           Z := (Quaternion.calcQRotDeg angle F.Y).rotate F.Z }

/-- The specification's elementary rotation: the whole basis turned by `angle`
degrees about the frame's own current `Z` axis. -/
noncomputable def specRotateAboutZ (F : FixedComp) (angle : ℝ) : FixedComp :=
  { F with X := (Quaternion.calcQRotDeg angle F.Z).rotate F.X,
           Y := (Quaternion.calcQRotDeg angle F.Z).rotate F.Y,
           Z := (Quaternion.calcQRotDeg angle F.Z).rotate F.Z }

/-- The specification of the three-angle rotation, in its words: about the
current `X` by `xAngle`, then about the then-current `Y` by `yAngle`, then
about the then-current `Z` by `zAngle`. -/
noncomputable def specAngleRotate3 (F : FixedComp) (xAngle yAngle zAngle : ℝ) : FixedComp :=
  ((F.specRotateAboutX xAngle).specRotateAboutY yAngle).specRotateAboutZ zAngle

/-- The specification of the two-angle rotation, in its words: about the
current `Z` by `xyAngle` first, then about the then-current `X` by `zAngle`. -/
noncomputable def specAngleRotate (F : FixedComp) (xyAngle zAngle : ℝ) : FixedComp :=
  (F.specRotateAboutZ xyAngle).specRotateAboutX zAngle

end FixedComp

end attachSystem

namespace Rule

/-- The truth value of a rule at a point, the point given by the side `σ n` of
every surface `n` it lies on (`true`: positive side): a literal `n > 0` holds on
the positive side of surface `n`, a literal `-n` on its negative side. -/
def eval (σ : Int → Bool) : Rule → Bool
  | Literal n => if n < 0 then !σ (-n) else σ n
  | Intersection a b => a.eval σ && b.eval σ
  | Union a b => a.eval σ || b.eval σ
  | Complement a => !a.eval σ

/-- Every literal of the rule names a surface: no literal is 0. -/
def noZero : Rule → Bool
  | Literal n => n != 0
  | Intersection a b => a.noZero && b.noZero
  | Union a b => a.noZero && b.noZero
  | Complement a => a.noZero

end Rule

namespace HeadRule

/-- The truth value of a rule at a point; the empty rule constrains nothing. -/
def eval (σ : Int → Bool) (A : HeadRule) : Bool :=
  match A.HeadNode with
  | some r => r.eval σ
  | none => true

/-- Every literal of the rule names a surface. -/
def noZero (A : HeadRule) : Bool :=
  match A.HeadNode with
  | some r => r.noZero
  | none => true

/-- Modelled from the spec: the rule of a text listing signed surface numbers,
their intersection in the order written. -/
def ofSurfs (SNs : List Int) : HeadRule :=
  SNs.foldl (fun A SN => A.addIntersection (ofSurf SN)) ⟨none⟩

end HeadRule

namespace MonteCarlo

/-- Modelled from the spec: the cell `MonteCarlo::Qhull(cellNumber, material,
temperature, rule text)`; `Qhull.h` is outside the source tree. A rule text
(`std::string`) is represented by the rule it denotes: the empty text by the
empty rule, and the concatenation `a+b` of two texts by
`a.addIntersection b`, terms written side by side in a cell definition being
intersected. -/
structure Qhull where
  name : Int
  mat : Int
  temp : ℝ
  rule : HeadRule

end MonteCarlo

namespace ModelSupport

open Geometry

/-- Modelled from the spec: a surface registered in the surface map by
`ModelSupport::buildCylinder(SMap,N,Centre,Axis,Radius)` or
`ModelSupport::buildPlane(SMap,N,Point,Normal)`; `generateSurf.h` is outside
the source tree. -/
inductive Surface where
  | Cylinder (N : Int) (Centre Axis : Vec3D) (Radius : ℝ)
  | Plane (N : Int) (Point Normal : Vec3D)

/-- Modelled from the spec: `Surface::getName`, the number a surface is
registered under. -/
def Surface.getName : Surface → Int
  | Surface.Cylinder N _ _ _ => N
  | Surface.Plane N _ _ => N

/-- Modelled from the spec: the quantity whose sign is `Surface::side(Pt)`,
positive on the positive side of the surface, zero on the surface: for a plane
the component of `Pt - Point` along the normal; for a cylinder the squared
distance of `Pt` from the axis minus the squared radius (both scaled by the
squared length of the axis vector), so that the positive side is the outside. -/
def Surface.sideValue (Pt : Vec3D) : Surface → ℝ
  | Surface.Cylinder _ Centre Axis Radius =>
    ((Pt.sub Centre).cross Axis).dotProd ((Pt.sub Centre).cross Axis) -
      Radius * Radius * Axis.dotProd Axis
  | Surface.Plane _ Point Normal => (Pt.sub Point).dotProd Normal

/-- The valuation `σ` is that of the point `Pt` of space over the surfaces of
`SMap`: a surface number is true exactly when `Pt` is on the positive side of
the surface registered under it. -/
def SidesAt (SMap : List Surface) (Pt : Vec3D) (σ : Int → Bool) : Prop :=
  ∀ s ∈ SMap, (σ s.getName = true ↔ 0 < s.sideValue Pt)

/-- Modelled from the spec: the number `ModelSupport::getComposite` writes for
the unit `n` of its pattern under the offset `N`: the offset is added to the
magnitude and the sign is kept. -/
def offsetSurf (N n : Int) : Int := if n < 0 then n - N else n + N

/-- Modelled from the spec: `ModelSupport::getComposite(SMap,N,text)` for a
pattern of plain surface units, e.g. `" -7 "` is `[-7]`. -/
def getComposite (N : Int) (text : List Int) : HeadRule :=
  HeadRule.ofSurfs (text.map (offsetSurf N))

/-- Modelled from the spec: `ModelSupport::getComposite(SMap,N,M,text)`; a unit
written with the suffix `M` (here flagged `true`) takes the second offset, e.g.
`" 3  -3M 7M "` is `[(3,false), (-3,true), (7,true)]`. -/
def getCompositeM (N M : Int) (text : List (Int × Bool)) : HeadRule :=
  HeadRule.ofSurfs (text.map fun u => if u.2 then offsetSurf M u.1 else offsetSurf N u.1)

end ModelSupport

namespace constructSystem

open Geometry MonteCarlo ModelSupport

/-- The cells of a `Simulation`, in the order `Simulation::addCell` received
them. -/
abbrev Simulation := List Qhull

/-- The part of a `TwinChopper` that `createRing` reads and writes: the frame
axes `X`, `Y`, `Z` of the component, its surface map, the next cell number
`cellIndex`, the bolt and wall materials and the cell map (`CellMap::addCell`
records a cell number under a group name). -/
structure TwinChopper where
  X : Vec3D
  Y : Vec3D
  Z : Vec3D
  SMap : List Surface
  cellIndex : Int
  boltMat : Int
  wallMat : Int
  CellMap : List (String × Int)

/-- The cell numbers recorded under a group name, as `CellMap` returns them. -/
def TwinChopper.getCells (self : TwinChopper) (Key : String) : List Int :=
  (self.CellMap.filter fun e => e.1 == Key).map fun e => e.2

/-- The first `for` loop of `createRing` with `n` iterations left: builds the
bolt cylinder `boltIndex+7` and the divider plane `boltIndex+3`, turns `DPAxis`
and `BAxis` by `QSeg` and steps `boltIndex` by 10. Returns the surface map and
`boltIndex` after the loop. -/
def createRingSurfLoop (QSeg : Quaternion) (Centre Y : Vec3D) (radius : ℝ) :
    Nat → Vec3D → Vec3D → Int → List Surface → List Surface × Int
  | 0, _, _, boltIndex, SMap => (SMap, boltIndex)
  | n + 1, DPAxis, BAxis, boltIndex, SMap =>
    let boltC := Centre.add BAxis
    let SMap1 := SMap ++ [Surface.Cylinder (boltIndex + 7) boltC Y radius]
    let SMap2 := SMap1 ++ [Surface.Plane (boltIndex + 3) Centre DPAxis]
    createRingSurfLoop QSeg Centre Y radius n (QSeg.rotate DPAxis) (QSeg.rotate BAxis)
      (boltIndex + 10) SMap2

/-- The loop state of the second `for` loop of `createRing`. -/
structure RingCells where
  cellIndex : Int
  System : Simulation
  CellMap : List (String × Int)

/-- The second `for` loop of `createRing` with `n` iterations left: adds the
bolt cell, the wall cell and, with a seal, the seal cell of one position, then
sets `prevBoltIndex=boltIndex` and steps `boltIndex` by 10. -/
def createRingCellLoop (boltMat wallMat sealMat : Int)
    (FBStr EdgeStr sealUnit sealUnitComp : HeadRule) (sealFlag : Bool) :
    Nat → Int → Int → RingCells → RingCells
  | 0, _, _, S => S
  | n + 1, prevBoltIndex, boltIndex, S =>
    let Out1 := getComposite boltIndex [-7]
    let S1 : RingCells :=
      { cellIndex := S.cellIndex + 1,
        System := S.System ++ [⟨S.cellIndex, boltMat, 0.0, Out1.addIntersection FBStr⟩],
        CellMap := S.CellMap ++ [("Bolts", S.cellIndex + 1 - 1)] }
    let Out2 := getCompositeM prevBoltIndex boltIndex [(3, false), (-3, true), (7, true)]
    let S2 : RingCells :=
      { cellIndex := S1.cellIndex + 1,
        System := S1.System ++ [⟨S1.cellIndex, wallMat, 0.0,
          ((Out2.addIntersection FBStr).addIntersection EdgeStr).addIntersection sealUnitComp⟩],
        CellMap := S1.CellMap ++ [("Wall", S1.cellIndex + 1 - 1)] }
    let S3 : RingCells :=
      if sealFlag then
        let Out3 := getCompositeM prevBoltIndex boltIndex [(3, false), (-3, true)]
        { cellIndex := S2.cellIndex + 1,
          System := S2.System ++ [⟨S2.cellIndex, sealMat, 0.0, Out3.addIntersection sealUnit⟩],
          CellMap := S2.CellMap ++ [("Seal", S2.cellIndex + 1 - 1)] }
      else S2
    createRingCellLoop boltMat wallMat sealMat FBStr EdgeStr sealUnit sealUnitComp sealFlag
      n boltIndex (boltIndex + 10) S3

/-- `TwinChopper::createRing(System,surfOffset,Centre,FBStr,EdgeStr,BRad,NBolts,
radius,angOff,sealUnit,sealMat)`. Returns the component and the simulation
after the call. -/
noncomputable def TwinChopper.createRing (self : TwinChopper) (System : Simulation)
    (surfOffset : Int) (Centre : Vec3D) (FBStr EdgeStr : HeadRule) (BRad : ℝ) (NBolts : Nat)
    (radius angOff : ℝ) (sealUnit : HeadRule) (sealMat : Int) : TwinChopper × Simulation :=
  let sealFlag : Bool := !sealUnit.HeadNode.isNone
  let sealUnitComp : HeadRule := if sealFlag then sealUnit.complement else ⟨none⟩
  if NBolts > 1 then
    let angleR : ℝ := 360.0 / (NBolts : ℝ)
    let QStartSeg := Quaternion.calcQRotDeg angOff self.Y
    let QHalfSeg := Quaternion.calcQRotDeg (angleR / 2.0) self.Y
    let QSeg := Quaternion.calcQRotDeg angleR self.Y
    let DPAxis := QHalfSeg.rotate (QStartSeg.rotate self.X)
    let BAxis := QStartSeg.rotate (self.Z.scale BRad)
    let built := createRingSurfLoop QSeg Centre self.Y radius NBolts DPAxis BAxis
      (surfOffset + 100) self.SMap
    let prevBoltIndex := built.2 - 10
    let S := createRingCellLoop self.boltMat self.wallMat sealMat FBStr EdgeStr sealUnit
      sealUnitComp sealFlag NBolts prevBoltIndex (surfOffset + 100)
      ⟨self.cellIndex, System, self.CellMap⟩
    ({ self with SMap := built.1, cellIndex := S.cellIndex, CellMap := S.CellMap }, S.System)
  else
    ({ self with cellIndex := self.cellIndex + 1,
                 CellMap := self.CellMap ++ [("Wall", self.cellIndex + 1 - 1)] },
     System ++ [⟨self.cellIndex, self.wallMat, 0.0, FBStr.addIntersection EdgeStr⟩])

/-- A chopper state for the examples: the standard basis, no surface built yet,
next cell number 1001, bolt material 3 and wall material 5. -/
def exampleChopper : TwinChopper :=
  { X := ⟨1, 0, 0⟩, Y := ⟨0, 1, 0⟩, Z := ⟨0, 0, 1⟩, SMap := [], cellIndex := 1001,
    boltMat := 3, wallMat := 5, CellMap := [] }

/-- The surface offset `boltIndex` of ring position `i`: `surfOffset+100+10*i`. -/
def boltIndexAt (surfOffset : Int) (i : Nat) : Int := surfOffset + 100 + 10 * (i : Int)

/-- The number of cells one ring position receives: bolt and wall, and a seal
cell when a seal rule is supplied. -/
def cellsPerPosition (sealUnit : HeadRule) : Int := if sealUnit.HeadNode.isNone then 2 else 3

/-- The wedge between the divider planes of two positions, in the words of the
description: the positive side of plane `prevIndex+3` and the negative side of
plane `index+3`. -/
def wedgeRule (prevIndex index : Int) : Rule :=
  Rule.Intersection (Rule.Literal (prevIndex + 3)) (Rule.Literal (-(index + 3)))

/-- The cells of one ring position in the words of the description, numbered
from `num`: (a) the bolt cell, inside bolt cylinder `index+7` and front/back;
(b) the wall cell, the wedge and outside the bolt cylinder and front/back and
edge and, with a seal rule, its complement; (c) with a seal rule, the seal
cell, the same wedge and the seal rule. -/
def positionCells (boltMat wallMat sealMat : Int) (FBStr EdgeStr sealUnit : HeadRule)
    (num prevIndex index : Int) : List Qhull :=
  [⟨num, boltMat, 0,
      (⟨some (Rule.Literal (-(index + 7)))⟩ : HeadRule).addIntersection FBStr⟩,
   ⟨num + 1, wallMat, 0,
      (((⟨some (Rule.Intersection (wedgeRule prevIndex index) (Rule.Literal (index + 7)))⟩ :
          HeadRule).addIntersection FBStr).addIntersection EdgeStr).addIntersection
        (if sealUnit.HeadNode.isNone then ⟨none⟩ else sealUnit.complement)⟩] ++
  (if sealUnit.HeadNode.isNone then []
   else [⟨num + 2, sealMat, 0,
      (⟨some (wedgeRule prevIndex index)⟩ : HeadRule).addIntersection sealUnit⟩])

/-- The cells the description gives ring position `i` of `N`: the wedge runs
from the divider of position `i-1 mod N` to the divider of position `i`. -/
def specRingCells (boltMat wallMat sealMat : Int) (FBStr EdgeStr sealUnit : HeadRule)
    (surfOffset cellIndex : Int) (N i : Nat) : List Qhull :=
  positionCells boltMat wallMat sealMat FBStr EdgeStr sealUnit
    (cellIndex + cellsPerPosition sealUnit * (i : Int))
    (boltIndexAt surfOffset ((i + N - 1) % N)) (boltIndexAt surfOffset i)

/-- The two surfaces of ring position `i` of `N` stated with the accumulated
angle: the bolt cylinder about `Centre` plus `Z*BRad` turned about `Y` by
`angOff + i*step`, and the divider plane through `Centre` whose normal is `X`
turned about `Y` by `angOff + step/2 + i*step`, where `step = 360/N`. -/
noncomputable def specRingSurfaces (self : TwinChopper) (surfOffset : Int) (Centre : Vec3D)
    (BRad radius angOff : ℝ) (N i : Nat) : List Surface :=
  [Surface.Cylinder (boltIndexAt surfOffset i + 7)
      (Centre.add ((Quaternion.calcQRotDeg (angOff + (i : ℝ) * (360 / (N : ℝ))) self.Y).rotate
        (self.Z.scale BRad))) self.Y radius,
   Surface.Plane (boltIndexAt surfOffset i + 3) Centre
      ((Quaternion.calcQRotDeg (angOff + 360 / (N : ℝ) / 2 + (i : ℝ) * (360 / (N : ℝ)))
        self.Y).rotate self.X)]

/-- The point lies in the wedge of ring position `i` of `N`: on the positive
side of the divider of position `i-1 mod N` and on the negative side of the
divider of position `i`. -/
def inWedge (σ : Int → Bool) (surfOffset : Int) (N i : Nat) : Bool :=
  σ (boltIndexAt surfOffset ((i + N - 1) % N) + 3) && !σ (boltIndexAt surfOffset i + 3)

/-- The point lies inside the bolt cylinder of ring position `i`. -/
def inBolt (σ : Int → Bool) (surfOffset : Int) (i : Nat) : Bool :=
  !σ (boltIndexAt surfOffset i + 7)

/-- The point lies in the seal region: a seal rule is supplied and holds. -/
def inSeal (σ : Int → Bool) (sealUnit : HeadRule) : Bool :=
  !sealUnit.HeadNode.isNone && sealUnit.eval σ

/-- The point lies in the ring annulus: front/back and edge. -/
def inAnnulus (σ : Int → Bool) (FBStr EdgeStr : HeadRule) : Bool :=
  FBStr.eval σ && EdgeStr.eval σ

/-- The point `Pt` lies on none of the divider planes of the ring: every
surface of `SMap` registered under a number `boltIndex+3` of the ring has a
non-zero side value at `Pt`. -/
def OffDividers (SMap : List Surface) (Pt : Vec3D) (surfOffset : Int) (N : Nat) : Prop :=
  ∀ s ∈ SMap, ∀ i, i < N → s.getName = boltIndexAt surfOffset i + 3 → s.sideValue Pt ≠ 0

/-- The cells partition the ring annulus at the point of valuation `σ`: no two
cells contain the point, and the point lies in a cell exactly when it lies in
the annulus (front/back and edge). -/
def PartitionAt (σ : Int → Bool) (cells : List Qhull) (FBStr EdgeStr : HeadRule) : Prop :=
  cells.Pairwise (fun c d => ¬ (c.rule.eval σ = true ∧ d.rule.eval σ = true)) ∧
  ((∃ c ∈ cells, c.rule.eval σ = true) ↔ inAnnulus σ FBStr EdgeStr = true)

/-- The containments of a bolt ring that are left to the radii, at the point
of valuation `σ`: between front and back, a point inside bolt cylinder `i`
lies in wedge `i`, inside the edge rule and outside the seal rule; and a point
in the seal rule lies in the annulus. -/
def Containments (σ : Int → Bool) (surfOffset : Int) (N : Nat)
    (FBStr EdgeStr sealUnit : HeadRule) : Prop :=
  (∀ i, i < N → inBolt σ surfOffset i = true → FBStr.eval σ = true →
    inWedge σ surfOffset N i = true ∧ EdgeStr.eval σ = true ∧ inSeal σ sealUnit = false) ∧
  (inSeal σ sealUnit = true → inAnnulus σ FBStr EdgeStr = true)

/-- The side value of the point `Pt` at the divider plane of position `k` of a
ring of `N`, continued to every integer `k`: the component of `Pt - Centre`
along `X` turned about `Y` by `angOff + step/2 + k*step`, `step = 360/N`. -/
noncomputable def dividerValue (self : TwinChopper) (Centre Pt : Vec3D) (angOff : ℝ) (N : Nat)
    (k : Int) : ℝ :=
  (Pt.sub Centre).dotProd
    ((Quaternion.calcQRotDeg (angOff + 360 / (N : ℝ) / 2 + (k : ℝ) * (360 / (N : ℝ)))
      self.Y).rotate self.X)

/-- A chopper state for the examples in space: the standard basis, the front
and back planes `y = -1` (surface 1) and `y = 1` (surface 11), both with the
normal `Y`, and the cylinders of radius 4 (surface 2007) and 6 (surface 2017)
about `Y` through the origin. -/
def exampleRing : TwinChopper :=
  { X := ⟨1, 0, 0⟩, Y := ⟨0, 1, 0⟩, Z := ⟨0, 0, 1⟩,
    SMap := [Surface.Plane 1 ⟨0, -1, 0⟩ ⟨0, 1, 0⟩, Surface.Plane 11 ⟨0, 1, 0⟩ ⟨0, 1, 0⟩,
             Surface.Cylinder 2007 ⟨0, 0, 0⟩ ⟨0, 1, 0⟩ 4,
             Surface.Cylinder 2017 ⟨0, 0, 0⟩ ⟨0, 1, 0⟩ 6],
    cellIndex := 1001, boltMat := 3, wallMat := 5, CellMap := [] }

/-- The front/back rule of the examples, `getComposite(SMap,0," 1 -11 ")`:
between the planes `y = -1` and `y = 1`. -/
def exampleFB : HeadRule := getComposite 0 [1, -11]

/-- The edge rule of the examples, `getComposite(SMap,2000," 7 -17 ")`: outside
the cylinder of radius 4 and inside the cylinder of radius 6. -/
def exampleEdge : HeadRule := getComposite 2000 [7, -17]

/-- The valuation of the point `(0, 0, 13/2)` over the surfaces of the example
ring of two bolts of radius 2 on the circle of radius 5: true for the surfaces
1, 2007, 2017, 2117 and 2113. -/
def sidesBeyondEdge : Int → Bool :=
  fun n => n == 1 || n == 2007 || n == 2017 || n == 2117 || n == 2113

/-- The valuation of the point `(5, 0, 0)` over the surfaces of the example
ring of two bolts: true for the surfaces 1, 2007, 2107 and 2117. -/
def sidesOnDivider : Int → Bool :=
  fun n => n == 1 || n == 2007 || n == 2107 || n == 2117

/-- The valuation of the point `(3, 0, 4)` over the surfaces of the example
ring of two bolts of radius 1: true for the surfaces 1, 2007, 2107, 2117 and
2113. -/
def sidesInWall : Int → Bool :=
  fun n => n == 1 || n == 2007 || n == 2107 || n == 2117 || n == 2113

end constructSystem

namespace Geometry

namespace Vec3D

/-- Modelled from the spec: `Vec3D::operator[]` read for the indices 0, 1, 2 the
callers use: the `x`, `y`, `z` component. -/
def get (a : Vec3D) (i : Nat) : ℝ :=
  match i with
  | 0 => a.x
  | 1 => a.y
  | _ => a.z

/-- Modelled from the spec: assignment through `Vec3D::operator[]`, `a[i]=v`. -/
def set (a : Vec3D) (i : Nat) (v : ℝ) : Vec3D :=
  match i with
  | 0 => { a with x := v }
  | 1 => { a with y := v }
  | _ => { a with z := v }

end Vec3D

end Geometry

namespace tallySystem

open Geometry attachSystem

/-- The vector `Cube` of `meshConstruct::calcXYZ` after its two filling loops:
`std::vector<Vec3D> Cube(8)` holds eight zero vectors, then `Cube[0]=APos`,
`Cube[7]=BPos`, the loop `Cube[i+1]=APos; Cube[i+1][i]=BPos[i]` and the loop
`Cube[i+5]=BPos; Cube[i+5][i]=APos[i]`, both for `i = 0, 1, 2`. -/
def calcXYZCube (APos BPos : Vec3D) : List Vec3D :=
  let Cube0 : List Vec3D := List.replicate 8 ⟨0, 0, 0⟩
  let Cube1 := Cube0.set 0 APos
  let Cube2 := Cube1.set 7 BPos
  let Cube3 := (List.range 3).foldl
    (fun Cube i => Cube.set (i + 1) (APos.set i (BPos.get i))) Cube2
  (List.range 3).foldl (fun Cube i => Cube.set (i + 5) (BPos.set i (APos.get i))) Cube3

/-- The point `A.getX()*C[0]+A.getY()*C[1]+A.getZ()*C[2]` of `calcXYZ`. -/
def calcXYZPoint (A : FixedComp) (C : Vec3D) : Vec3D :=
  ((A.X.scale (C.get 0)).add (A.Y.scale (C.get 1))).add (A.Z.scale (C.get 2))

/-- The inner loop of `calcXYZ` over `j = 0, 1, 2` for one point `Pt`:
`if (Pt[j]>PtMax[j]) PtMax[j]=Pt[j]; if (Pt[j]<PtMin[j]) PtMin[j]=Pt[j];`.
The pair is `(PtMax, PtMin)`. -/
noncomputable def calcXYZBounds (acc : Vec3D × Vec3D) (Pt : Vec3D) : Vec3D × Vec3D :=
  (List.range 3).foldl
    (fun b j =>
      (if Pt.get j > b.1.get j then b.1.set j (Pt.get j) else b.1,
       if Pt.get j < b.2.get j then b.2.set j (Pt.get j) else b.2))
    acc

/-- `meshConstruct::calcXYZ(object,linkPos,APos,BPos)`. The registry lookup of
`object` and the conversion of `linkPos` are outside the source tree: the
component found, `FC`, and the link index, `sideIndex`, are the arguments. The
result is the new `(APos, BPos)`, or the exception of
`A.createUnitVector(*FC,sideIndex)`. -/
noncomputable def calcXYZ (FC : FixedComp) (sideIndex : Int) (APos BPos : Vec3D) :
    Except Failure (Vec3D × Vec3D) :=
  let made := (FixedComp.mk0 "tmpComp" 0).createUnitVectorSide FC sideIndex
  match made.thrown with
  | some e => .error e
  | none =>
    let A := made.self
    let Cube := calcXYZCube APos BPos
    let Pt0 := calcXYZPoint A (Cube.getD 0 ⟨0, 0, 0⟩)
    let bounds := (List.range 7).foldl
      (fun b i => calcXYZBounds b (calcXYZPoint A (Cube.getD (i + 1) ⟨0, 0, 0⟩))) (Pt0, Pt0)
    .ok (bounds.2.add A.Origin, bounds.1.add A.Origin)

end tallySystem

namespace attachSystem

open Geometry

/-- Modelled from the spec: `LinkUnit::complement` (`LinkUnit.h` is outside the
source tree), the link seen from the opposite side: the axis is negated, the
primary rule is complemented and the link surface changes sign; the connection
point and the common rule stay. -/
def LinkUnit.complement (L : LinkUnit) : LinkUnit :=
  { L with Axis := L.Axis.map Vec3D.neg, linkSurf := -L.linkSurf,
           mainSurf := L.mainSurf.complement }

namespace FixedComp

/-- `FixedComp::setLinkComponent(Index,FC,sideIndex)`: both range checks, then
`LU[Index]=FC.LU[sideIndex]; LU[Index].complement();`. -/
def setLinkComponent (self : FixedComp) (Index : Nat) (FC : FixedComp) (sideIndex : Nat) :
    Outcome :=
  if Index ≥ self.LU.length then ⟨self, some Failure.IndexError⟩
  else if sideIndex ≥ FC.LU.length then ⟨self, some Failure.IndexError⟩
  else
    match vecAt FC.LU sideIndex with
    | .error e => ⟨self, some e⟩
    | .ok L =>
      let LU1 := vecModify (fun _ => L) self.LU Index
      ⟨{ self with LU := vecModify LinkUnit.complement LU1 Index }, none⟩

/-- `FixedComp::setLinkCopy(Index,FC,sideIndex)`: both range checks, then
`LU[Index]=FC.LU[sideIndex];`. -/
def setLinkCopy (self : FixedComp) (Index : Nat) (FC : FixedComp) (sideIndex : Nat) : Outcome :=
  if Index ≥ self.LU.length then ⟨self, some Failure.IndexError⟩
  else if sideIndex ≥ FC.LU.length then ⟨self, some Failure.IndexError⟩
  else
    match vecAt FC.LU sideIndex with
    | .error e => ⟨self, some e⟩
    | .ok L => ⟨{ self with LU := vecModify (fun _ => L) self.LU Index }, none⟩

/-- `FixedComp::setLinkSignedCopy(Index,FC,sideIndex)`: a positive `sideIndex`
goes to `setLinkCopy` with `static_cast<size_t>(sideIndex-1)`, a negative one
to `setLinkComponent` with `static_cast<size_t>(-1-sideIndex)`, and zero throws
`ColErr::IndexError<long int>`. -/
def setLinkSignedCopy (self : FixedComp) (Index : Nat) (FC : FixedComp) (sideIndex : Int) :
    Outcome :=
  if sideIndex > 0 then self.setLinkCopy Index FC (sideIndex - 1).toNat
  else if sideIndex < 0 then self.setLinkComponent Index FC (-1 - sideIndex).toNat
  else ⟨self, some Failure.IndexError⟩

/-- `FixedComp::calcLinkAxis(sideIndex,XVec,YVec,ZVec)`; the three output
arguments are returned as the triple `(XVec, YVec, ZVec)`. The only call that
can throw, `getSignedLinkAxis`, comes before the first assignment. -/
noncomputable def calcLinkAxis (self : FixedComp) (sideIndex : Int) :
    Except Failure (Vec3D × Vec3D × Vec3D) :=
  if sideIndex = 0 then .ok (self.X, self.Y, self.Z)
  else
    match self.getSignedLinkAxis sideIndex with
    | .error e => .error e
    | .ok YVec =>
      let ZdotYVec := self.Z.dotProd YVec
      let ZPrime := if |ZdotYVec| < 1.0 - zeroTol then self.Z else self.X
      let XVec := YVec.cross ZPrime
      let ZVec := YVec.cross XVec
      if ZVec.dotProd ZPrime * ZPrime.dotProd YVec < -zeroTol then
        .ok (XVec.scale (-1.0), YVec, ZVec.scale (-1.0))
      else .ok (XVec, YVec, ZVec)

/-- The table `oA` of `getExitWindow` after its adjustment:
`size_t oA[4]={2,3,4,5}; if (outIndex>=2 && outIndex<=5)
{ if (outIndex>4) { oA[2]=0; oA[3]=1; } else { oA[0]=0; oA[1]=1; } }`. -/
def exitWindowSides (outIndex : Nat) : List Nat :=
  if outIndex ≥ 2 ∧ outIndex ≤ 5 then
    if outIndex > 4 then [2, 3, 0, 1] else [0, 1, 4, 5]
  else [2, 3, 4, 5]

/-- The loop `for(size_t i=0;i<2 && StrFunc::section(OutSurf,dSurf) &&
std::abs(dSurf)==std::abs(primOutSurf);i++) ;` of `getExitWindow`, on the
remaining count of rounds; the result is the final `dSurf`. `StrFunc::section`
is outside the source tree: `sect` takes the next integer off the front of the
text, giving the integer and the rest, or nothing when the text does not start
with one (`dSurf` is then left as it was). -/
def exitWindowDivide (sect : String → Option (Int × String)) (primOutSurf : Int) :
    Nat → String → Int → Int
  | 0, _, dSurf => dSurf
  | n + 1, OutSurf, dSurf =>
    match sect OutSurf with
    | none => dSurf
    | some (d, rest) =>
      if |d| = |primOutSurf| then exitWindowDivide sect primOutSurf n rest d else d

/-- The loop `for(size_t i=0;i<4;i++) window.push_back(std::abs(getLinkSurf(oA[i])));`
of `getExitWindow`, over the entries of `oA` still to be read. -/
def exitWindowSurfs (self : FixedComp) : List Nat → List Int → Except Failure (List Int)
  | [], window => .ok window
  | o :: os, window =>
    match self.getLinkSurf o with
    | .error e => .error e
    | .ok s => exitWindowSurfs self os (window ++ [|s|])

/-- `FixedComp::getExitWindow(outIndex,window)`: the viewed surface and the
window written, or the exception thrown. `display` is the rule serializer
behind `getLinkString`, `sect` is `StrFunc::section` and `realSurf` is
`SMap.realSurf`, all three outside the source tree. The window on entry plays
no part: it is cleared before the first `push_back`. -/
def getExitWindow (display : HeadRule → String) (sect : String → Option (Int × String))
    (realSurf : Int → Int) (self : FixedComp) (outIndex : Nat) :
    Except Failure (Int × List Int) :=
  if self.LU.length < 6 then .error Failure.IndexError
  else if outIndex > self.LU.length then .error Failure.IndexError
  else
    match exitWindowSurfs self (exitWindowSides outIndex) [] with
    | .error e => .error e
    | .ok window4 =>
      let window := window4 ++ [0]
      match self.getLinkString display outIndex with
      | .error e => .error e
      | .ok OutSurf =>
        match self.getLinkSurf outIndex with
        | .error e => .error e
        | .ok primOutSurf =>
          let dSurf := exitWindowDivide sect primOutSurf 2 OutSurf 0
          let window1 :=
            if dSurf ≠ 0 ∧ |dSurf| ≠ |primOutSurf| then window.dropLast ++ [dSurf] else window
          .ok (|realSurf primOutSurf|, window1)

/-- A component with six link points whose link surfaces are `1` to `6`. -/
def exampleSixLinks : FixedComp :=
  { keyName := "Six", X := ⟨1, 0, 0⟩, Y := ⟨0, 1, 0⟩, Z := ⟨0, 0, 1⟩,
    Origin := ⟨0, 0, 0⟩, beamOrigin := ⟨0, 0, 0⟩, beamAxis := ⟨0, 1, 0⟩,
    LU := [1, 2, 3, 4, 5, 6].map fun n => ⟨none, none, n, HeadRule.ofSurf n, ⟨none⟩⟩ }

end FixedComp

end attachSystem

namespace constructSystem

/-- `TwinChopper::motorFrontExclude()`, as a function of the two members it
reads. The pattern text is the list of its surface units, as for
`getComposite`: `" 3017 "` is `[3017]` and `Out+=` appends. An `int` used as a
condition is true when not zero. -/
def motorFrontExclude (motorAFlag motorBFlag : Int) : List Int :=
  let Out : List Int := []
  let Out := if Int.land motorAFlag 1 ≠ 0 then Out ++ [3017] else Out
  let Out := if Int.land motorBFlag 1 ≠ 0 then Out ++ [4017] else Out
  Out

/-- `TwinChopper::motorBackExclude()`, as a function of the two members it
reads; the source tests `motorAFlag & 1` and `motorBFlag & 1`. -/
def motorBackExclude (motorAFlag motorBFlag : Int) : List Int :=
  let Out : List Int := []
  let Out := if Int.land motorAFlag 1 ≠ 0 then Out ++ [3017] else Out
  let Out := if Int.land motorBFlag 1 ≠ 0 then Out ++ [4017] else Out
  Out

/-- The condition `motorAFlag & 2` under which `createObjects` builds the back
ring of motor A (cell `"12 -2 -3007"` and `createRing` at offset 3500). -/
def buildsBackRingA (motorAFlag : Int) : Prop := Int.land motorAFlag 2 ≠ 0

/-- The condition `motorBFlag & 2` under which `createObjects` builds the back
ring of motor B (cell `"12 -2 -4007"` and `createRing` at offset 4500). -/
def buildsBackRingB (motorBFlag : Int) : Prop := Int.land motorBFlag 2 ≠ 0

/-- The condition `motorAFlag & 1` under which `createObjects` builds the front
ring of motor A. -/
def buildsFrontRingA (motorAFlag : Int) : Prop := Int.land motorAFlag 1 ≠ 0

/-- The condition `motorBFlag & 1` under which `createObjects` builds the front
ring of motor B. -/
def buildsFrontRingB (motorBFlag : Int) : Prop := Int.land motorBFlag 1 ≠ 0

end constructSystem

namespace ModelSupport

open Geometry

/-- Modelled from the spec: the variable store `FuncDataBase` (`FuncDataBase.h`
is outside the source tree), "a named real/string variable store": the real
value held under a name, if any, and the material number held under a name, if
any. -/
structure FuncDataBase where
  vars : String → Option ℝ
  mats : String → Option Int

/-- Modelled from the spec: `FuncDataBase::hasVariable(Key)`. -/
def FuncDataBase.hasVariable (Control : FuncDataBase) (Key : String) : Bool :=
  (Control.vars Key).isSome

/-- Modelled from the spec: `FuncDataBase::EvalDefVar<double>(Key,defVal)`,
"evalVariableOrDefault": the value held under `Key`, else `defVal`. -/
def FuncDataBase.EvalDefVar (Control : FuncDataBase) (Key : String) (defVal : ℝ) : ℝ :=
  (Control.vars Key).getD defVal

/-- Modelled from the spec: `ModelSupport::EvalDefMat<int>(Control,Key,defVal)`
(`MaterialSupport.h` is outside the source tree): the material number held
under `Key`, else `defVal`. -/
def EvalDefMat (Control : FuncDataBase) (Key : String) (defVal : Int) : Int :=
  (Control.mats Key).getD defVal

/-- Modelled from the spec: `StrFunc::makeString(i)` (`stringCombine.h` is
outside the source tree), the decimal text of a number. -/
def makeString (i : Nat) : String := toString i

/-- The loop of `populateDivideLen` on the remaining count of rounds, `i` being
the loop variable:
`fA=Control.EvalDefVar<double>(Name+NName,frac); Vec.push_back(fA);
if (fabs(fA-frac)>Geometry::zeroTol) { curLen+=std::fabs(fA); Vec.back()=curLen/TLen; }
curLen=Vec.back()*TLen; frac=((N-i-1.0)*Vec.back()+1.0)/(N-i);`.
`Vec.back()` is the last element (`getLastD`), and assigning to it replaces the
last element. The warning written when `curLen>TLen` changes nothing. -/
noncomputable def populateDivideLenLoop (Control : FuncDataBase) (N : Nat) (Name : String)
    (TLen : ℝ) : Nat → Nat → ℝ → ℝ → List ℝ → List ℝ
  | 0, _, _, _, Vec => Vec
  | n + 1, i, curLen, frac, Vec =>
    let fA := Control.EvalDefVar (Name ++ makeString i) frac
    let Vec1 := Vec ++ [fA]
    let Vec2 := if |fA - frac| > zeroTol then Vec1.dropLast ++ [(curLen + |fA|) / TLen] else Vec1
    let curLen1 := Vec2.getLastD 0 * TLen
    let frac1 := ((((N - i : Nat) : ℝ) - 1.0) * Vec2.getLastD 0 + 1.0) / ((N - i : Nat) : ℝ)
    populateDivideLenLoop Control N Name TLen n (i + 1) curLen1 frac1 Vec2

/-- `ModelSupport::populateDivideLen(Control,N,Name,TLen,Vec)`: the vector after
the call. The body has no `Vec.clear()`; the loop `for(size_t i=1;i<N;i++)` runs
`N-1` rounds. -/
noncomputable def populateDivideLen (Control : FuncDataBase) (N : Nat) (Name : String) (TLen : ℝ)
    (Vec : List ℝ) : List ℝ :=
  if N ≠ 0 ∧ TLen > zeroTol then
    populateDivideLenLoop Control N Name TLen (N - 1) 1 0.0 (1.0 / (N : ℝ)) Vec
  else Vec

/-- The loop of the fraction form of `populateDivide` on the remaining count of
rounds, `i` being the loop variable:
`fA=Control.EvalDefVar<double>(Name+NName,frac); Vec.push_back(fA);
frac=((N-i-1.0)*Vec.back()+1.0)/(N-i);`. -/
noncomputable def populateDivideLoop (Control : FuncDataBase) (N : Nat) (Name : String) :
    Nat → Nat → ℝ → List ℝ → List ℝ
  | 0, _, _, Vec => Vec
  | n + 1, i, frac, Vec =>
    let fA := Control.EvalDefVar (Name ++ makeString i) frac
    let Vec1 := Vec ++ [fA]
    let frac1 := ((((N - i : Nat) : ℝ) - 1.0) * Vec1.getLastD 0 + 1.0) / ((N - i : Nat) : ℝ)
    populateDivideLoop Control N Name n (i + 1) frac1 Vec1

/-- `ModelSupport::populateDivide(Control,N,Name,Vec)`, the fraction form: the
vector after the call. The body has no `Vec.clear()`. -/
noncomputable def populateDivide (Control : FuncDataBase) (N : Nat) (Name : String)
    (Vec : List ℝ) : List ℝ :=
  if N > 0 then populateDivideLoop Control N Name (N - 1) 1 (1.0 / (N : ℝ)) Vec
  else Vec

/-- The loop of the `int` default form of `populateDivide` on the remaining
count of rounds: `defV=ModelSupport::EvalDefMat<int>(Control,Name+makeString(i),defV);
Vec.push_back(defV);`. -/
def populateDivideIntLoop (Control : FuncDataBase) (Name : String) :
    Nat → Nat → Int → List Int → List Int
  | 0, _, _, Vec => Vec
  | n + 1, i, defV, Vec =>
    let defV1 := EvalDefMat Control (Name ++ makeString i) defV
    populateDivideIntLoop Control Name n (i + 1) defV1 (Vec ++ [defV1])

/-- `ModelSupport::populateDivide(Control,N,Name,const int defValue,Vec)`: the
vector after the call; the body starts with `Vec.clear()`, so the vector on
entry, the last argument, is not read. -/
def populateDivideInt (Control : FuncDataBase) (N : Nat) (Name : String) (defValue : Int)
    (_ : List Int) : List Int :=
  populateDivideIntLoop Control Name N 0 defValue []

/-- The loop of the `double` default form of `populateDivide` on the remaining
count of rounds: `fA=Control.EvalDefVar<double>(Name+NName,defValue);
Vec.push_back(fA);`. -/
def populateDivideDefLoop (Control : FuncDataBase) (Name : String) (defValue : ℝ) :
    Nat → Nat → List ℝ → List ℝ
  | 0, _, Vec => Vec
  | n + 1, i, Vec =>
    populateDivideDefLoop Control Name defValue n (i + 1)
      (Vec ++ [Control.EvalDefVar (Name ++ makeString i) defValue])

/-- `ModelSupport::populateDivide(Control,N,Name,const double defValue,Vec)`:
the vector after the call; the body starts with `Vec.clear()`, so the vector
on entry, the last argument, is not read. -/
def populateDivideDef (Control : FuncDataBase) (N : Nat) (Name : String) (defValue : ℝ)
    (_ : List ℝ) : List ℝ :=
  if N > 0 then populateDivideDefLoop Control Name defValue N 0 [] else []

/-- The inner loop `for(size_t j=aPt+1;j<index;j++) Vec[j]=Vec[j-1]+step;` of
`populateAddRange` and `populateRange`, on the remaining count of rounds, `j`
being the loop variable. -/
def stepFill (step : ℝ) : Nat → Nat → List ℝ → List ℝ
  | 0, _, Vec => Vec
  | n + 1, j, Vec => stepFill step n (j + 1) (Vec.set j (Vec.getD (j - 1) 0 + step))

/-- The first loop of `populateAddRange` on the remaining count of rounds, `i`
being the loop variable; the state is `(Vec, sum, cnt, setValues)`. The test
`Control.hasVariable(NName)` followed by `Control.EvalVar<double>(NName)` is
the case distinction on the value held under the name. -/
def populateAddRangeCollect (Control : FuncDataBase) (Name : String) :
    Nat → Nat → List ℝ × ℝ × Nat × List Nat → List ℝ × ℝ × Nat × List Nat
  | 0, _, S => S
  | n + 1, i, (Vec, sum, cnt, setValues) =>
    match Control.vars (Name ++ makeString i) with
    | some fA =>
      populateAddRangeCollect Control Name n (i + 1)
        (Vec.set i fA, sum + fA, cnt + 1, setValues ++ [i])
    | none => populateAddRangeCollect Control Name n (i + 1) (Vec, sum, cnt, setValues)

/-- The second loop of `populateAddRange`, `for(const size_t index : setValues)`,
over the entries still to be visited; the state is `aPt` and `Vec`:
`if (index) { for(j=aPt+1;j<index;j++) Vec[j]=Vec[j-1]+step; aPt=index;
Vec[index]+=Vec[index-1]; }`. -/
def populateAddRangeFill (step : ℝ) : List Nat → Nat → List ℝ → List ℝ
  | [], _, Vec => Vec
  | index :: rest, aPt, Vec =>
    if index ≠ 0 then
      let Vec1 := stepFill step (index - (aPt + 1)) (aPt + 1) Vec
      populateAddRangeFill step rest index
        (Vec1.set index (Vec1.getD index 0 + Vec1.getD (index - 1) 0))
    else populateAddRangeFill step rest aPt Vec

/-- `ModelSupport::populateAddRange(Control,N,Name,ARange,BRange,Vec)`: the
vector after the call. `Vec.clear()` comes first, so the vector on entry, the
last argument, is not read; `Vec.resize(N+1)` of the cleared vector gives
`N+1` zeros. The divisor `static_cast<double>(N-cnt)` is a difference of
`size_t`. -/
noncomputable def populateAddRange (Control : FuncDataBase) (N : Nat) (Name : String)
    (ARange BRange : ℝ) (_ : List ℝ) : List ℝ :=
  if N > 0 then
    let Vec0 := (List.replicate (N + 1) (0 : ℝ)).set 0 ARange
    let S := populateAddRangeCollect Control Name (N - 1) 1 (Vec0, 0.0, 0, [0])
    let step := (BRange - ARange - S.2.1) / ((N - S.2.2.1 : Nat) : ℝ)
    let setValues := S.2.2.2 ++ [N]
    let Vec1 := S.1.set N step
    populateAddRangeFill step setValues 0 Vec1
  else []

/-- The first loop of `populateRange` on the remaining count of rounds, `i`
being the loop variable; the state is `(Vec, setValues)`. -/
def populateRangeCollect (Control : FuncDataBase) (Name : String) :
    Nat → Nat → List ℝ × List Nat → List ℝ × List Nat
  | 0, _, S => S
  | n + 1, i, (Vec, setValues) =>
    match Control.vars (Name ++ makeString i) with
    | some fA => populateRangeCollect Control Name n (i + 1) (Vec.set i fA, setValues ++ [i])
    | none => populateRangeCollect Control Name n (i + 1) (Vec, setValues)

/-- The second loop of `populateRange`, `for(const size_t index : setValues)`,
over the entries still to be visited; the state is `aVal`, `aPt` and `Vec`:
`if (index) { step=(Vec[index]-aVal)/static_cast<double>(index-aPt);
for(j=aPt+1;j<index;j++) Vec[j]=Vec[j-1]+step; aPt=index; aVal=Vec[index]; }`. -/
noncomputable def populateRangeFill : List Nat → ℝ → Nat → List ℝ → List ℝ
  | [], _, _, Vec => Vec
  | index :: rest, aVal, aPt, Vec =>
    if index ≠ 0 then
      let step := (Vec.getD index 0 - aVal) / ((index - aPt : Nat) : ℝ)
      let Vec1 := stepFill step (index - (aPt + 1)) (aPt + 1) Vec
      populateRangeFill rest (Vec1.getD index 0) index Vec1
    else populateRangeFill rest aVal aPt Vec

/-- `ModelSupport::populateRange(Control,N,Name,ARange,BRange,Vec)`: the vector
after the call. `Vec.clear()` comes first, so the vector on entry, the last
argument, is not read; `Vec.resize(N+1)` of the cleared vector gives `N+1`
zeros. -/
noncomputable def populateRange (Control : FuncDataBase) (N : Nat) (Name : String)
    (ARange BRange : ℝ) (_ : List ℝ) : List ℝ :=
  if N > 0 then
    let Vec0 := (List.replicate (N + 1) (0 : ℝ)).set 0 ARange
    let S := populateRangeCollect Control Name (N - 1) 1 (Vec0, [0])
    let Vec1 := S.1.set N BRange
    let setValues := S.2 ++ [N]
    populateRangeFill setValues ARange 0 Vec1
  else []

/-- A variable store with no entry at all. -/
def emptyControl : FuncDataBase := ⟨fun _ => none, fun _ => none⟩

/-- A variable store whose only entry is the real `1/2` under the name `"F2"`. -/
noncomputable def exampleControl : FuncDataBase :=
  ⟨fun Key => if Key = "F2" then some (1 / 2) else none, fun _ => none⟩

end ModelSupport

namespace ModelSupport

/-- The indices `1 ≤ i < N` whose variable `Name+i` is defined, in order. -/
def definedIndices (Control : FuncDataBase) (N : Nat) (Name : String) : List Nat :=
  (List.range' 1 (N - 1)).filter fun i => Control.hasVariable (Name ++ makeString i)

/-- The sum of the defined variables `Name+i`, `1 ≤ i < N`. -/
def definedSum (Control : FuncDataBase) (N : Nat) (Name : String) : ℝ :=
  ((definedIndices Control N Name).map fun i => Control.EvalDefVar (Name ++ makeString i) 0).sum

/-- The common step of the claim on `populateAddRange`:
`(BRange - ARange - sum of the defined increments)/(N - number defined)`. -/
noncomputable def commonStep (Control : FuncDataBase) (N : Nat) (Name : String)
    (ARange BRange : ℝ) : ℝ :=
  (BRange - ARange - definedSum Control N Name) /
    ((N : ℝ) - ((definedIndices Control N Name).length : ℝ))

/-- The increment of the claim on `populateAddRange` for index `k ≥ 1`: the
variable `Name+k` when `k < N` and it is defined, else the common step. -/
def addRangeIncr (Control : FuncDataBase) (N : Nat) (Name : String) (step : ℝ) (k : Nat) : ℝ :=
  if k < N then Control.EvalDefVar (Name ++ makeString k) step else step

/-- The running total of the increments from `ARange`. -/
def addRangeAcc (Control : FuncDataBase) (N : Nat) (Name : String) (ARange step : ℝ) : Nat → ℝ
  | 0 => ARange
  | k + 1 => addRangeAcc Control N Name ARange step k + addRangeIncr Control N Name step (k + 1)

end ModelSupport

/-! ## Theorems: vectors and unit quaternions -/

namespace Geometry

namespace Vec3D

theorem abs_eq_one_iff (a : Vec3D) : a.abs = 1 ↔ a.dotProd a = 1 := by
  unfold abs
  exact Real.sqrt_eq_one

theorem dotProd_self_nonneg (a : Vec3D) : 0 ≤ a.dotProd a := by
  unfold dotProd
  nlinarith [mul_self_nonneg a.x, mul_self_nonneg a.y, mul_self_nonneg a.z]

theorem unit_of_abs_eq_one (a : Vec3D) (h : a.abs = 1) : a.unit = a := by
  unfold unit
  rw [h]
  ext <;> simp

theorem abs_pos_of_ne_zero (a : Vec3D) (h : a ≠ ⟨0, 0, 0⟩) : 0 < a.abs := by
  unfold abs
  apply Real.sqrt_pos.mpr
  rcases lt_or_eq_of_le (dotProd_self_nonneg a) with hlt | heq
  · exact hlt
  · exfalso
    apply h
    unfold dotProd at heq
    have hx : a.x = 0 := by
      nlinarith [mul_self_nonneg a.x, mul_self_nonneg a.y, mul_self_nonneg a.z]
    have hy : a.y = 0 := by
      nlinarith [mul_self_nonneg a.x, mul_self_nonneg a.y, mul_self_nonneg a.z]
    have hz : a.z = 0 := by
      nlinarith [mul_self_nonneg a.x, mul_self_nonneg a.y, mul_self_nonneg a.z]
    ext <;> simp [hx, hy, hz]

theorem abs_mul_self (a : Vec3D) : a.abs * a.abs = a.dotProd a := by
  unfold abs
  exact Real.mul_self_sqrt (dotProd_self_nonneg a)

theorem unit_abs (a : Vec3D) (h : a ≠ ⟨0, 0, 0⟩) : a.unit.abs = 1 := by
  rw [abs_eq_one_iff]
  have hp := abs_pos_of_ne_zero a h
  have hs := abs_mul_self a
  unfold unit dotProd at *
  simp only
  field_simp
  linarith

theorem ne_zero_of_abs_eq_one (a : Vec3D) (h : a.abs = 1) : a ≠ ⟨0, 0, 0⟩ := by
  intro h0
  rw [abs_eq_one_iff, h0] at h
  simp [dotProd] at h

end Vec3D

namespace Quaternion

theorem rotate_dotProd (q : Quaternion) (hq : q.IsUnit) (a b : Vec3D) :
    (q.rotate a).dotProd (q.rotate b) = a.dotProd b := by
  unfold IsUnit at hq
  simp only [rotate, mul, inverse, Vec3D.dotProd, Vec3D.add, Vec3D.scale, Vec3D.cross,
    Vec3D.neg] at *
  linear_combination
    (q.q0 * q.q0 + (q.Qvec.x * q.Qvec.x + q.Qvec.y * q.Qvec.y + q.Qvec.z * q.Qvec.z) + 1) *
      (a.x * b.x + a.y * b.y + a.z * b.z) * hq

theorem rotate_cross_norm (q : Quaternion) (a b : Vec3D) :
    (q.rotate a).cross (q.rotate b) =
      (q.rotate (a.cross b)).scale (q.q0 * q.q0 + q.Qvec.dotProd q.Qvec) := by
  ext <;>
  simp only [rotate, mul, inverse, Vec3D.dotProd, Vec3D.add, Vec3D.scale, Vec3D.cross,
      Vec3D.neg] <;> ring

theorem rotate_cross (q : Quaternion) (hq : q.IsUnit) (a b : Vec3D) :
    q.rotate (a.cross b) = (q.rotate a).cross (q.rotate b) := by
  unfold IsUnit at hq
  rw [rotate_cross_norm, hq]
  ext <;> simp [Vec3D.scale]

theorem rotate_axis (c s : ℝ) (u : Vec3D) (h : c * c + s * s * u.dotProd u = 1) :
    rotate ⟨c, u.scale s⟩ u = u := by
  ext <;>
  simp only [rotate, mul, inverse, Vec3D.dotProd, Vec3D.add, Vec3D.scale, Vec3D.cross,
      Vec3D.neg] at *
  · linear_combination u.x * h
  · linear_combination u.y * h
  · linear_combination u.z * h

theorem calcQRotDeg_isUnit (Angle : ℝ) (Axis : Vec3D) (h : Axis ≠ ⟨0, 0, 0⟩) :
    (calcQRotDeg Angle Axis).IsUnit := by
  have hu := (Vec3D.abs_eq_one_iff _).mp (Vec3D.unit_abs Axis h)
  unfold IsUnit calcQRotDeg calcQRot
  simp only [Vec3D.dotProd, Vec3D.scale] at *
  have hcs := Real.cos_sq_add_sin_sq (Real.pi * Angle / 180 / 2)
  linear_combination hcs + (Real.sin (Real.pi * Angle / 180 / 2)) ^ 2 * hu

theorem calcQRotDeg_rotate_axis (Angle : ℝ) (u : Vec3D) (hu : u.abs = 1) :
    (calcQRotDeg Angle u).rotate u = u := by
  have hd := (Vec3D.abs_eq_one_iff u).mp hu
  unfold calcQRotDeg calcQRot
  rw [Vec3D.unit_of_abs_eq_one u hu]
  apply rotate_axis
  rw [hd]
  have hcs := Real.cos_sq_add_sin_sq (Real.pi * Angle / 180 / 2)
  linear_combination hcs

end Quaternion

end Geometry

/-! ## Frames: orthonormality under the frame-mutating calls (C1) -/

namespace attachSystem

open Geometry

theorem OrthoBasis.rotate (q : Quaternion) (hq : q.IsUnit) (X Y Z : Vec3D)
    (h : OrthoBasis X Y Z) : OrthoBasis (q.rotate X) (q.rotate Y) (q.rotate Z) := by
  obtain ⟨hx, hy, hz, hxy, hyz, hxz, hc⟩ := h
  rw [Vec3D.abs_eq_one_iff] at hx hy hz
  refine ⟨?_, ?_, ?_, ?_, ?_, ?_, ?_⟩
  · rw [Vec3D.abs_eq_one_iff, Quaternion.rotate_dotProd q hq]; exact hx
  · rw [Vec3D.abs_eq_one_iff, Quaternion.rotate_dotProd q hq]; exact hy
  · rw [Vec3D.abs_eq_one_iff, Quaternion.rotate_dotProd q hq]; exact hz
  · rw [Quaternion.rotate_dotProd q hq]; exact hxy
  · rw [Quaternion.rotate_dotProd q hq]; exact hyz
  · rw [Quaternion.rotate_dotProd q hq]; exact hxz
  · rw [← Quaternion.rotate_cross q hq, ← hc]

theorem OrthoBasis.rotateDeg (Angle : ℝ) (Axis X Y Z : Vec3D) (hA : Axis.abs = 1)
    (h : OrthoBasis X Y Z) :
    OrthoBasis ((Quaternion.calcQRotDeg Angle Axis).rotate X)
      ((Quaternion.calcQRotDeg Angle Axis).rotate Y)
      ((Quaternion.calcQRotDeg Angle Axis).rotate Z) :=
  OrthoBasis.rotate _
    (Quaternion.calcQRotDeg_isUnit Angle Axis (Vec3D.ne_zero_of_abs_eq_one Axis hA)) X Y Z h

theorem scale_neg_one (a : Vec3D) : a.scale (-1.0) = a.neg := by
  ext <;> simp only [Vec3D.scale, Vec3D.neg] <;> norm_num

theorem OrthoBasis.reverse (X Y Z : Vec3D) (h : OrthoBasis X Y Z) :
    OrthoBasis (X.scale (-1.0)) Y (Z.scale (-1.0)) := by
  obtain ⟨hx, hy, hz, hxy, hyz, hxz, hc⟩ := h
  rw [Vec3D.abs_eq_one_iff] at hx hz
  have hcx := congrArg Vec3D.x hc
  have hcy := congrArg Vec3D.y hc
  have hcz := congrArg Vec3D.z hc
  rw [scale_neg_one, scale_neg_one]
  refine ⟨?_, hy, ?_, ?_, ?_, ?_, ?_⟩
  · rw [Vec3D.abs_eq_one_iff]
    simp only [Vec3D.dotProd, Vec3D.neg] at *
    linarith
  · rw [Vec3D.abs_eq_one_iff]
    simp only [Vec3D.dotProd, Vec3D.neg] at *
    linarith
  · simp only [Vec3D.dotProd, Vec3D.neg] at *
    linarith
  · simp only [Vec3D.dotProd, Vec3D.neg] at *
    linarith
  · simp only [Vec3D.dotProd, Vec3D.neg] at *
    linarith
  · ext <;> simp only [Vec3D.cross, Vec3D.neg] at * <;> linarith

theorem orthonormal_applyShift (F : FixedComp) (a b c : ℝ) (h : Orthonormal F) :
    Orthonormal (F.applyShift a b c) := h

theorem orthonormal_applyAngleRotate3 (F : FixedComp) (a b c : ℝ) (h : Orthonormal F) :
    Orthonormal (F.applyAngleRotate3 a b c) := by
  have hx : F.X.abs = 1 := h.1
  have hy : F.Y.abs = 1 := h.2.1
  have hz : F.Z.abs = 1 := h.2.2.1
  have h1 := OrthoBasis.rotateDeg c F.Z F.X F.Y F.Z hz h
  rw [Quaternion.calcQRotDeg_rotate_axis c F.Z hz] at h1
  have h2 := OrthoBasis.rotateDeg b F.Y _ _ _ hy h1
  exact OrthoBasis.rotateDeg a F.X _ _ _ hx h2

theorem orthonormal_applyAngleRotate (F : FixedComp) (a b : ℝ) (h : Orthonormal F) :
    Orthonormal (F.applyAngleRotate a b) := by
  have hx : F.X.abs = 1 := h.1
  have hz : F.Z.abs = 1 := h.2.2.1
  have h1 := OrthoBasis.rotateDeg b F.X F.X F.Y F.Z hx h
  rw [Quaternion.calcQRotDeg_rotate_axis b F.X hx] at h1
  exact OrthoBasis.rotateDeg a F.Z _ _ _ hz h1

theorem orthonormal_applyFullRotate (F : FixedComp) (a b : ℝ) (C : Vec3D) (h : Orthonormal F) :
    Orthonormal (F.applyFullRotate a b C) :=
  orthonormal_applyAngleRotate F a b h

theorem orthonormal_reverseZ (F : FixedComp) (h : Orthonormal F) : Orthonormal F.reverseZ :=
  OrthoBasis.reverse F.X F.Y F.Z h

theorem orthonormal_applyRotation (F : FixedComp) (Axis : Vec3D) (Angle : ℝ)
    (hA : Axis ≠ ⟨0, 0, 0⟩) (h : Orthonormal F) : Orthonormal (F.applyRotation Axis Angle) :=
  OrthoBasis.rotateDeg Angle Axis.unit F.X F.Y F.Z (Vec3D.unit_abs Axis hA) h

theorem orthonormal_run (F : FixedComp) (op : FrameOp) (hop : op.admissible)
    (h : Orthonormal F) : Orthonormal (FrameOp.run F op) := by
  cases op with
  | applyShift a b c => exact orthonormal_applyShift F a b c h
  | applyAngleRotate3 a b c => exact orthonormal_applyAngleRotate3 F a b c h
  | applyAngleRotate a b => exact orthonormal_applyAngleRotate F a b h
  | applyRotation A t => exact orthonormal_applyRotation F A t hop h
  | applyFullRotate a b C => exact orthonormal_applyFullRotate F a b C h
  | reverseZ => exact orthonormal_reverseZ F h

theorem orthonormal_mk0 (KN : String) (NL : Nat) : Orthonormal (FixedComp.mk0 KN NL) := by
  unfold Orthonormal OrthoBasis FixedComp.mk0
  simp only [Vec3D.abs_eq_one_iff]
  refine ⟨?_, ?_, ?_, ?_, ?_, ?_, ?_⟩ <;> simp [Vec3D.dotProd, Vec3D.cross]

/-- C1: frame orthonormality is an invariant of the frame-mutating operations.
For every component whose `X`, `Y`, `Z` are unit, pairwise orthogonal and
satisfy `Z = X × Y`, and every finite sequence of `applyShift`,
`applyAngleRotate` (two- and three-angle), `applyRotation` (non-zero axis),
`applyFullRotate` and `reverseZ` calls with arbitrary real arguments, the
resulting `X`, `Y`, `Z` are again unit, pairwise orthogonal with `Z = X × Y`. -/
theorem C1_orthonormal_runAll (ops : List FrameOp) (F : FixedComp)
    (hops : ∀ op ∈ ops, op.admissible) (h : Orthonormal F) :
    Orthonormal (FrameOp.runAll F ops) := by
  induction ops generalizing F with
  | nil => exact h
  | cons op rest ih =>
    have hop : op.admissible := hops op (List.mem_cons_self op rest)
    have hrest : ∀ o ∈ rest, o.admissible := fun o ho => hops o (List.mem_cons_of_mem op ho)
    exact ih (FrameOp.run F op) hrest (orthonormal_run F op hop h)

/-- Witness of C1: six calls, one of each kind, on the frame of a freshly
constructed component. -/
theorem C1_witness :
    Orthonormal (FixedComp.mk0 "Guide" 2) ∧
    Orthonormal (FrameOp.runAll (FixedComp.mk0 "Guide" 2)
      [FrameOp.applyShift 1 2 3, FrameOp.applyAngleRotate3 10 20 30,
       FrameOp.applyAngleRotate 45 (-15), FrameOp.applyRotation ⟨0, 0, 2⟩ 90,
       FrameOp.applyFullRotate 5 7 ⟨1, 1, 1⟩, FrameOp.reverseZ]) :=
  ⟨orthonormal_mk0 "Guide" 2,
   C1_orthonormal_runAll _ _ (by
      intro op hop
      simp only [List.mem_cons, List.mem_singleton, List.not_mem_nil, or_false] at hop
      rcases hop with h | h | h | h | h | h <;> subst h <;>
        simp [FrameOp.admissible])
    (orthonormal_mk0 "Guide" 2)⟩

/-! ## Deriving a frame from a link point (C2, C3), signed accessors (C4, C5) -/

theorem linkIndexOf_eq (s : Int) : linkIndexOf s = s.natAbs - 1 := by
  unfold linkIndexOf
  split <;> omega

theorem vecAt_of_getElem (LU : List LinkUnit) (i : Nat) (L : LinkUnit) (h : LU[i]? = some L) :
    vecAt LU i = .ok L := by
  unfold vecAt
  rw [h]

theorem lt_length_of_getElem (LU : List LinkUnit) (i : Nat) (L : LinkUnit)
    (h : LU[i]? = some L) : i < LU.length := by
  by_contra hc
  rw [List.getElem?_eq_none (Nat.le_of_not_lt hc)] at h
  exact Option.noConfusion h

theorem scale_one (a : Vec3D) : a.scale 1.0 = a := by
  ext <;> simp only [Vec3D.scale] <;> norm_num

theorem createUnitVectorSide_eq (self FC : FixedComp) (s : Int) (L : LinkUnit) (a p : Vec3D)
    (hs : s ≠ 0) (hL : FC.LU[s.natAbs - 1]? = some L)
    (ha : L.getAxis = .ok a) (hp : L.getConnectPt = .ok p) :
    self.createUnitVectorSide FC s =
      ⟨self.createUnitVectorAxes p (if s > 0 then a else a.neg)
        (if |FC.Z.dotProd a| > 1 - 1e-6 then FC.X else FC.Z), none⟩ := by
  have hlt := lt_length_of_getElem _ _ _ hL
  have hv := vecAt_of_getElem _ _ _ hL
  unfold FixedComp.createUnitVectorSide FixedComp.getLU
  simp only [linkIndexOf_eq s, hs, if_false, ge_iff_le, Nat.not_le.mpr hlt, hv, ha, hp]
  have ht : (1.0 : ℝ) - zeroTol = 1 - 1e-6 := by unfold zeroTol; norm_num
  rw [ht]
  by_cases hpos : s > 0
  · simp only [hpos, if_true, scale_one]
  · simp only [hpos, if_false, scale_neg_one]

theorem neg_abs (a : Vec3D) (h : a.abs = 1) : a.neg.abs = 1 := by
  rw [Vec3D.abs_eq_one_iff] at *
  simp only [Vec3D.dotProd, Vec3D.neg] at *
  linarith

theorem orthoBasis_cross (Y Z : Vec3D) (hY : Y.abs = 1) (hZ : Z.abs = 1)
    (h : Y.dotProd Z = 0) : OrthoBasis (Y.cross Z) Y Z := by
  have hY1 := (Vec3D.abs_eq_one_iff Y).mp hY
  have hZ1 := (Vec3D.abs_eq_one_iff Z).mp hZ
  refine ⟨?_, hY, hZ, ?_, h, ?_, ?_⟩
  · rw [Vec3D.abs_eq_one_iff]
    simp only [Vec3D.dotProd, Vec3D.cross] at *
    linear_combination
      (Z.x * Z.x + Z.y * Z.y + Z.z * Z.z) * hY1 + hZ1 -
        (Y.x * Z.x + Y.y * Z.y + Y.z * Z.z) * h
  · simp only [Vec3D.dotProd, Vec3D.cross]
    ring
  · simp only [Vec3D.dotProd, Vec3D.cross]
    ring
  · ext <;> simp only [Vec3D.dotProd, Vec3D.cross] at *
    · linear_combination (-Z.x) * hY1 + Y.x * h
    · linear_combination (-Z.y) * hY1 + Y.y * h
    · linear_combination (-Z.z) * hY1 + Y.z * h

theorem orthonormal_createUnitVectorAxes (self : FixedComp) (OG y z : Vec3D)
    (hy : y.abs = 1) (hz : z.abs = 1) (h : y.dotProd z = 0) :
    Orthonormal (self.createUnitVectorAxes OG y z) := by
  unfold Orthonormal FixedComp.createUnitVectorAxes
  simp only [Vec3D.unit_of_abs_eq_one y hy]
  exact orthoBasis_cross y z hy hz h

/-- C2, the claim as stated fails: the parent `exampleParent` has an orthonormal
right-handed basis and its second link point holds the unit axis
`(0, 3/5, 4/5)`, yet the child made by `createUnitVector(parent, 2)` has
`Y · Z = 4/5`, so its axes are not mutually orthogonal. -/
theorem C2_counterexample :
    Orthonormal exampleParent ∧
    exampleParent.getLinkAxis 1 = .ok ⟨0, 3 / 5, 4 / 5⟩ ∧
    (⟨0, 3 / 5, 4 / 5⟩ : Vec3D).abs = 1 ∧
    (exampleChild.createUnitVectorSide exampleParent 2).thrown = none ∧
    (exampleChild.createUnitVectorSide exampleParent 2).self.Y.dotProd
      (exampleChild.createUnitVectorSide exampleParent 2).self.Z = 4 / 5 ∧
    ¬ Orthonormal (exampleChild.createUnitVectorSide exampleParent 2).self := by
  have hu : (⟨0, 3 / 5, 4 / 5⟩ : Vec3D).abs = 1 := by
    rw [Vec3D.abs_eq_one_iff]
    simp only [Vec3D.dotProd]
    norm_num
  have he := createUnitVectorSide_eq exampleChild exampleParent 2
    ⟨some ⟨0, 3 / 5, 4 / 5⟩, some ⟨0, 0, 7⟩, -12, HeadRule.ofSurf (-12), ⟨none⟩⟩
    ⟨0, 3 / 5, 4 / 5⟩ ⟨0, 0, 7⟩ (by decide) rfl rfl rfl
  have hz : ¬ (|exampleParent.Z.dotProd ⟨0, 3 / 5, 4 / 5⟩| > (1 : ℝ) - 1e-6) := by
    simp only [exampleParent, Vec3D.dotProd]
    norm_num
    rw [abs_of_pos (by norm_num)]
    norm_num
  have hpos : (2 : Int) > 0 := by decide
  rw [if_neg hz, if_pos hpos] at he
  have hd : (exampleChild.createUnitVectorSide exampleParent 2).self.Y.dotProd
      (exampleChild.createUnitVectorSide exampleParent 2).self.Z = 4 / 5 := by
    rw [he]
    simp only [FixedComp.createUnitVectorAxes, Vec3D.unit_of_abs_eq_one _ hu]
    simp only [exampleParent, Vec3D.dotProd]
    norm_num
  refine ⟨?_, rfl, hu, ?_, hd, ?_⟩
  · unfold Orthonormal OrthoBasis exampleParent
    simp only [Vec3D.abs_eq_one_iff]
    refine ⟨?_, ?_, ?_, ?_, ?_, ?_, ?_⟩ <;> simp [Vec3D.dotProd, Vec3D.cross]
  · rw [he]
  · intro ho
    have h5 := ho.2.2.2.2.1
    rw [hd] at h5
    norm_num at h5

/-- C2, amended: for every parent with an orthonormal right-handed basis and
every non-zero `sideIndex` with `|sideIndex|` at most the number of link
points, whose link point `|sideIndex|-1` holds a connection point and a unit
axis that is orthogonal to the Z-hint the code selects (the parent's `Z`, or
the parent's `X` when `|Z · axis| > 1 - 1e-6`), `createUnitVector(parent,
sideIndex)` does not throw and the child has unit, mutually orthogonal
`X`, `Y`, `Z` with `Z = X × Y`. -/
theorem C2_orthonormal_child (self FC : FixedComp) (sideIndex : Int) (L : LinkUnit)
    (a p : Vec3D) (hFC : Orthonormal FC) (hs : sideIndex ≠ 0)
    (hL : FC.LU[sideIndex.natAbs - 1]? = some L)
    (ha : L.getAxis = .ok a) (hu : a.abs = 1) (hp : L.getConnectPt = .ok p)
    (ho : (if |FC.Z.dotProd a| > 1 - 1e-6 then FC.X else FC.Z).dotProd a = 0) :
    (self.createUnitVectorSide FC sideIndex).thrown = none ∧
    Orthonormal (self.createUnitVectorSide FC sideIndex).self := by
  rw [createUnitVectorSide_eq self FC sideIndex L a p hs hL ha hp]
  refine ⟨rfl, ?_⟩
  have hzu : (if |FC.Z.dotProd a| > 1 - 1e-6 then FC.X else FC.Z).abs = 1 := by
    split
    · exact hFC.1
    · exact hFC.2.2.1
  apply orthonormal_createUnitVectorAxes
  · split
    · exact hu
    · exact neg_abs a hu
  · exact hzu
  · generalize (if |FC.Z.dotProd a| > 1 - 1e-6 then FC.X else FC.Z) = z at ho
    split <;> simp only [Vec3D.dotProd, Vec3D.neg] at * <;> linarith

/-- Witness of the amended C2: the first link point of `exampleAligned`, whose
axis is the parent's own `Y`. -/
theorem C2_witness :
    Orthonormal exampleAligned ∧
    (exampleChild.createUnitVectorSide exampleAligned (-1)).thrown = none ∧
    Orthonormal (exampleChild.createUnitVectorSide exampleAligned (-1)).self :=
  have hb : Orthonormal exampleAligned := by
    unfold Orthonormal OrthoBasis exampleAligned
    simp only [Vec3D.abs_eq_one_iff]
    refine ⟨?_, ?_, ?_, ?_, ?_, ?_, ?_⟩ <;> simp [Vec3D.dotProd, Vec3D.cross]
  ⟨hb, C2_orthonormal_child exampleChild exampleAligned (-1)
    ⟨some ⟨0, 1, 0⟩, some ⟨0, 5, 0⟩, 11, HeadRule.ofSurf 11, ⟨none⟩⟩ ⟨0, 1, 0⟩ ⟨0, 5, 0⟩
    hb (by decide) rfl rfl
    (by rw [Vec3D.abs_eq_one_iff]; simp [Vec3D.dotProd]) rfl
    (by
      have ht : ¬ ((1 : ℝ) < 1e-6) := by norm_num
      simp [exampleAligned, Vec3D.dotProd, ht])⟩

/-- C3, the claim as stated fails: a freshly constructed parent with two link
points and `sideIndex = 1` meet its conditions (`sideIndex` is not zero and
`|sideIndex| ≤ 2`), but link point 0 holds no axis and no connection point:
the call throws `EmptyValue` and the child is left as it was, so its `Origin`
and `Y` are not taken from the link. The same happens for `exampleAxisOnly`,
whose link point holds an axis but no connection point. -/
theorem C3_counterexample :
    (1 : Int) ≠ 0 ∧ (1 : Int).natAbs ≤ (FixedComp.mk0 "P" 2).LU.length ∧
    (exampleChild.createUnitVectorSide (FixedComp.mk0 "P" 2) 1).thrown =
      some Failure.EmptyValue ∧
    (exampleChild.createUnitVectorSide (FixedComp.mk0 "P" 2) 1).self = exampleChild ∧
    (exampleChild.createUnitVectorSide exampleAxisOnly 1).thrown = some Failure.EmptyValue ∧
    (exampleChild.createUnitVectorSide exampleAxisOnly 1).self = exampleChild := by
  refine ⟨by decide, by decide, ?_, ?_, ?_, ?_⟩ <;>
    simp [FixedComp.createUnitVectorSide, FixedComp.mk0, linkIndexOf, FixedComp.getLU, vecAt,
      LinkUnit.getAxis, LinkUnit.getConnectPt, LinkUnit.empty, List.replicate, exampleAxisOnly]

/-- C3, amended: for every parent and every non-zero `sideIndex` with
`|sideIndex|` at most the parent's number of link points whose link point
`|sideIndex|-1` holds a connection point and a unit axis,
`createUnitVector(parent, sideIndex)` attaches at that link point: nothing is
thrown, the child's `Origin` is the link's connection point, the child's `Y`
is the link axis multiplied by the sign of `sideIndex` (the negated axis for a
negative `sideIndex` such as `-2`), and the Z-hint passed on, which becomes
the child's `Z`, is the parent's `Z` unless `|parent.Z · axis| > 1 - 1e-6`, in
which case it is the parent's `X`; `sideIndex == 0` behaves as
`createUnitVector(parent)`. -/
theorem C3_createUnitVectorSide (self FC : FixedComp) (sideIndex : Int) (L : LinkUnit)
    (a p : Vec3D) (hs : sideIndex ≠ 0) (hr : sideIndex.natAbs ≤ FC.LU.length)
    (hL : FC.LU[sideIndex.natAbs - 1]? = some L)
    (ha : L.getAxis = .ok a) (hu : a.abs = 1) (hp : L.getConnectPt = .ok p) :
    (self.createUnitVectorSide FC sideIndex).thrown = none ∧
    (self.createUnitVectorSide FC sideIndex).self.Origin = p ∧
    (self.createUnitVectorSide FC sideIndex).self.Y = a.scale (if sideIndex > 0 then 1 else -1) ∧
    (sideIndex < 0 → (self.createUnitVectorSide FC sideIndex).self.Y = a.neg) ∧
    (self.createUnitVectorSide FC sideIndex).self =
      self.createUnitVectorAxes p (a.scale (if sideIndex > 0 then 1 else -1))
        (if |FC.Z.dotProd a| > 1 - 1e-6 then FC.X else FC.Z) ∧
    (self.createUnitVectorSide FC sideIndex).self.Z =
      (if |FC.Z.dotProd a| > 1 - 1e-6 then FC.X else FC.Z) ∧
    self.createUnitVectorSide FC 0 = ⟨self.createUnitVector FC, none⟩ := by
  have _hr := hr
  have hsc : a.scale (if sideIndex > 0 then 1 else -1) = if sideIndex > 0 then a else a.neg := by
    split
    · ext <;> simp [Vec3D.scale]
    · ext <;> simp [Vec3D.scale, Vec3D.neg]
  have hya : (if sideIndex > 0 then a else a.neg).abs = 1 := by
    split
    · exact hu
    · exact neg_abs a hu
  rw [createUnitVectorSide_eq self FC sideIndex L a p hs hL ha hp, hsc]
  refine ⟨rfl, rfl, ?_, ?_, rfl, rfl, ?_⟩
  · simp only [FixedComp.createUnitVectorAxes]
    exact Vec3D.unit_of_abs_eq_one _ hya
  · intro hneg
    simp only [FixedComp.createUnitVectorAxes]
    rw [Vec3D.unit_of_abs_eq_one _ hya, if_neg (not_lt.mpr (le_of_lt hneg))]
  · simp [FixedComp.createUnitVectorSide]

/-- Witness of C3, the scenario `sideIndex = -2`: the child's `Y` is the negated
axis of the parent's link point 1 and its origin is that link's connection
point. -/
theorem C3_witness :
    exampleParent.getLinkAxis 1 = .ok ⟨0, 3 / 5, 4 / 5⟩ ∧
    (exampleChild.createUnitVectorSide exampleParent (-2)).self.Y =
      (⟨0, 3 / 5, 4 / 5⟩ : Vec3D).neg ∧
    (exampleChild.createUnitVectorSide exampleParent (-2)).self.Origin = ⟨0, 0, 7⟩ :=
  have h := C3_createUnitVectorSide exampleChild exampleParent (-2)
    ⟨some ⟨0, 3 / 5, 4 / 5⟩, some ⟨0, 0, 7⟩, -12, HeadRule.ofSurf (-12), ⟨none⟩⟩
    ⟨0, 3 / 5, 4 / 5⟩ ⟨0, 0, 7⟩ (by decide) (by decide) rfl rfl
    (by rw [Vec3D.abs_eq_one_iff]; simp only [Vec3D.dotProd]; norm_num) rfl
  ⟨rfl, h.2.2.2.1 (by decide), h.2.1⟩

/-- C4: link-point sign symmetry. For every component and every `k` with
`1 ≤ k ≤` number of link points, with `L` the link point `k-1`:
`getSignedLinkAxis(-k)` is the negation of `getSignedLinkAxis(+k)`,
`getSignedMainRule(-k)` is the complement of `getSignedMainRule(+k)`,
`getSignedLinkSurf(-k) = -getSignedLinkSurf(+k)` and
`getSignedLinkPt(-k) = getSignedLinkPt(+k)`; the positive index returns what
is stored in `L`. -/
theorem C4_sign_symmetry (F : FixedComp) (k : Nat) (h1 : 1 ≤ k) (h2 : k ≤ F.LU.length) :
    ∃ L, F.LU[k - 1]? = some L ∧
      F.getSignedLinkAxis k = L.getAxis ∧
      F.getSignedLinkAxis (-(k : Int)) = (F.getSignedLinkAxis k).map Vec3D.neg ∧
      F.getSignedMainRule k = .ok L.getMainRule ∧
      F.getSignedMainRule (-(k : Int)) = (F.getSignedMainRule k).map HeadRule.complement ∧
      F.getSignedLinkSurf k = .ok L.getLinkSurf ∧
      F.getSignedLinkSurf (-(k : Int)) = (F.getSignedLinkSurf k).map (fun s => -s) ∧
      F.getSignedLinkPt k = L.getConnectPt ∧
      F.getSignedLinkPt (-(k : Int)) = F.getSignedLinkPt k := by
  have hlt : k - 1 < F.LU.length := by omega
  refine ⟨F.LU[k - 1], List.getElem?_eq_getElem hlt, ?_⟩
  have hv : vecAt F.LU (k - 1) = .ok F.LU[k - 1] :=
    vecAt_of_getElem _ _ _ (List.getElem?_eq_getElem hlt)
  have hk0 : (k : Int) ≠ 0 := by omega
  have hn0 : -(k : Int) ≠ 0 := by omega
  have hkpos : (k : Int) > 0 := by omega
  have hnpos : ¬ (-(k : Int) > 0) := by omega
  have hi1 : (k : Int).natAbs - 1 = k - 1 := by omega
  have hi2 : (-(k : Int)).natAbs - 1 = k - 1 := by omega
  have hp : FixedComp.getSignedLU F k = .ok F.LU[k - 1] := by
    simp only [FixedComp.getSignedLU, linkIndexOf_eq, hi1, hk0, hlt, ne_eq, not_false_eq_true,
      and_self, if_true, hv]
  have hn : FixedComp.getSignedLU F (-(k : Int)) = .ok F.LU[k - 1] := by
    simp only [FixedComp.getSignedLU, linkIndexOf_eq, hi2, hn0, hlt, ne_eq, not_false_eq_true,
      and_self, if_true, hv]
  simp only [FixedComp.getSignedLinkAxis, FixedComp.getSignedMainRule,
    FixedComp.getSignedLinkSurf, FixedComp.getSignedLinkPt, hp, hn, hk0, hn0, hkpos, hnpos,
    if_true, if_false, Except.bind, Except.map]
  simp

/-- Witness of C4 on the second link point of `exampleParent` (`k = 2`). -/
theorem C4_witness :
    exampleParent.getSignedLinkAxis (-((2 : Nat) : Int)) =
      (exampleParent.getSignedLinkAxis ((2 : Nat) : Int)).map Vec3D.neg ∧
    exampleParent.getSignedLinkAxis ((2 : Nat) : Int) = .ok ⟨0, 3 / 5, 4 / 5⟩ ∧
    exampleParent.getSignedMainRule (-((2 : Nat) : Int)) =
      (exampleParent.getSignedMainRule ((2 : Nat) : Int)).map HeadRule.complement ∧
    exampleParent.getSignedLinkSurf (-((2 : Nat) : Int)) =
      (exampleParent.getSignedLinkSurf ((2 : Nat) : Int)).map (fun s => -s) ∧
    exampleParent.getSignedLinkSurf ((2 : Nat) : Int) = .ok (-12) := by
  obtain ⟨L, hL, h⟩ := C4_sign_symmetry exampleParent 2 (by decide) (by decide)
  have hL2 : L = ⟨some ⟨0, 3 / 5, 4 / 5⟩, some ⟨0, 0, 7⟩, -12, HeadRule.ofSurf (-12), ⟨none⟩⟩ := by
    have h0 : exampleParent.LU[2 - 1]? =
        some ⟨some ⟨0, 3 / 5, 4 / 5⟩, some ⟨0, 0, 7⟩, -12, HeadRule.ofSurf (-12), ⟨none⟩⟩ := rfl
    rw [h0] at hL
    exact (Option.some.inj hL).symm
  subst hL2
  exact ⟨h.2.1, h.1, h.2.2.2.1, h.2.2.2.2.2.1, h.2.2.2.2.1⟩

theorem getAxis_not_IndexError (L : LinkUnit) : L.getAxis ≠ .error Failure.IndexError := by
  unfold LinkUnit.getAxis
  cases L.Axis <;> simp

theorem getConnectPt_not_IndexError (L : LinkUnit) :
    L.getConnectPt ≠ .error Failure.IndexError := by
  unfold LinkUnit.getConnectPt
  cases L.ConnectPt <;> simp

/-- C5: `createUnitVector(parent, sideIndex)` raises `IndexError` if and only if
`sideIndex != 0` and `|sideIndex|` exceeds the parent's number of link points;
whenever the call raises, the child component is exactly as before the call
(`X`, `Y`, `Z`, `Origin`, `beamAxis` and link points included). -/
theorem C5_IndexError_iff (self FC : FixedComp) (sideIndex : Int) :
    ((self.createUnitVectorSide FC sideIndex).thrown = some Failure.IndexError ↔
      (sideIndex ≠ 0 ∧ FC.LU.length < sideIndex.natAbs)) ∧
    ((self.createUnitVectorSide FC sideIndex).thrown ≠ none →
      (self.createUnitVectorSide FC sideIndex).self = self) := by
  by_cases hs : sideIndex = 0
  · subst hs
    simp [FixedComp.createUnitVectorSide]
  · by_cases hr : linkIndexOf sideIndex ≥ FC.LU.length
    · have hlen : FC.LU.length < sideIndex.natAbs := by
        rw [linkIndexOf_eq] at hr
        omega
      simp [FixedComp.createUnitVectorSide, hs, hr, hlen]
    · have hlt : linkIndexOf sideIndex < FC.LU.length := Nat.lt_of_not_le hr
      have hlen : ¬ (FC.LU.length < sideIndex.natAbs) := by
        rw [linkIndexOf_eq] at hlt
        omega
      have hv : vecAt FC.LU (linkIndexOf sideIndex) = .ok FC.LU[linkIndexOf sideIndex] :=
        vecAt_of_getElem _ _ _ (List.getElem?_eq_getElem hlt)
      have hA := getAxis_not_IndexError FC.LU[linkIndexOf sideIndex]
      have hC := getConnectPt_not_IndexError FC.LU[linkIndexOf sideIndex]
      simp only [FixedComp.createUnitVectorSide, FixedComp.getLU, hs, hr, if_false, hv, hlen,
        ne_eq, not_false_eq_true, and_false, iff_false]
      cases hAx : LinkUnit.getAxis FC.LU[linkIndexOf sideIndex] with
      | error e =>
        rw [hAx] at hA
        refine ⟨?_, fun _ => rfl⟩
        intro he
        apply hA
        simp only [Option.some.injEq] at he
        rw [he]
      | ok yTest =>
        cases hCp : LinkUnit.getConnectPt FC.LU[linkIndexOf sideIndex] with
        | error e =>
          rw [hCp] at hC
          refine ⟨?_, fun _ => rfl⟩
          intro he
          apply hC
          simp only [Option.some.injEq] at he
          rw [he]
        | ok pt =>
          refine ⟨?_, ?_⟩
          · simp
          · intro hne
            exact absurd rfl hne

/-! ## Index checks of accessors and setters (C6, C7) -/

/-- C6, the code at the failing input: `operator[]` guards with
`Index>LU.size()`, so at `Index == LU.size()` it raises no `IndexError` and
reads past the end of the vector, while `getLU` (guard `Index>=LU.size()`)
raises `IndexError` at the same index. The other accessors named by the claim
raise `IndexError` for every index `LU.size() + n`, and `operator[]` does so
only from `LU.size() + 1` on. -/
theorem C6_index_at_size (display : HeadRule → String) (F : FixedComp) (n : Nat) :
    (FixedComp.mk0 "A" 2).index 2 = .error Failure.outOfBounds ∧
    F.index F.LU.length = .error Failure.outOfBounds ∧
    F.index F.LU.length ≠ .error Failure.IndexError ∧
    F.index (F.LU.length + n + 1) = .error Failure.IndexError ∧
    F.getLU (F.LU.length + n) = .error Failure.IndexError ∧
    F.getLinkSurf (F.LU.length + n) = .error Failure.IndexError ∧
    F.getLinkPt (F.LU.length + n) = .error Failure.IndexError ∧
    F.getLinkAxis (F.LU.length + n) = .error Failure.IndexError ∧
    F.getLinkString display (F.LU.length + n) = .error Failure.IndexError ∧
    F.getMainRule (F.LU.length + n) = .error Failure.IndexError ∧
    F.getCommonRule (F.LU.length + n) = .error Failure.IndexError := by
  have hge : F.LU.length + n ≥ F.LU.length := Nat.le_add_right _ _
  have hgt : F.LU.length + n + 1 > F.LU.length := by omega
  have hnone : F.LU[F.LU.length]? = none := List.getElem?_eq_none (Nat.le_refl _)
  have hat : F.index F.LU.length = .error Failure.outOfBounds := by
    simp only [FixedComp.index, gt_iff_lt, lt_irrefl, if_false, vecAt, hnone]
  refine ⟨rfl, hat, ?_, ?_, ?_, ?_, ?_, ?_, ?_, ?_, ?_⟩
  · rw [hat]
    simp
  · simp only [FixedComp.index, hgt, if_true]
  · simp only [FixedComp.getLU, hge, if_true]
  · simp only [FixedComp.getLinkSurf, hge, if_true]
  · simp only [FixedComp.getLinkPt, hge, if_true]
  · simp only [FixedComp.getLinkAxis, hge, if_true]
  · simp only [FixedComp.getLinkString, hge, if_true]
  · simp only [FixedComp.getMainRule, hge, if_true]
  · simp only [FixedComp.getCommonRule, hge, if_true]

theorem vecModify_length (m : LinkUnit → LinkUnit) (LU : List LinkUnit) (i : Nat) :
    (vecModify m LU i).length = LU.length := by
  induction LU generalizing i with
  | nil => rfl
  | cons L Ls ih =>
    cases i with
    | zero => rfl
    | succ k => simp [vecModify, ih]

theorem vecModify_getElem_ne (m : LinkUnit → LinkUnit) (LU : List LinkUnit) (i j : Nat)
    (h : j ≠ i) : (vecModify m LU i)[j]? = LU[j]? := by
  induction LU generalizing i j with
  | nil => rfl
  | cons L Ls ih =>
    cases i with
    | zero =>
      cases j with
      | zero => exact absurd rfl h
      | succ l => simp [vecModify]
    | succ k =>
      cases j with
      | zero => simp [vecModify]
      | succ l =>
        simp only [vecModify, List.getElem?_cons_succ]
        exact ih k l (fun hc => h (by rw [hc]))

theorem vecModify_getElem_eq (m : LinkUnit → LinkUnit) (LU : List LinkUnit) (i : Nat) :
    (vecModify m LU i)[i]? = LU[i]?.map m := by
  induction LU generalizing i with
  | nil => rfl
  | cons L Ls ih =>
    cases i with
    | zero => simp [vecModify]
    | succ k =>
      simp only [vecModify, List.getElem?_cons_succ]
      exact ih k

theorem setLU_boundsCheckedAtomic (self : FixedComp) (Index : Nat) (m : LinkUnit → LinkUnit) :
    BoundsCheckedAtomic self Index (self.setLU Index m) := by
  unfold BoundsCheckedAtomic FixedComp.setLU
  by_cases h : Index ≥ self.LU.length
  · simp only [h, if_true, true_iff, ne_eq, implies_true, true_and]
    intro hlt
    omega
  · simp only [h, if_false, ne_eq, not_true_eq_false, false_implies, true_and]
    refine ⟨by simp, ?_⟩
    intro _
    refine ⟨rfl, rfl, rfl, rfl, rfl, rfl, rfl, vecModify_length _ _ _, ?_⟩
    intro j hj
    exact vecModify_getElem_ne m self.LU Index j hj

theorem getLinkSurf_of_lt (FC : FixedComp) (i : Nat) (h : i < FC.LU.length) :
    FC.getLinkSurf i = .ok FC.LU[i].getLinkSurf := by
  have hv : vecAt FC.LU i = .ok FC.LU[i] := vecAt_of_getElem _ _ _ (List.getElem?_eq_getElem h)
  simp only [FixedComp.getLinkSurf, ge_iff_le, Nat.not_le.mpr h, if_false, hv, Except.map]

theorem setBridgeSurfFC_spec (self : FixedComp) (Index : Nat) (FC : FixedComp)
    (otherIndex : Nat) :
    ((self.setBridgeSurfFC Index FC otherIndex).thrown = some Failure.IndexError ↔
      (otherIndex ≥ FC.LU.length ∨ Index ≥ self.LU.length)) ∧
    ((self.setBridgeSurfFC Index FC otherIndex).thrown ≠ none →
      (self.setBridgeSurfFC Index FC otherIndex).self = self) ∧
    (otherIndex < FC.LU.length → Index < self.LU.length →
      (self.setBridgeSurfFC Index FC otherIndex).thrown = none ∧
      OnlyLinkChanged self Index (self.setBridgeSurfFC Index FC otherIndex)) := by
  by_cases ho : otherIndex ≥ FC.LU.length
  · simp only [FixedComp.setBridgeSurfFC, ho, if_true, true_or, ne_eq, implies_true, true_and]
    intro hlt
    omega
  · have hlt : otherIndex < FC.LU.length := Nat.lt_of_not_le ho
    have hb := setLU_boundsCheckedAtomic self Index
      (fun L => L.setBridgeSurf (-FC.LU[otherIndex].getLinkSurf))
    simp only [FixedComp.setBridgeSurfFC, ho, if_false, getLinkSurf_of_lt FC otherIndex hlt,
      false_or]
    exact ⟨hb.1, hb.2.1, fun _ hi => hb.2.2 hi⟩

/-- C7, the claim as stated fails for one overload: with `Index = 0` in range
(the component has one link point), `setBridgeSurf(0, FC, 0)` on an `FC`
without link points raises `IndexError`, because `otherIndex` is checked
against `FC` first. -/
theorem C7_counterexample :
    (0 : Nat) < (FixedComp.mk0 "A" 1).LU.length ∧
    ((FixedComp.mk0 "A" 1).setBridgeSurfFC 0 (FixedComp.mk0 "B" 0) 0).thrown =
      some Failure.IndexError := by
  refine ⟨by decide, rfl⟩

/-- C7, amended: populating a link point is bounds-checked and atomic. For every
component, `setConnect`, `setLinkSurf` (int, string and HeadRule forms),
`addLinkSurf` (int and string forms), `setBridgeSurf` (int and HeadRule forms)
and `addBridgeSurf` (int and string forms) raise `IndexError` exactly when
`Index >=` the number of link points, in which case the component is left
unchanged; with `Index` in range they raise nothing and only link point
`Index` is modified. The overload `setBridgeSurf(Index, FC, otherIndex)`
raises `IndexError` exactly when `otherIndex >=` the number of link points of
`FC` or `Index >=` the number of link points; it too leaves the component
unchanged when it raises and otherwise modifies only link point `Index`. -/
theorem C7_setters_boundsChecked (procString : String → HeadRule) (self FC : FixedComp)
    (Index otherIndex : Nat) (C A : Vec3D) (SN : Int) (SList : String) (HR : HeadRule) :
    BoundsCheckedAtomic self Index (self.setConnect Index C A) ∧
    BoundsCheckedAtomic self Index (self.setLinkSurf Index SN) ∧
    BoundsCheckedAtomic self Index (self.setLinkSurfStr procString Index SList) ∧
    BoundsCheckedAtomic self Index (self.setLinkSurfHR Index HR) ∧
    BoundsCheckedAtomic self Index (self.addLinkSurf Index SN) ∧
    BoundsCheckedAtomic self Index (self.addLinkSurfStr procString Index SList) ∧
    BoundsCheckedAtomic self Index (self.setBridgeSurf Index SN) ∧
    BoundsCheckedAtomic self Index (self.setBridgeSurfHR Index HR) ∧
    BoundsCheckedAtomic self Index (self.addBridgeSurf Index SN) ∧
    BoundsCheckedAtomic self Index (self.addBridgeSurfStr procString Index SList) ∧
    ((self.setBridgeSurfFC Index FC otherIndex).thrown = some Failure.IndexError ↔
      (otherIndex ≥ FC.LU.length ∨ Index ≥ self.LU.length)) ∧
    ((self.setBridgeSurfFC Index FC otherIndex).thrown ≠ none →
      (self.setBridgeSurfFC Index FC otherIndex).self = self) ∧
    (otherIndex < FC.LU.length → Index < self.LU.length →
      (self.setBridgeSurfFC Index FC otherIndex).thrown = none ∧
      OnlyLinkChanged self Index (self.setBridgeSurfFC Index FC otherIndex)) :=
  ⟨setLU_boundsCheckedAtomic self Index _, setLU_boundsCheckedAtomic self Index _,
   setLU_boundsCheckedAtomic self Index _, setLU_boundsCheckedAtomic self Index _,
   setLU_boundsCheckedAtomic self Index _, setLU_boundsCheckedAtomic self Index _,
   setLU_boundsCheckedAtomic self Index _, setLU_boundsCheckedAtomic self Index _,
   setLU_boundsCheckedAtomic self Index _, setLU_boundsCheckedAtomic self Index _,
   setBridgeSurfFC_spec self Index FC otherIndex⟩

/-- Witness of the amended C7 on `exampleParent`: `setLinkSurf(1, 7)` raises
nothing and keeps link point 0 and the basis, `setLinkSurf(2, 7)` raises
`IndexError` and changes nothing. -/
theorem C7_witness :
    (exampleParent.setLinkSurf 1 7).thrown = none ∧
    (exampleParent.setLinkSurf 1 7).self.LU[0]? = exampleParent.LU[0]? ∧
    (exampleParent.setLinkSurf 1 7).self.Y = exampleParent.Y ∧
    (exampleParent.setLinkSurf 2 7).thrown = some Failure.IndexError ∧
    (exampleParent.setLinkSurf 2 7).self = exampleParent := by
  have h1 := (C7_setters_boundsChecked (fun _ => ⟨none⟩) exampleParent exampleParent 1 0
    ⟨0, 0, 0⟩ ⟨0, 0, 0⟩ 7 "" ⟨none⟩).2.1
  have h2 := (C7_setters_boundsChecked (fun _ => ⟨none⟩) exampleParent exampleParent 2 0
    ⟨0, 0, 0⟩ ⟨0, 0, 0⟩ 7 "" ⟨none⟩).2.1
  have hin : (1 : Nat) < exampleParent.LU.length := by decide
  have hout : (2 : Nat) ≥ exampleParent.LU.length := by decide
  have h3 := h1.2.2 hin
  have h4 := h2.1.mpr hout
  refine ⟨h3.1, h3.2.2.2.2.2.2.2.2.2 0 (by decide), h3.2.2.2.1, h4, ?_⟩
  apply h2.2.1
  rw [h4]
  simp

/-! ## Building a frame from a beam axis and a Z-hint (C8, C9, C10) -/

theorem abs_0_2_0 : (⟨0, 2, 0⟩ : Vec3D).abs = 2 := by
  unfold Vec3D.abs Vec3D.dotProd
  have h : (0 : ℝ) * 0 + 2 * 2 + 0 * 0 = 2 ^ 2 := by norm_num
  rw [h]
  exact Real.sqrt_sq (by norm_num)

theorem abs_0_1_0 : (⟨0, 1, 0⟩ : Vec3D).abs = 1 := by
  rw [Vec3D.abs_eq_one_iff]
  simp [Vec3D.dotProd]

/-- C8, the claim as stated fails. With `beamAxis = (0,2,0)` and
`zHint = (0,0,1)` the call leaves `X = (1,0,0)`, not
`beamAxis × zHint = (2,0,0)`; with `beamAxis = (0,1,0)` and `zHint = (0,1,1)`
it leaves `Z = (0,1,1)` although `X × Y = (0,0,1)`. -/
theorem C8_counterexample :
    (exampleChild.createUnitVectorAxes ⟨0, 0, 0⟩ ⟨0, 2, 0⟩ ⟨0, 0, 1⟩).X = ⟨1, 0, 0⟩ ∧
    Vec3D.cross ⟨0, 2, 0⟩ ⟨0, 0, 1⟩ = ⟨2, 0, 0⟩ ∧
    (exampleChild.createUnitVectorAxes ⟨0, 0, 0⟩ ⟨0, 2, 0⟩ ⟨0, 0, 1⟩).X ≠
      Vec3D.cross ⟨0, 2, 0⟩ ⟨0, 0, 1⟩ ∧
    (exampleChild.createUnitVectorAxes ⟨0, 0, 0⟩ ⟨0, 1, 0⟩ ⟨0, 1, 1⟩).Z = ⟨0, 1, 1⟩ ∧
    ((exampleChild.createUnitVectorAxes ⟨0, 0, 0⟩ ⟨0, 1, 0⟩ ⟨0, 1, 1⟩).X.cross
      (exampleChild.createUnitVectorAxes ⟨0, 0, 0⟩ ⟨0, 1, 0⟩ ⟨0, 1, 1⟩).Y) = ⟨0, 0, 1⟩ ∧
    (exampleChild.createUnitVectorAxes ⟨0, 0, 0⟩ ⟨0, 1, 0⟩ ⟨0, 1, 1⟩).Z ≠
      ((exampleChild.createUnitVectorAxes ⟨0, 0, 0⟩ ⟨0, 1, 0⟩ ⟨0, 1, 1⟩).X.cross
        (exampleChild.createUnitVectorAxes ⟨0, 0, 0⟩ ⟨0, 1, 0⟩ ⟨0, 1, 1⟩).Y) := by
  have hu2 : (⟨0, 2, 0⟩ : Vec3D).unit = ⟨0, 1, 0⟩ := by
    unfold Vec3D.unit
    rw [abs_0_2_0]
    ext <;> norm_num
  have hu1 : (⟨0, 1, 0⟩ : Vec3D).unit = ⟨0, 1, 0⟩ := Vec3D.unit_of_abs_eq_one _ abs_0_1_0
  have hX : (exampleChild.createUnitVectorAxes ⟨0, 0, 0⟩ ⟨0, 2, 0⟩ ⟨0, 0, 1⟩).X = ⟨1, 0, 0⟩ := by
    simp only [FixedComp.createUnitVectorAxes, hu2]
    ext <;> simp [Vec3D.cross]
  have hC : Vec3D.cross ⟨0, 2, 0⟩ ⟨0, 0, 1⟩ = ⟨2, 0, 0⟩ := by
    ext <;> simp [Vec3D.cross]
  have hXY : ((exampleChild.createUnitVectorAxes ⟨0, 0, 0⟩ ⟨0, 1, 0⟩ ⟨0, 1, 1⟩).X.cross
      (exampleChild.createUnitVectorAxes ⟨0, 0, 0⟩ ⟨0, 1, 0⟩ ⟨0, 1, 1⟩).Y) = ⟨0, 0, 1⟩ := by
    simp only [FixedComp.createUnitVectorAxes, hu1]
    ext <;> simp [Vec3D.cross]
  refine ⟨hX, hC, ?_, rfl, hXY, ?_⟩
  · rw [hX, hC]
    intro h
    have hx := congrArg Vec3D.x h
    norm_num at hx
  · rw [hXY]
    intro h
    have hy := congrArg Vec3D.y h
    simp [FixedComp.createUnitVectorAxes] at hy

/-- C8, amended: for every origin, beamAxis and zHint,
`createUnitVector(origin, beamAxis, zHint)` sets `Origin = origin`,
`Y = beamAxis` normalised (divided by its length), `Z = zHint` as given,
`X = Y × Z` (the normalised beamAxis crossed with zHint) and `beamAxis = Y`;
the key name and the link points are untouched. -/
theorem C8_createUnitVectorAxes (self : FixedComp) (OG BeamAxis ZAxis : Vec3D) :
    (self.createUnitVectorAxes OG BeamAxis ZAxis).Origin = OG ∧
    (self.createUnitVectorAxes OG BeamAxis ZAxis).Y =
      ⟨BeamAxis.x / BeamAxis.abs, BeamAxis.y / BeamAxis.abs, BeamAxis.z / BeamAxis.abs⟩ ∧
    (self.createUnitVectorAxes OG BeamAxis ZAxis).Z = ZAxis ∧
    (self.createUnitVectorAxes OG BeamAxis ZAxis).X =
      (self.createUnitVectorAxes OG BeamAxis ZAxis).Y.cross
        (self.createUnitVectorAxes OG BeamAxis ZAxis).Z ∧
    (self.createUnitVectorAxes OG BeamAxis ZAxis).beamAxis =
      (self.createUnitVectorAxes OG BeamAxis ZAxis).Y ∧
    (self.createUnitVectorAxes OG BeamAxis ZAxis).beamOrigin = OG ∧
    (self.createUnitVectorAxes OG BeamAxis ZAxis).keyName = self.keyName ∧
    (self.createUnitVectorAxes OG BeamAxis ZAxis).LU = self.LU :=
  ⟨rfl, rfl, rfl, rfl, rfl, rfl, rfl, rfl⟩

/-- C9, the claim as stated fails: with `beamAxis = zHint = (0,1,0)`, exactly
parallel, the call returns a frame and that frame has the zero vector as `X`,
which is not of length one. -/
theorem C9_counterexample :
    (exampleChild.createUnitVectorAxes ⟨0, 0, 0⟩ ⟨0, 1, 0⟩ ⟨0, 1, 0⟩).X = ⟨0, 0, 0⟩ ∧
    (exampleChild.createUnitVectorAxes ⟨0, 0, 0⟩ ⟨0, 1, 0⟩ ⟨0, 1, 0⟩).X.abs ≠ 1 ∧
    ¬ Orthonormal (exampleChild.createUnitVectorAxes ⟨0, 0, 0⟩ ⟨0, 1, 0⟩ ⟨0, 1, 0⟩) := by
  have hu1 : (⟨0, 1, 0⟩ : Vec3D).unit = ⟨0, 1, 0⟩ := Vec3D.unit_of_abs_eq_one _ abs_0_1_0
  have hX : (exampleChild.createUnitVectorAxes ⟨0, 0, 0⟩ ⟨0, 1, 0⟩ ⟨0, 1, 0⟩).X = ⟨0, 0, 0⟩ := by
    simp only [FixedComp.createUnitVectorAxes, hu1]
    ext <;> simp [Vec3D.cross]
  have hA : (exampleChild.createUnitVectorAxes ⟨0, 0, 0⟩ ⟨0, 1, 0⟩ ⟨0, 1, 0⟩).X.abs ≠ 1 := by
    rw [hX, Ne, Vec3D.abs_eq_one_iff]
    simp [Vec3D.dotProd]
  exact ⟨hX, hA, fun ho => hA ho.1⟩

/-- C9, amended: `createUnitVector(origin, beamAxis, zHint)` has no degeneracy
check and raises nothing: for every beamAxis and every zHint parallel to it
(`zHint = beamAxis * t`) the call completes, with `Y` the normalised beamAxis,
`Z = zHint` and `X` the zero vector. -/
theorem C9_parallel_gives_zero_X (self : FixedComp) (OG BeamAxis : Vec3D) (t : ℝ) :
    (self.createUnitVectorAxes OG BeamAxis (BeamAxis.scale t)).X = ⟨0, 0, 0⟩ ∧
    (self.createUnitVectorAxes OG BeamAxis (BeamAxis.scale t)).Y = BeamAxis.unit ∧
    (self.createUnitVectorAxes OG BeamAxis (BeamAxis.scale t)).Z = BeamAxis.scale t := by
  refine ⟨?_, rfl, rfl⟩
  simp only [FixedComp.createUnitVectorAxes, Vec3D.unit, Vec3D.cross, Vec3D.scale]
  ext <;> simp only <;> ring

theorem unit_dotProd (b z : Vec3D) (h : b.dotProd z = 0) : b.unit.dotProd z = 0 := by
  simp only [Vec3D.unit, Vec3D.dotProd] at *
  have : b.x / b.abs * z.x + b.y / b.abs * z.y + b.z / b.abs * z.z =
      (b.x * z.x + b.y * z.y + b.z * z.z) / b.abs := by ring
  rw [this, h, zero_div]

/-- C10: for every origin, every non-zero beamAxis and every unit zHint
orthogonal to beamAxis, `createUnitVector(origin, beamAxis, zHint)` yields an
orthonormal right-handed frame with `Y = beamAxis/|beamAxis|`, `Z = zHint`,
`X = Y × Z`, `Z = X × Y` and the beamAxis field equal to `Y`; in particular
origin `(0,0,0)`, beamAxis `(0,1,0)`, zHint `(0,0,1)` gives `X = (1,0,0)`,
`Y = (0,1,0)`, `Z = (0,0,1)`. -/
theorem C10_createUnitVectorAxes_orthonormal (self : FixedComp) (OG BeamAxis ZAxis : Vec3D)
    (hb : BeamAxis ≠ ⟨0, 0, 0⟩) (hz : ZAxis.abs = 1) (ho : BeamAxis.dotProd ZAxis = 0) :
    Orthonormal (self.createUnitVectorAxes OG BeamAxis ZAxis) ∧
    (self.createUnitVectorAxes OG BeamAxis ZAxis).Origin = OG ∧
    (self.createUnitVectorAxes OG BeamAxis ZAxis).Y =
      ⟨BeamAxis.x / BeamAxis.abs, BeamAxis.y / BeamAxis.abs, BeamAxis.z / BeamAxis.abs⟩ ∧
    (self.createUnitVectorAxes OG BeamAxis ZAxis).Z = ZAxis ∧
    (self.createUnitVectorAxes OG BeamAxis ZAxis).X =
      (self.createUnitVectorAxes OG BeamAxis ZAxis).Y.cross
        (self.createUnitVectorAxes OG BeamAxis ZAxis).Z ∧
    (self.createUnitVectorAxes OG BeamAxis ZAxis).Z =
      (self.createUnitVectorAxes OG BeamAxis ZAxis).X.cross
        (self.createUnitVectorAxes OG BeamAxis ZAxis).Y ∧
    (self.createUnitVectorAxes OG BeamAxis ZAxis).beamAxis =
      (self.createUnitVectorAxes OG BeamAxis ZAxis).Y ∧
    (self.createUnitVectorAxes ⟨0, 0, 0⟩ ⟨0, 1, 0⟩ ⟨0, 0, 1⟩).X = ⟨1, 0, 0⟩ ∧
    (self.createUnitVectorAxes ⟨0, 0, 0⟩ ⟨0, 1, 0⟩ ⟨0, 0, 1⟩).Y = ⟨0, 1, 0⟩ ∧
    (self.createUnitVectorAxes ⟨0, 0, 0⟩ ⟨0, 1, 0⟩ ⟨0, 0, 1⟩).Z = ⟨0, 0, 1⟩ := by
  have hO : OrthoBasis (BeamAxis.unit.cross ZAxis) BeamAxis.unit ZAxis :=
    orthoBasis_cross BeamAxis.unit ZAxis (Vec3D.unit_abs BeamAxis hb) hz
      (unit_dotProd BeamAxis ZAxis ho)
  have hu1 : (⟨0, 1, 0⟩ : Vec3D).unit = ⟨0, 1, 0⟩ := Vec3D.unit_of_abs_eq_one _ abs_0_1_0
  refine ⟨hO, rfl, rfl, rfl, rfl, hO.2.2.2.2.2.2, rfl, ?_, ?_, rfl⟩
  · simp only [FixedComp.createUnitVectorAxes, hu1]
    ext <;> simp [Vec3D.cross]
  · simp only [FixedComp.createUnitVectorAxes, hu1]

/-- Witness of C10, the scenario of the specification: origin `(0,0,0)`,
beamAxis `(0,1,0)`, zHint `(0,0,1)`. -/
theorem C10_witness :
    Orthonormal (exampleChild.createUnitVectorAxes ⟨0, 0, 0⟩ ⟨0, 1, 0⟩ ⟨0, 0, 1⟩) ∧
    (exampleChild.createUnitVectorAxes ⟨0, 0, 0⟩ ⟨0, 1, 0⟩ ⟨0, 0, 1⟩).X = ⟨1, 0, 0⟩ ∧
    (exampleChild.createUnitVectorAxes ⟨0, 0, 0⟩ ⟨0, 1, 0⟩ ⟨0, 0, 1⟩).Y = ⟨0, 1, 0⟩ ∧
    (exampleChild.createUnitVectorAxes ⟨0, 0, 0⟩ ⟨0, 1, 0⟩ ⟨0, 0, 1⟩).Z = ⟨0, 0, 1⟩ :=
  have h := C10_createUnitVectorAxes_orthonormal exampleChild ⟨0, 0, 0⟩ ⟨0, 1, 0⟩ ⟨0, 0, 1⟩
    (by intro h; have hy := congrArg Vec3D.y h; norm_num at hy)
    (by rw [Vec3D.abs_eq_one_iff]; simp [Vec3D.dotProd])
    (by simp [Vec3D.dotProd])
  ⟨h.1, h.2.2.2.2.2.2.2.1, h.2.2.2.2.2.2.2.2.1, h.2.2.2.2.2.2.2.2.2⟩

end attachSystem

/-! ## Rotation order (C11), shift (C12), copying a frame (C13), signed index 0 (C14) -/

namespace Geometry

namespace Quaternion

theorem rotate_add (q : Quaternion) (v w : Vec3D) :
    q.rotate (v.add w) = (q.rotate v).add (q.rotate w) := by
  ext <;>
  simp only [rotate, mul, inverse, Vec3D.dotProd, Vec3D.add, Vec3D.scale, Vec3D.cross,
      Vec3D.neg] <;> ring

theorem rotate_scale (q : Quaternion) (v : Vec3D) (k : ℝ) :
    q.rotate (v.scale k) = (q.rotate v).scale k := by
  ext <;>
  simp only [rotate, mul, inverse, Vec3D.dotProd, Vec3D.add, Vec3D.scale, Vec3D.cross,
      Vec3D.neg] <;> ring

theorem rotate_eq (c : ℝ) (a w : Vec3D) :
    rotate ⟨c, a⟩ w =
      ((w.scale (c * c - a.dotProd a)).add (a.scale (2 * a.dotProd w))).add
        ((a.cross w).scale (2 * c)) := by
  ext <;>
  simp only [rotate, mul, inverse, Vec3D.dotProd, Vec3D.add, Vec3D.scale, Vec3D.cross,
      Vec3D.neg] <;> ring

theorem rotate_conj (p : Quaternion) (hp : p.IsUnit) (c : ℝ) (a w : Vec3D) :
    rotate ⟨c, p.rotate a⟩ (p.rotate w) = p.rotate (rotate ⟨c, a⟩ w) := by
  rw [rotate_eq c (p.rotate a) (p.rotate w), rotate_eq c a w, rotate_dotProd p hp,
    rotate_dotProd p hp, ← rotate_cross p hp, rotate_add, rotate_add, rotate_scale,
    rotate_scale, rotate_scale]

theorem calcQRotDeg_conj (p : Quaternion) (hp : p.IsUnit) (Angle : ℝ) (u w : Vec3D)
    (hu : u.abs = 1) :
    (calcQRotDeg Angle (p.rotate u)).rotate (p.rotate w) =
      p.rotate ((calcQRotDeg Angle u).rotate w) := by
  have hpu : (p.rotate u).abs = 1 := by
    rw [Vec3D.abs_eq_one_iff, rotate_dotProd p hp, ← Vec3D.abs_eq_one_iff]
    exact hu
  unfold calcQRotDeg calcQRot
  rw [Vec3D.unit_of_abs_eq_one _ hpu, Vec3D.unit_of_abs_eq_one _ hu, ← rotate_scale]
  exact rotate_conj p hp _ _ _

end Quaternion

end Geometry

namespace attachSystem

open Geometry

theorem calcQRotDeg_isUnit_of_abs (Angle : ℝ) (u : Vec3D) (hu : u.abs = 1) :
    (Quaternion.calcQRotDeg Angle u).IsUnit :=
  Quaternion.calcQRotDeg_isUnit Angle u (Vec3D.ne_zero_of_abs_eq_one u hu)

theorem rotate_abs (p : Quaternion) (hp : p.IsUnit) (u : Vec3D) (hu : u.abs = 1) :
    (p.rotate u).abs = 1 := by
  rw [Vec3D.abs_eq_one_iff, Quaternion.rotate_dotProd p hp, ← Vec3D.abs_eq_one_iff]
  exact hu

/-- C11: the rotations compose about the frame's own current axes in the
documented order. For every orthonormal frame and all angles,
`applyAngleRotate(xAngle, yAngle, zAngle)` leaves the same `X`, `Y`, `Z` as
rotating the basis about its current `X` by `xAngle`, then about its
then-current `Y` by `yAngle`, then about its then-current `Z` by `zAngle`; and
`applyAngleRotate(xyAngle, zAngle)` leaves the same basis as rotating about
its current `Z` by `xyAngle` first and then about its then-current `X` by
`zAngle`. -/
theorem C11_rotation_order (F : FixedComp) (xAngle yAngle zAngle xyAngle : ℝ)
    (h : Orthonormal F) :
    (F.applyAngleRotate3 xAngle yAngle zAngle).X = (F.specAngleRotate3 xAngle yAngle zAngle).X ∧
    (F.applyAngleRotate3 xAngle yAngle zAngle).Y = (F.specAngleRotate3 xAngle yAngle zAngle).Y ∧
    (F.applyAngleRotate3 xAngle yAngle zAngle).Z = (F.specAngleRotate3 xAngle yAngle zAngle).Z ∧
    (F.applyAngleRotate xyAngle zAngle).X = (F.specAngleRotate xyAngle zAngle).X ∧
    (F.applyAngleRotate xyAngle zAngle).Y = (F.specAngleRotate xyAngle zAngle).Y ∧
    (F.applyAngleRotate xyAngle zAngle).Z = (F.specAngleRotate xyAngle zAngle).Z := by
  have hx : F.X.abs = 1 := h.1
  have hy : F.Y.abs = 1 := h.2.1
  have hz : F.Z.abs = 1 := h.2.2.1
  have uX := calcQRotDeg_isUnit_of_abs xAngle F.X hx
  have uY := calcQRotDeg_isUnit_of_abs yAngle F.Y hy
  have uZ := calcQRotDeg_isUnit_of_abs xyAngle F.Z hz
  have fZ := Quaternion.calcQRotDeg_rotate_axis zAngle F.Z hz
  have fX := Quaternion.calcQRotDeg_rotate_axis zAngle F.X hx
  -- three-angle form: the axis of the second turn is `Qx Y`, that of the third `Qx (Qy Z)`
  have c2 : ∀ w, (Quaternion.calcQRotDeg yAngle
        ((Quaternion.calcQRotDeg xAngle F.X).rotate F.Y)).rotate
        ((Quaternion.calcQRotDeg xAngle F.X).rotate w) =
      (Quaternion.calcQRotDeg xAngle F.X).rotate ((Quaternion.calcQRotDeg yAngle F.Y).rotate w) :=
    fun w => Quaternion.calcQRotDeg_conj _ uX yAngle F.Y w hy
  have c3 : ∀ w, (Quaternion.calcQRotDeg zAngle
        ((Quaternion.calcQRotDeg xAngle F.X).rotate
          ((Quaternion.calcQRotDeg yAngle F.Y).rotate F.Z))).rotate
        ((Quaternion.calcQRotDeg xAngle F.X).rotate
          ((Quaternion.calcQRotDeg yAngle F.Y).rotate w)) =
      (Quaternion.calcQRotDeg xAngle F.X).rotate ((Quaternion.calcQRotDeg yAngle F.Y).rotate
        ((Quaternion.calcQRotDeg zAngle F.Z).rotate w)) := by
    intro w
    rw [Quaternion.calcQRotDeg_conj _ uX zAngle _ _ (rotate_abs _ uY F.Z hz),
      Quaternion.calcQRotDeg_conj _ uY zAngle F.Z w hz]
  -- two-angle form: the axis of the second turn is `Qxy X`
  have d2 : ∀ w, (Quaternion.calcQRotDeg zAngle
        ((Quaternion.calcQRotDeg xyAngle F.Z).rotate F.X)).rotate
        ((Quaternion.calcQRotDeg xyAngle F.Z).rotate w) =
      (Quaternion.calcQRotDeg xyAngle F.Z).rotate ((Quaternion.calcQRotDeg zAngle F.X).rotate w) :=
    fun w => Quaternion.calcQRotDeg_conj _ uZ zAngle F.X w hx
  simp only [FixedComp.applyAngleRotate3, FixedComp.applyAngleRotate,
    FixedComp.specAngleRotate3, FixedComp.specAngleRotate, FixedComp.specRotateAboutX,
    FixedComp.specRotateAboutY, FixedComp.specRotateAboutZ]
  simp only [c2, c3, d2, fZ, fX, and_self]

/-- Witness of C11 on the frame of a freshly constructed component. -/
theorem C11_witness :
    Orthonormal (FixedComp.mk0 "Guide" 2) ∧
    ((FixedComp.mk0 "Guide" 2).applyAngleRotate3 10 20 30).Y =
      ((FixedComp.mk0 "Guide" 2).specAngleRotate3 10 20 30).Y ∧
    ((FixedComp.mk0 "Guide" 2).applyAngleRotate 45 (-15)).Z =
      ((FixedComp.mk0 "Guide" 2).specAngleRotate 45 (-15)).Z :=
  have h := C11_rotation_order (FixedComp.mk0 "Guide" 2) 10 20 30 45 (orthonormal_mk0 "Guide" 2)
  have h2 := C11_rotation_order (FixedComp.mk0 "Guide" 2) 0 0 (-15) 45 (orthonormal_mk0 "Guide" 2)
  ⟨orthonormal_mk0 "Guide" 2, h.2.1, h2.2.2.2.2.2⟩

/-- C12: `applyShift` is a local-axis translation. For every frame and all
`dx`, `dy`, `dz` the new `Origin` is `Origin + dx*X + dy*Y + dz*Z`, while `X`,
`Y`, `Z`, `beamAxis` and all link points (and key name and beam origin) are
unchanged; consequently `applyShift(a)` followed by `applyShift(b)` equals
`applyShift(a+b)`. -/
theorem C12_applyShift (F : FixedComp) (dx dy dz ex ey ez : ℝ) :
    (F.applyShift dx dy dz).Origin =
      ⟨F.Origin.x + (dx * F.X.x + dy * F.Y.x + dz * F.Z.x),
       F.Origin.y + (dx * F.X.y + dy * F.Y.y + dz * F.Z.y),
       F.Origin.z + (dx * F.X.z + dy * F.Y.z + dz * F.Z.z)⟩ ∧
    (F.applyShift dx dy dz).X = F.X ∧ (F.applyShift dx dy dz).Y = F.Y ∧
    (F.applyShift dx dy dz).Z = F.Z ∧ (F.applyShift dx dy dz).beamAxis = F.beamAxis ∧
    (F.applyShift dx dy dz).LU = F.LU ∧ (F.applyShift dx dy dz).keyName = F.keyName ∧
    (F.applyShift dx dy dz).beamOrigin = F.beamOrigin ∧
    (F.applyShift dx dy dz).applyShift ex ey ez = F.applyShift (dx + ex) (dy + ey) (dz + ez) := by
  refine ⟨?_, rfl, rfl, rfl, rfl, rfl, rfl, rfl, ?_⟩
  · ext <;> simp only [FixedComp.applyShift, Vec3D.add, Vec3D.scale] <;> ring
  · simp only [FixedComp.applyShift, FixedComp.mk.injEq, true_and, and_true]
    ext <;> simp only [Vec3D.add, Vec3D.scale] <;> ring

/-- C13: `createUnitVector(parent)` copies the parent's `X`, `Y`, `Z`, `Origin`
and `beamAxis` (and beam origin) verbatim into the child and leaves the
child's key name and link points unchanged. The parent is passed by const
reference and is not part of the result; when the parent is the child itself
the call changes nothing. -/
theorem C13_createUnitVector_copy (self FC : FixedComp) :
    (self.createUnitVector FC).X = FC.X ∧ (self.createUnitVector FC).Y = FC.Y ∧
    (self.createUnitVector FC).Z = FC.Z ∧ (self.createUnitVector FC).Origin = FC.Origin ∧
    (self.createUnitVector FC).beamAxis = FC.beamAxis ∧
    (self.createUnitVector FC).beamOrigin = FC.beamOrigin ∧
    (self.createUnitVector FC).keyName = self.keyName ∧
    (self.createUnitVector FC).LU = self.LU ∧
    FC.createUnitVector FC = FC :=
  ⟨rfl, rfl, rfl, rfl, rfl, rfl, rfl, rfl, rfl⟩

theorem calcQRotDeg_180_Z :
    Quaternion.calcQRotDeg 180 ⟨0, 0, 1⟩ = ⟨0, ⟨0, 0, 1⟩⟩ := by
  have hu : (⟨0, 0, 1⟩ : Vec3D).abs = 1 := by
    rw [Vec3D.abs_eq_one_iff]; simp [Vec3D.dotProd]
  have ha : Real.pi * 180 / 180 / 2 = Real.pi / 2 := by ring
  unfold Quaternion.calcQRotDeg Quaternion.calcQRot
  rw [Vec3D.unit_of_abs_eq_one _ hu, ha, Real.cos_pi_div_two, Real.sin_pi_div_two]
  simp [Vec3D.scale]

theorem calcQRotDeg_0_X :
    Quaternion.calcQRotDeg 0 ⟨1, 0, 0⟩ = ⟨1, ⟨0, 0, 0⟩⟩ := by
  unfold Quaternion.calcQRotDeg Quaternion.calcQRot
  simp [Vec3D.scale]

/-- C14, the claim as stated fails: `getSignedLinkAxis(0)` returns `Y`, not the
`beamAxis` field. A freshly constructed component has `Y = (0,1,0)` and
`beamAxis = (0,0,0)`; and after `createUnitVector(origin,(0,1,0),(0,0,1))`
followed by `applyAngleRotate(180,0)` the component has `beamAxis = (0,1,0)`
while `getSignedLinkAxis(0)` returns `Y = (0,-1,0)`. -/
theorem C14_counterexample :
    (FixedComp.mk0 "A" 0).getSignedLinkAxis 0 = .ok ⟨0, 1, 0⟩ ∧
    (FixedComp.mk0 "A" 0).beamAxis = ⟨0, 0, 0⟩ ∧
    (FixedComp.mk0 "A" 0).getSignedLinkAxis 0 ≠ .ok (FixedComp.mk0 "A" 0).beamAxis ∧
    ((exampleChild.createUnitVectorAxes ⟨0, 0, 0⟩ ⟨0, 1, 0⟩ ⟨0, 0, 1⟩).applyAngleRotate
      180 0).getSignedLinkAxis 0 = .ok ⟨0, -1, 0⟩ ∧
    ((exampleChild.createUnitVectorAxes ⟨0, 0, 0⟩ ⟨0, 1, 0⟩ ⟨0, 0, 1⟩).applyAngleRotate
      180 0).beamAxis = ⟨0, 1, 0⟩ := by
  have hu1 : (⟨0, 1, 0⟩ : Vec3D).unit = ⟨0, 1, 0⟩ := Vec3D.unit_of_abs_eq_one _ abs_0_1_0
  have hX : Vec3D.cross ⟨0, 1, 0⟩ ⟨0, 0, 1⟩ = ⟨1, 0, 0⟩ := by
    ext <;> simp [Vec3D.cross]
  refine ⟨rfl, rfl, ?_, ?_, ?_⟩
  · intro h
    have hy := congrArg (fun r => match r with
      | Except.ok (v : Vec3D) => v.y
      | Except.error _ => 0) h
    simp [FixedComp.getSignedLinkAxis, FixedComp.mk0] at hy
  · simp only [FixedComp.getSignedLinkAxis, if_true, FixedComp.applyAngleRotate,
      FixedComp.createUnitVectorAxes, hu1, hX, calcQRotDeg_180_Z, calcQRotDeg_0_X]
    congr 1
    ext <;> simp [Quaternion.rotate, Quaternion.mul, Quaternion.inverse, Vec3D.dotProd,
      Vec3D.add, Vec3D.scale, Vec3D.cross, Vec3D.neg]
  · simp only [FixedComp.applyAngleRotate, FixedComp.createUnitVectorAxes, hu1]

/-- C14, amended: signed index 0 denotes the frame itself. For every component,
in any state of the link points, `getSignedLinkPt(0)` returns the frame's
`Origin` and `getSignedLinkAxis(0)` returns the frame's `Y` axis. -/
theorem C14_signed_index_zero (F : FixedComp) :
    F.getSignedLinkPt 0 = .ok F.Origin ∧ F.getSignedLinkAxis 0 = .ok F.Y :=
  ⟨rfl, rfl⟩

end attachSystem

/-! ## The bolt ring of `TwinChopper::createRing` (C15, C16, C17, C18, C19) -/

namespace constructSystem

open Geometry MonteCarlo ModelSupport

/-- The number of cells recorded under `Key` in a cell map. -/
theorem getCells_length (self : TwinChopper) (Key : String) :
    (self.getCells Key).length = (self.CellMap.filter fun e => e.1 == Key).length := by
  simp [TwinChopper.getCells]

theorem createRingCellLoop_counts (boltMat wallMat sealMat : Int)
    (FBStr EdgeStr sealUnit sealUnitComp : HeadRule) (sealFlag : Bool) (n : Nat) :
    ∀ (prev b : Int) (S : RingCells),
      (createRingCellLoop boltMat wallMat sealMat FBStr EdgeStr sealUnit sealUnitComp sealFlag
        n prev b S).cellIndex = S.cellIndex + n * (if sealFlag then 3 else 2) ∧
      (createRingCellLoop boltMat wallMat sealMat FBStr EdgeStr sealUnit sealUnitComp sealFlag
        n prev b S).System.length = S.System.length + n * (if sealFlag then 3 else 2) ∧
      ((createRingCellLoop boltMat wallMat sealMat FBStr EdgeStr sealUnit sealUnitComp sealFlag
        n prev b S).CellMap.filter fun e => e.1 == "Bolts").length =
        (S.CellMap.filter fun e => e.1 == "Bolts").length + n ∧
      ((createRingCellLoop boltMat wallMat sealMat FBStr EdgeStr sealUnit sealUnitComp sealFlag
        n prev b S).CellMap.filter fun e => e.1 == "Wall").length =
        (S.CellMap.filter fun e => e.1 == "Wall").length + n ∧
      ((createRingCellLoop boltMat wallMat sealMat FBStr EdgeStr sealUnit sealUnitComp sealFlag
        n prev b S).CellMap.filter fun e => e.1 == "Seal").length =
        (S.CellMap.filter fun e => e.1 == "Seal").length + (if sealFlag then n else 0) := by
  induction n with
  | zero =>
    intro prev b S
    simp [createRingCellLoop]
  | succ k ih =>
    intro prev b S
    have hBW : ("Bolts" == "Wall") = false := by decide
    have hBS : ("Bolts" == "Seal") = false := by decide
    have hWB : ("Wall" == "Bolts") = false := by decide
    have hWS : ("Wall" == "Seal") = false := by decide
    have hSB : ("Seal" == "Bolts") = false := by decide
    have hSW : ("Seal" == "Wall") = false := by decide
    cases sealFlag with
    | true =>
      simp only [createRingCellLoop, if_true]
      obtain ⟨h1, h2, h3, h4, h5⟩ := ih b (b + 10)
        { cellIndex := S.cellIndex + 1 + 1 + 1,
          System := S.System ++ [⟨S.cellIndex, boltMat, 0.0,
              (getComposite b [-7]).addIntersection FBStr⟩] ++
            [⟨S.cellIndex + 1, wallMat, 0.0,
              (((getCompositeM prev b [(3, false), (-3, true), (7, true)]).addIntersection
                FBStr).addIntersection EdgeStr).addIntersection sealUnitComp⟩] ++
            [⟨S.cellIndex + 1 + 1, sealMat, 0.0,
              (getCompositeM prev b [(3, false), (-3, true)]).addIntersection sealUnit⟩],
          CellMap := S.CellMap ++ [("Bolts", S.cellIndex + 1 - 1)] ++
            [("Wall", S.cellIndex + 1 + 1 - 1)] ++ [("Seal", S.cellIndex + 1 + 1 + 1 - 1)] }
      simp only [if_true] at h1 h2 h3 h4 h5
      rw [h1, h2, h3, h4, h5]
      simp only [List.filter_append, List.length_append, List.filter_cons, List.filter_nil,
        hBW, hBS, hWB, hWS, hSB, hSW, beq_self_eq_true, if_true, List.length_cons,
        List.length_nil, Bool.false_eq_true, if_false]
      push_cast
      refine ⟨?_, ?_, ?_, ?_, ?_⟩ <;> omega
    | false =>
      simp only [createRingCellLoop, Bool.false_eq_true, if_false]
      obtain ⟨h1, h2, h3, h4, h5⟩ := ih b (b + 10)
        { cellIndex := S.cellIndex + 1 + 1,
          System := S.System ++ [⟨S.cellIndex, boltMat, 0.0,
              (getComposite b [-7]).addIntersection FBStr⟩] ++
            [⟨S.cellIndex + 1, wallMat, 0.0,
              (((getCompositeM prev b [(3, false), (-3, true), (7, true)]).addIntersection
                FBStr).addIntersection EdgeStr).addIntersection sealUnitComp⟩],
          CellMap := S.CellMap ++ [("Bolts", S.cellIndex + 1 - 1)] ++
            [("Wall", S.cellIndex + 1 + 1 - 1)] }
      simp only [Bool.false_eq_true, if_false] at h1 h2 h3 h4 h5
      rw [h1, h2, h3, h4, h5]
      simp only [List.filter_append, List.length_append, List.filter_cons, List.filter_nil,
        hBW, hBS, hWB, hWS, hSB, hSW, beq_self_eq_true, if_true, List.length_cons,
        List.length_nil, Bool.false_eq_true, if_false]
      push_cast
      refine ⟨?_, ?_, ?_, ?_, ?_⟩ <;> first | omega | trivial


/-- C15, the claim as stated fails for `N = 1`: one call with `NBolts = 1` and
a non-empty seal rule adds no cell to "Bolts" and no cell to "Seal"; it adds
one cell to "Wall" and `cellIndex` advances by one. -/
theorem C15_counterexample :
    ((exampleChopper.createRing [] 2000 ⟨0, 0, 0⟩ (HeadRule.ofSurf 1) (HeadRule.ofSurf 2)
        5 1 1 0 (HeadRule.ofSurf 8) 7).1.getCells "Bolts").length = 0 ∧
    ((exampleChopper.createRing [] 2000 ⟨0, 0, 0⟩ (HeadRule.ofSurf 1) (HeadRule.ofSurf 2)
        5 1 1 0 (HeadRule.ofSurf 8) 7).1.getCells "Seal").length = 0 ∧
    ((exampleChopper.createRing [] 2000 ⟨0, 0, 0⟩ (HeadRule.ofSurf 1) (HeadRule.ofSurf 2)
        5 1 1 0 (HeadRule.ofSurf 8) 7).1.getCells "Wall").length = 1 ∧
    (HeadRule.ofSurf 8).HeadNode.isNone = false := by
  simp [TwinChopper.createRing, TwinChopper.getCells, exampleChopper, HeadRule.ofSurf]

/-- C15, amended: for every `N > 1` (in particular 2, 3, 8 and 24) one call of
`createRing` with `NBolts = N` adds exactly `N` cells to the "Bolts" group,
exactly `N` cells to the "Wall" group and exactly `N` cells to the "Seal" group
when a non-empty seal rule is supplied and 0 otherwise; for `N = 1` (and
`N = 0`) it adds no "Bolts" cell, one "Wall" cell and no "Seal" cell whether or
not a seal rule is supplied. In every case `cellIndex` advances by the number
of cells added to the simulation. -/
theorem C15_cell_counts (self : TwinChopper) (System : Simulation) (surfOffset : Int)
    (Centre : Vec3D) (FBStr EdgeStr : HeadRule) (BRad : ℝ) (N : Nat) (radius angOff : ℝ)
    (sealUnit : HeadRule) (sealMat : Int) :
    (1 < N →
      ((self.createRing System surfOffset Centre FBStr EdgeStr BRad N radius angOff
          sealUnit sealMat).1.getCells "Bolts").length = (self.getCells "Bolts").length + N ∧
      ((self.createRing System surfOffset Centre FBStr EdgeStr BRad N radius angOff
          sealUnit sealMat).1.getCells "Wall").length = (self.getCells "Wall").length + N ∧
      ((self.createRing System surfOffset Centre FBStr EdgeStr BRad N radius angOff
          sealUnit sealMat).1.getCells "Seal").length =
        (self.getCells "Seal").length + (if sealUnit.HeadNode.isNone then 0 else N)) ∧
    (N ≤ 1 →
      ((self.createRing System surfOffset Centre FBStr EdgeStr BRad N radius angOff
          sealUnit sealMat).1.getCells "Bolts").length = (self.getCells "Bolts").length ∧
      ((self.createRing System surfOffset Centre FBStr EdgeStr BRad N radius angOff
          sealUnit sealMat).1.getCells "Wall").length = (self.getCells "Wall").length + 1 ∧
      ((self.createRing System surfOffset Centre FBStr EdgeStr BRad N radius angOff
          sealUnit sealMat).1.getCells "Seal").length = (self.getCells "Seal").length) ∧
    ((self.createRing System surfOffset Centre FBStr EdgeStr BRad N radius angOff
        sealUnit sealMat).1.cellIndex - self.cellIndex : Int) =
      ((self.createRing System surfOffset Centre FBStr EdgeStr BRad N radius angOff
        sealUnit sealMat).2.length : Int) - (System.length : Int) := by
  have hWB : ("Wall" == "Bolts") = false := by decide
  have hWS : ("Wall" == "Seal") = false := by decide
  by_cases hN : 1 < N
  · have hc := createRingCellLoop_counts self.boltMat self.wallMat sealMat FBStr EdgeStr
      sealUnit (if (!sealUnit.HeadNode.isNone) = true then sealUnit.complement else ⟨none⟩)
      (!sealUnit.HeadNode.isNone) N
      ((createRingSurfLoop (Quaternion.calcQRotDeg (360.0 / (N : ℝ)) self.Y) Centre self.Y
        radius N ((Quaternion.calcQRotDeg (360.0 / (N : ℝ) / 2.0) self.Y).rotate
          ((Quaternion.calcQRotDeg angOff self.Y).rotate self.X))
        ((Quaternion.calcQRotDeg angOff self.Y).rotate (self.Z.scale BRad))
        (surfOffset + 100) self.SMap).2 - 10)
      (surfOffset + 100) ⟨self.cellIndex, System, self.CellMap⟩
    obtain ⟨h1, h2, h3, h4, h5⟩ := hc
    simp only [getCells_length, TwinChopper.createRing, hN, if_true]
    refine ⟨fun _ => ⟨h3, h4, ?_⟩, fun hle => absurd hN (Nat.not_lt.mpr hle), ?_⟩
    · rw [h5]
      cases sealUnit.HeadNode.isNone <;> simp
    · rw [h1, h2]
      push_cast
      ring
  · simp only [getCells_length, TwinChopper.createRing, hN, if_false]
    refine ⟨fun h => False.elim h, fun _ => ?_, ?_⟩
    · simp only [List.filter_append, List.length_append, List.filter_cons, List.filter_nil,
        hWB, hWS, beq_self_eq_true, if_true, List.length_cons, List.length_nil,
        Bool.false_eq_true, if_false, Nat.add_zero, and_self]
    · simp only [List.length_append, List.length_cons, List.length_nil]
      push_cast
      ring

/-- Witness of the amended C15 for `N = 24` with a seal rule. -/
theorem C15_witness :
    ((exampleChopper.createRing [] 2000 ⟨0, 0, 0⟩ (HeadRule.ofSurf 1) (HeadRule.ofSurf 2)
        5 24 1 0 (HeadRule.ofSurf 8) 7).1.getCells "Bolts").length = 24 ∧
    ((exampleChopper.createRing [] 2000 ⟨0, 0, 0⟩ (HeadRule.ofSurf 1) (HeadRule.ofSurf 2)
        5 24 1 0 (HeadRule.ofSurf 8) 7).1.getCells "Wall").length = 24 ∧
    ((exampleChopper.createRing [] 2000 ⟨0, 0, 0⟩ (HeadRule.ofSurf 1) (HeadRule.ofSurf 2)
        5 24 1 0 (HeadRule.ofSurf 8) 7).1.getCells "Seal").length = 24 := by
  have h := (C15_cell_counts exampleChopper [] 2000 ⟨0, 0, 0⟩ (HeadRule.ofSurf 1)
    (HeadRule.ofSurf 2) 5 24 1 0 (HeadRule.ofSurf 8) 7).1 (by decide)
  have h0 : ∀ Key, (exampleChopper.getCells Key).length = 0 := fun _ => rfl
  simp only [h0, Nat.zero_add] at h
  exact ⟨h.1, h.2.1, h.2.2⟩

/-- C16: when `NBolts == 1`, `createRing` builds no bolt or divider surface (the
surface map is unchanged) and emits exactly one cell: a cell of the wall
material, numbered `cellIndex`, whose rule is the front/back rule followed by
the edge rule, recorded under "Wall"; `cellIndex` advances by one. -/
theorem C16_single_bolt (self : TwinChopper) (System : Simulation) (surfOffset : Int)
    (Centre : Vec3D) (FBStr EdgeStr : HeadRule) (BRad radius angOff : ℝ)
    (sealUnit : HeadRule) (sealMat : Int) :
    (self.createRing System surfOffset Centre FBStr EdgeStr BRad 1 radius angOff
        sealUnit sealMat).1.SMap = self.SMap ∧
    (self.createRing System surfOffset Centre FBStr EdgeStr BRad 1 radius angOff
        sealUnit sealMat).2 =
      System ++ [⟨self.cellIndex, self.wallMat, 0, FBStr.addIntersection EdgeStr⟩] ∧
    (self.createRing System surfOffset Centre FBStr EdgeStr BRad 1 radius angOff
        sealUnit sealMat).1.CellMap = self.CellMap ++ [("Wall", self.cellIndex)] ∧
    (self.createRing System surfOffset Centre FBStr EdgeStr BRad 1 radius angOff
        sealUnit sealMat).1.cellIndex = self.cellIndex + 1 := by
  simp [TwinChopper.createRing]
  norm_num

theorem createRingSurfLoop_snd (QSeg : Quaternion) (Centre Y : Vec3D) (radius : ℝ) (n : Nat) :
    ∀ (DPAxis BAxis : Vec3D) (b : Int) (SMap : List Surface),
      (createRingSurfLoop QSeg Centre Y radius n DPAxis BAxis b SMap).2 = b + 10 * (n : Int) := by
  induction n with
  | zero => intro DPAxis BAxis b SMap; simp [createRingSurfLoop]
  | succ k ih =>
    intro DPAxis BAxis b SMap
    simp only [createRingSurfLoop, ih]
    push_cast
    ring

theorem loop_step_cells (boltMat wallMat sealMat : Int) (FBStr EdgeStr sealUnit : HeadRule)
    (num prev b : Int) :
    [(⟨num, boltMat, 0.0, (getComposite b [-7]).addIntersection FBStr⟩ : Qhull),
     ⟨num + 1, wallMat, 0.0,
      (((getCompositeM prev b [(3, false), (-3, true), (7, true)]).addIntersection
        FBStr).addIntersection EdgeStr).addIntersection
        (if (!sealUnit.HeadNode.isNone) = true then sealUnit.complement else ⟨none⟩)⟩] ++
      (if (!sealUnit.HeadNode.isNone) = true then
        [(⟨num + 1 + 1, sealMat, 0.0,
          (getCompositeM prev b [(3, false), (-3, true)]).addIntersection sealUnit⟩ : Qhull)]
       else []) =
    positionCells boltMat wallMat sealMat FBStr EdgeStr sealUnit num prev b := by
  have h0 : (0.0 : ℝ) = 0 := by norm_num
  have h7 : -7 - b = -(b + 7) := by ring
  have h3 : -3 - b = -(b + 3) := by ring
  have e1 : getComposite b [-7] = ⟨some (Rule.Literal (-(b + 7)))⟩ := by
    simp [getComposite, HeadRule.ofSurfs, HeadRule.ofSurf, HeadRule.addIntersection,
      offsetSurf, h7]
  have e2 : getCompositeM prev b [(3, false), (-3, true), (7, true)] =
      ⟨some (Rule.Intersection (wedgeRule prev b) (Rule.Literal (b + 7)))⟩ := by
    simp [getCompositeM, HeadRule.ofSurfs, HeadRule.ofSurf, HeadRule.addIntersection,
      offsetSurf, wedgeRule, h3, add_comm]
  have e3 : getCompositeM prev b [(3, false), (-3, true)] = ⟨some (wedgeRule prev b)⟩ := by
    simp [getCompositeM, HeadRule.ofSurfs, HeadRule.ofSurf, HeadRule.addIntersection,
      offsetSurf, wedgeRule, h3, add_comm]
  rw [e1, e2, e3, h0]
  unfold positionCells
  cases sealUnit.HeadNode.isNone <;> simp [add_assoc]

theorem createRingCellLoop_System (boltMat wallMat sealMat : Int)
    (FBStr EdgeStr sealUnit : HeadRule) (n : Nat) :
    ∀ (prev b : Int) (S : RingCells),
      (createRingCellLoop boltMat wallMat sealMat FBStr EdgeStr sealUnit
        (if (!sealUnit.HeadNode.isNone) = true then sealUnit.complement else ⟨none⟩)
        (!sealUnit.HeadNode.isNone) n prev b S).System =
      S.System ++ (List.range n).flatMap (fun k =>
        positionCells boltMat wallMat sealMat FBStr EdgeStr sealUnit
          (S.cellIndex + cellsPerPosition sealUnit * (k : Int))
          (if k = 0 then prev else b + 10 * ((k : Int) - 1)) (b + 10 * (k : Int))) := by
  induction n with
  | zero => intro prev b S; simp [createRingCellLoop]
  | succ k ih =>
    intro prev b S
    have hstep := loop_step_cells boltMat wallMat sealMat FBStr EdgeStr sealUnit
      S.cellIndex prev b
    rw [List.range_succ_eq_map, List.flatMap_cons, List.flatMap_map]
    simp only [createRingCellLoop]
    rw [ih]
    have hfun : ∀ j : Nat,
        positionCells boltMat wallMat sealMat FBStr EdgeStr sealUnit
          ((if (!sealUnit.HeadNode.isNone) = true then S.cellIndex + 1 + 1 + 1
            else S.cellIndex + 1 + 1) + cellsPerPosition sealUnit * (j : Int))
          (if j = 0 then b else b + 10 + 10 * ((j : Int) - 1)) (b + 10 + 10 * (j : Int)) =
        positionCells boltMat wallMat sealMat FBStr EdgeStr sealUnit
          (S.cellIndex + cellsPerPosition sealUnit * ((Nat.succ j : Nat) : Int))
          (if Nat.succ j = 0 then prev else b + 10 * (((Nat.succ j : Nat) : Int) - 1))
          (b + 10 * ((Nat.succ j : Nat) : Int)) := by
      intro j
      have hn : (if (!sealUnit.HeadNode.isNone) = true then S.cellIndex + 1 + 1 + 1
            else S.cellIndex + 1 + 1) + cellsPerPosition sealUnit * (j : Int) =
          S.cellIndex + cellsPerPosition sealUnit * ((Nat.succ j : Nat) : Int) := by
        unfold cellsPerPosition
        cases sealUnit.HeadNode.isNone <;> simp <;> ring
      have hp : (if j = 0 then b else b + 10 + 10 * ((j : Int) - 1)) =
          (if Nat.succ j = 0 then prev else b + 10 * (((Nat.succ j : Nat) : Int) - 1)) := by
        rw [if_neg (Nat.succ_ne_zero j)]
        by_cases hj : j = 0
        · subst hj; simp
        · rw [if_neg hj]; push_cast; ring
      have hc : b + 10 + 10 * (j : Int) = b + 10 * ((Nat.succ j : Nat) : Int) := by
        push_cast; ring
      rw [hn, hp, hc]
    cases hs : sealUnit.HeadNode.isNone with
    | true =>
      simp only [hs, Bool.not_true, Bool.false_eq_true, if_false] at hstep hfun ⊢
      simp only [Nat.cast_zero, mul_zero, add_zero, if_true, hfun]
      rw [← hstep]
      simp only [List.append_assoc, List.append_nil, List.singleton_append, List.cons_append,
        List.nil_append]
    | false =>
      simp only [hs, Bool.not_false, if_true] at hstep hfun ⊢
      simp only [Nat.cast_zero, mul_zero, add_zero, if_true, hfun]
      rw [← hstep]
      simp only [List.append_assoc, List.append_nil, List.singleton_append, List.cons_append,
        List.nil_append]

theorem prevPos_eq (N i : Nat) (hi : i < N) :
    (i + N - 1) % N = if i = 0 then N - 1 else i - 1 := by
  by_cases h0 : i = 0
  · subst h0
    rw [if_pos rfl, Nat.zero_add]
    exact Nat.mod_eq_of_lt (by omega)
  · rw [if_neg h0]
    have h1 : i + N - 1 = (i - 1) + N := by omega
    rw [h1, Nat.add_mod_right]
    exact Nat.mod_eq_of_lt (by omega)

theorem createRing_System (self : TwinChopper) (System : Simulation) (surfOffset : Int)
    (Centre : Vec3D) (FBStr EdgeStr : HeadRule) (BRad : ℝ) (N : Nat) (radius angOff : ℝ)
    (sealUnit : HeadRule) (sealMat : Int) (hN : 1 < N) :
    (self.createRing System surfOffset Centre FBStr EdgeStr BRad N radius angOff
        sealUnit sealMat).2 =
      System ++ (List.range N).flatMap
        (specRingCells self.boltMat self.wallMat sealMat FBStr EdgeStr sealUnit surfOffset
          self.cellIndex N) := by
  simp only [TwinChopper.createRing, hN, if_true, createRingCellLoop_System,
    createRingSurfLoop_snd]
  congr 1
  apply List.flatMap_congr
  intro x hx
  have hxN : x < N := List.mem_range.mp hx
  unfold specRingCells
  have hp : (if x = 0 then surfOffset + 100 + 10 * (N : Int) - 10
      else surfOffset + 100 + 10 * ((x : Int) - 1)) =
      boltIndexAt surfOffset ((x + N - 1) % N) := by
    rw [prevPos_eq N x hxN]
    unfold boltIndexAt
    by_cases h0 : x = 0
    · rw [if_pos h0, if_pos h0]
      omega
    · rw [if_neg h0, if_neg h0]
      omega
  rw [hp]
  rfl

/-- C17: for every `N > 1` and every position `i` in `[0,N)`, `createRing` emits,
in this order, (a) a bolt-material cell: inside bolt cylinder `i` and
front/back; (b) a wall-material cell: the wedge between divider `i-1 mod N`
(positive side) and divider `i` (negative side), outside bolt cylinder `i`,
front/back, edge and, with a seal rule, the complement of the seal rule;
(c) with a seal rule, a seal-material cell: the same wedge and the seal rule.
These are all the cells added. Every divider plane is the positive bound of
exactly one wedge and the negative bound of exactly one wedge. -/
theorem C17_ring_cells (self : TwinChopper) (System : Simulation) (surfOffset : Int)
    (Centre : Vec3D) (FBStr EdgeStr : HeadRule) (BRad : ℝ) (N : Nat) (radius angOff : ℝ)
    (sealUnit : HeadRule) (sealMat : Int) (hN : 1 < N) :
    (self.createRing System surfOffset Centre FBStr EdgeStr BRad N radius angOff
        sealUnit sealMat).2 =
      System ++ (List.range N).flatMap
        (specRingCells self.boltMat self.wallMat sealMat FBStr EdgeStr sealUnit surfOffset
          self.cellIndex N) ∧
    (∀ j, j < N → ∃! i, i < N ∧
      boltIndexAt surfOffset ((i + N - 1) % N) + 3 = boltIndexAt surfOffset j + 3) ∧
    (∀ j, j < N → ∃! i, i < N ∧
      -(boltIndexAt surfOffset i + 3) = -(boltIndexAt surfOffset j + 3)) := by
  refine ⟨createRing_System self System surfOffset Centre FBStr EdgeStr BRad N radius angOff
    sealUnit sealMat hN, ?_, ?_⟩
  · intro j hj
    by_cases hlast : j = N - 1
    · refine ⟨0, ⟨by omega, ?_⟩, ?_⟩
      · rw [prevPos_eq N 0 (by omega), if_pos rfl, hlast]
      · rintro i ⟨hi, he⟩
        rw [prevPos_eq N i hi] at he
        unfold boltIndexAt at he
        by_cases h0 : i = 0
        · exact h0
        · rw [if_neg h0] at he
          omega
    · refine ⟨j + 1, ⟨by omega, ?_⟩, ?_⟩
      · rw [prevPos_eq N (j + 1) (by omega), if_neg (Nat.succ_ne_zero j)]
        rfl
      · rintro i ⟨hi, he⟩
        rw [prevPos_eq N i hi] at he
        unfold boltIndexAt at he
        by_cases h0 : i = 0
        · rw [if_pos h0] at he
          omega
        · rw [if_neg h0] at he
          omega
  · intro j hj
    refine ⟨j, ⟨hj, rfl⟩, ?_⟩
    rintro i ⟨_, he⟩
    unfold boltIndexAt at he
    omega

/-- Witness of C17 for `N = 3` with a seal rule: the cells of position 0 pair
the divider of position 2 (surface 2123) with the divider of position 0
(surface 2103). -/
theorem C17_witness :
    (exampleChopper.createRing [] 2000 ⟨0, 0, 0⟩ (HeadRule.ofSurf 1) (HeadRule.ofSurf 2)
        5 3 1 0 (HeadRule.ofSurf 8) 7).2.length = 9 ∧
    (exampleChopper.createRing [] 2000 ⟨0, 0, 0⟩ (HeadRule.ofSurf 1) (HeadRule.ofSurf 2)
        5 3 1 0 (HeadRule.ofSurf 8) 7).2.map (fun c => c.rule) =
      [⟨some (.Intersection (.Literal (-2107)) (.Literal 1))⟩,
       ⟨some (.Intersection (.Intersection (.Intersection (.Intersection
          (.Intersection (.Literal 2123) (.Literal (-2103))) (.Literal 2107))
          (.Literal 1)) (.Literal 2)) (.Literal (-8)))⟩,
       ⟨some (.Intersection (.Intersection (.Literal 2123) (.Literal (-2103))) (.Literal 8))⟩,
       ⟨some (.Intersection (.Literal (-2117)) (.Literal 1))⟩,
       ⟨some (.Intersection (.Intersection (.Intersection (.Intersection
          (.Intersection (.Literal 2103) (.Literal (-2113))) (.Literal 2117))
          (.Literal 1)) (.Literal 2)) (.Literal (-8)))⟩,
       ⟨some (.Intersection (.Intersection (.Literal 2103) (.Literal (-2113))) (.Literal 8))⟩,
       ⟨some (.Intersection (.Literal (-2127)) (.Literal 1))⟩,
       ⟨some (.Intersection (.Intersection (.Intersection (.Intersection
          (.Intersection (.Literal 2113) (.Literal (-2123))) (.Literal 2127))
          (.Literal 1)) (.Literal 2)) (.Literal (-8)))⟩,
       ⟨some (.Intersection (.Intersection (.Literal 2113) (.Literal (-2123))) (.Literal 8))⟩] := by
  have h := (C17_ring_cells exampleChopper [] 2000 ⟨0, 0, 0⟩ (HeadRule.ofSurf 1)
    (HeadRule.ofSurf 2) 5 3 1 0 (HeadRule.ofSurf 8) 7 (by decide)).1
  rw [h]
  simp [List.range_succ, specRingCells, positionCells, wedgeRule, boltIndexAt,
    cellsPerPosition, HeadRule.ofSurf, HeadRule.addIntersection, HeadRule.complement,
    Rule.complementOf]

end constructSystem

namespace Geometry

namespace Quaternion

theorem rotate_mul (p q : Quaternion) (v : Vec3D) :
    (p.mul q).rotate v = p.rotate (q.rotate v) := by
  ext <;>
  simp only [rotate, mul, inverse, Vec3D.dotProd, Vec3D.add, Vec3D.scale, Vec3D.cross,
      Vec3D.neg] <;> ring

theorem calcQRotDeg_mul (a b : ℝ) (Axis : Vec3D) (h : Axis ≠ ⟨0, 0, 0⟩) :
    (calcQRotDeg a Axis).mul (calcQRotDeg b Axis) = calcQRotDeg (a + b) Axis := by
  have hu := (Vec3D.abs_eq_one_iff _).mp (Vec3D.unit_abs Axis h)
  have hang : Real.pi * (a + b) / 180 / 2 = Real.pi * a / 180 / 2 + Real.pi * b / 180 / 2 := by
    ring
  unfold calcQRotDeg calcQRot
  rw [hang, Real.cos_add, Real.sin_add]
  simp only [mul, Vec3D.dotProd, Vec3D.scale, Vec3D.add, Vec3D.cross] at *
  rw [Quaternion.mk.injEq]
  refine ⟨?_, ?_⟩
  · linear_combination
      (-(Real.sin (Real.pi * a / 180 / 2) * Real.sin (Real.pi * b / 180 / 2))) * hu
  · ext <;> simp only <;> ring

theorem calcQRotDeg_rotate_rotate (a b : ℝ) (Axis v : Vec3D) (h : Axis ≠ ⟨0, 0, 0⟩) :
    (calcQRotDeg a Axis).rotate ((calcQRotDeg b Axis).rotate v) =
      (calcQRotDeg (a + b) Axis).rotate v := by
  rw [← rotate_mul, calcQRotDeg_mul a b Axis h]

theorem calcQRotDeg_zero_rotate (Axis v : Vec3D) : (calcQRotDeg 0 Axis).rotate v = v := by
  unfold calcQRotDeg calcQRot
  ext <;>
  simp [rotate, mul, inverse, Vec3D.dotProd, Vec3D.add, Vec3D.scale, Vec3D.cross,
      Vec3D.neg]

end Quaternion

end Geometry

namespace constructSystem

open Geometry MonteCarlo ModelSupport

theorem createRingSurfLoop_fst (angleR : ℝ) (Centre Y : Vec3D) (radius : ℝ)
    (hY : Y ≠ ⟨0, 0, 0⟩) (n : Nat) :
    ∀ (DPAxis BAxis : Vec3D) (b : Int) (SMap : List Surface),
      (createRingSurfLoop (Quaternion.calcQRotDeg angleR Y) Centre Y radius n DPAxis BAxis b
        SMap).1 =
      SMap ++ (List.range n).flatMap (fun k =>
        [Surface.Cylinder (b + 10 * (k : Int) + 7)
            (Centre.add ((Quaternion.calcQRotDeg ((k : ℝ) * angleR) Y).rotate BAxis)) Y radius,
         Surface.Plane (b + 10 * (k : Int) + 3) Centre
            ((Quaternion.calcQRotDeg ((k : ℝ) * angleR) Y).rotate DPAxis)]) := by
  induction n with
  | zero => intro DPAxis BAxis b SMap; simp [createRingSurfLoop]
  | succ k ih =>
    intro DPAxis BAxis b SMap
    rw [List.range_succ_eq_map, List.flatMap_cons, List.flatMap_map]
    simp only [createRingSurfLoop]
    rw [ih]
    have hfun : ∀ j : Nat,
        [Surface.Cylinder (b + 10 + 10 * (j : Int) + 7)
            (Centre.add ((Quaternion.calcQRotDeg ((j : ℝ) * angleR) Y).rotate
              ((Quaternion.calcQRotDeg angleR Y).rotate BAxis))) Y radius,
         Surface.Plane (b + 10 + 10 * (j : Int) + 3) Centre
            ((Quaternion.calcQRotDeg ((j : ℝ) * angleR) Y).rotate
              ((Quaternion.calcQRotDeg angleR Y).rotate DPAxis))] =
        [Surface.Cylinder (b + 10 * ((Nat.succ j : Nat) : Int) + 7)
            (Centre.add ((Quaternion.calcQRotDeg (((Nat.succ j : Nat) : ℝ) * angleR) Y).rotate
              BAxis)) Y radius,
         Surface.Plane (b + 10 * ((Nat.succ j : Nat) : Int) + 3) Centre
            ((Quaternion.calcQRotDeg (((Nat.succ j : Nat) : ℝ) * angleR) Y).rotate DPAxis)] := by
      intro j
      have ha : (j : ℝ) * angleR + angleR = ((Nat.succ j : Nat) : ℝ) * angleR := by
        push_cast; ring
      have hb : b + 10 + 10 * (j : Int) = b + 10 * ((Nat.succ j : Nat) : Int) := by
        push_cast; ring
      rw [Quaternion.calcQRotDeg_rotate_rotate _ _ Y _ hY,
        Quaternion.calcQRotDeg_rotate_rotate _ _ Y _ hY, ha, hb]
    simp only [hfun, Nat.cast_zero, zero_mul, mul_zero, add_zero,
      Quaternion.calcQRotDeg_zero_rotate, List.append_assoc, List.singleton_append,
      List.cons_append, List.nil_append]

theorem createRing_SMap (self : TwinChopper) (System : Simulation) (surfOffset : Int)
    (Centre : Vec3D) (FBStr EdgeStr : HeadRule) (BRad : ℝ) (N : Nat) (radius angOff : ℝ)
    (sealUnit : HeadRule) (sealMat : Int) (hN : 1 < N) (hY : self.Y ≠ ⟨0, 0, 0⟩) :
    (self.createRing System surfOffset Centre FBStr EdgeStr BRad N radius angOff
        sealUnit sealMat).1.SMap =
      self.SMap ++ (List.range N).flatMap
        (specRingSurfaces self surfOffset Centre BRad radius angOff N) := by
  have h360 : (360.0 : ℝ) = 360 := by norm_num
  have h2 : (2.0 : ℝ) = 2 := by norm_num
  simp only [TwinChopper.createRing, hN, if_true, h360, h2,
    createRingSurfLoop_fst _ Centre self.Y radius hY]
  congr 1
  apply List.flatMap_congr
  intro x _
  unfold specRingSurfaces boltIndexAt
  rw [Quaternion.calcQRotDeg_rotate_rotate _ _ self.Y _ hY,
    Quaternion.calcQRotDeg_rotate_rotate _ _ self.Y _ hY,
    Quaternion.calcQRotDeg_rotate_rotate _ _ self.Y _ hY]
  have e1 : (x : ℝ) * (360 / (N : ℝ)) + angOff = angOff + (x : ℝ) * (360 / (N : ℝ)) := by ring
  have e2 : (x : ℝ) * (360 / (N : ℝ)) + 360 / (N : ℝ) / 2 + angOff =
      angOff + 360 / (N : ℝ) / 2 + (x : ℝ) * (360 / (N : ℝ)) := by ring
  rw [e1, e2]

theorem calcQRotDeg_90_Y_rotate_X :
    (Quaternion.calcQRotDeg 90 ⟨0, 1, 0⟩).rotate ⟨1, 0, 0⟩ = ⟨0, 0, -1⟩ := by
  have hu : (⟨0, 1, 0⟩ : Vec3D).abs = 1 := by
    rw [Vec3D.abs_eq_one_iff]; simp [Vec3D.dotProd]
  have ha : Real.pi * 90 / 180 / 2 = Real.pi / 4 := by ring
  have hs : Real.sqrt 2 * Real.sqrt 2 = 2 := Real.mul_self_sqrt (by norm_num)
  unfold Quaternion.calcQRotDeg Quaternion.calcQRot
  rw [Vec3D.unit_of_abs_eq_one _ hu, ha, Real.cos_pi_div_four, Real.sin_pi_div_four,
    Quaternion.rotate_eq]
  ext <;> simp only [Vec3D.dotProd, Vec3D.add, Vec3D.scale, Vec3D.cross] <;> ring_nf
  nlinarith [hs]

/-- C19, the claim as stated fails for the divider planes: with `N = 2`,
`angOff = 0` and the standard basis, the divider plane built at position 0
(surface 2103, the second surface built) has the normal `(0,0,-1)`, which is
`X` turned about `Y` by 90 degrees (half a step), whereas `X` turned about `Y`
by `angOff + 0*step = 0` degrees is `(1,0,0)`. -/
theorem C19_counterexample :
    (exampleChopper.createRing [] 2000 ⟨0, 0, 0⟩ (HeadRule.ofSurf 1) (HeadRule.ofSurf 2)
        5 2 1 0 ⟨none⟩ 0).1.SMap[1]? =
      some (Surface.Plane 2103 ⟨0, 0, 0⟩ ⟨0, 0, -1⟩) ∧
    (Quaternion.calcQRotDeg (0 + ((0 : Nat) : ℝ) * (360 / ((2 : Nat) : ℝ)))
        exampleChopper.Y).rotate exampleChopper.X = ⟨1, 0, 0⟩ ∧
    (⟨0, 0, -1⟩ : Vec3D) ≠ ⟨1, 0, 0⟩ := by
  have hY : exampleChopper.Y ≠ ⟨0, 0, 0⟩ := by
    intro h
    have hy := congrArg Vec3D.y h
    simp [exampleChopper] at hy
  have hang : (0 : ℝ) + 360 / ((2 : Nat) : ℝ) / 2 + ((0 : Nat) : ℝ) * (360 / ((2 : Nat) : ℝ)) =
      90 := by norm_num
  refine ⟨?_, ?_, ?_⟩
  · rw [createRing_SMap exampleChopper [] 2000 ⟨0, 0, 0⟩ (HeadRule.ofSurf 1) (HeadRule.ofSurf 2)
      5 2 1 0 ⟨none⟩ 0 (by decide) hY]
    simp only [List.range_succ, List.range_zero, List.nil_append, List.flatMap_append,
      List.flatMap_singleton, specRingSurfaces, hang]
    simp only [exampleChopper, calcQRotDeg_90_Y_rotate_X, boltIndexAt]
    rfl
  · simp only [Nat.cast_zero, zero_mul, add_zero, Quaternion.calcQRotDeg_zero_rotate]
    rfl
  · intro h
    have hx := congrArg Vec3D.x h
    norm_num at hx

/-- C19, amended: for every `N > 1` (and a non-zero axis `Y`), with
`step = 360/N` degrees, the surfaces `createRing` builds are, for the positions
`i = 0 .. N-1` in order, the bolt cylinder whose centre is `Centre` plus
`Z*BRad` rotated about `Y` by `angOff + i*step`, and the divider plane through
`Centre` whose normal is `X` rotated about `Y` by `angOff + step/2 + i*step`
(the incremental per-iteration rotation equals the direct rotation by the
accumulated angle; the dividers lead the bolts by half a step). -/
theorem C19_ring_surfaces (self : TwinChopper) (System : Simulation) (surfOffset : Int)
    (Centre : Vec3D) (FBStr EdgeStr : HeadRule) (BRad : ℝ) (N : Nat) (radius angOff : ℝ)
    (sealUnit : HeadRule) (sealMat : Int) (hN : 1 < N) (hY : self.Y ≠ ⟨0, 0, 0⟩) :
    (self.createRing System surfOffset Centre FBStr EdgeStr BRad N radius angOff
        sealUnit sealMat).1.SMap =
      self.SMap ++ (List.range N).flatMap (fun i =>
        [Surface.Cylinder (surfOffset + 100 + 10 * (i : Int) + 7)
            (Centre.add
              ((Quaternion.calcQRotDeg (angOff + (i : ℝ) * (360 / (N : ℝ))) self.Y).rotate
                (self.Z.scale BRad))) self.Y radius,
         Surface.Plane (surfOffset + 100 + 10 * (i : Int) + 3) Centre
            ((Quaternion.calcQRotDeg (angOff + 360 / (N : ℝ) / 2 + (i : ℝ) * (360 / (N : ℝ)))
              self.Y).rotate self.X)]) :=
  createRing_SMap self System surfOffset Centre FBStr EdgeStr BRad N radius angOff
    sealUnit sealMat hN hY

/-- Witness of the amended C19 for `N = 2` on the standard basis. -/
theorem C19_witness :
    (exampleChopper.createRing [] 2000 ⟨0, 0, 0⟩ (HeadRule.ofSurf 1) (HeadRule.ofSurf 2)
        5 2 1 0 ⟨none⟩ 0).1.SMap.length = 4 := by
  have hY : exampleChopper.Y ≠ ⟨0, 0, 0⟩ := by
    intro h
    have hy := congrArg Vec3D.y h
    simp [exampleChopper] at hy
  rw [C19_ring_surfaces exampleChopper [] 2000 ⟨0, 0, 0⟩ (HeadRule.ofSurf 1)
    (HeadRule.ofSurf 2) 5 2 1 0 ⟨none⟩ 0 (by decide) hY]
  simp [exampleChopper, List.range_succ]

end constructSystem

theorem Rule.eval_complementOf (σ : Int → Bool) (r : Rule) (h : r.noZero = true) :
    (r.complementOf).eval σ = !r.eval σ := by
  induction r with
  | Literal n =>
    simp only [Rule.noZero, bne_iff_ne, ne_eq] at h
    simp only [Rule.complementOf, Rule.eval]
    by_cases hn : n < 0
    · have h2 : ¬ (-n < 0) := by omega
      simp [hn, h2]
    · have h2 : -n < 0 := by omega
      simp [hn, h2]
  | Intersection a b iha ihb =>
    simp only [Rule.noZero, Bool.and_eq_true] at h
    simp [Rule.complementOf, Rule.eval, iha h.1, ihb h.2]
  | Union a b iha ihb =>
    simp only [Rule.noZero, Bool.and_eq_true] at h
    simp [Rule.complementOf, Rule.eval, iha h.1, ihb h.2]
  | Complement a _ =>
    simp [Rule.complementOf, Rule.eval]

theorem Rule.eval_inter (σ : Int → Bool) (a b : Rule) :
    (Rule.Intersection a b).eval σ = (a.eval σ && b.eval σ) := rfl

theorem Rule.eval_pos (σ : Int → Bool) (n : Int) (h : 0 ≤ n) :
    (Rule.Literal n).eval σ = σ n := by
  unfold Rule.eval
  rw [if_neg (not_lt.mpr h)]

theorem Rule.eval_neg (σ : Int → Bool) (n : Int) (h : 0 < n) :
    (Rule.Literal (-n)).eval σ = !σ n := by
  unfold Rule.eval
  rw [if_pos (neg_lt_zero.mpr h), neg_neg]

theorem HeadRule.eval_some (σ : Int → Bool) (r : Rule) :
    HeadRule.eval σ ⟨some r⟩ = r.eval σ := rfl

theorem HeadRule.eval_none (σ : Int → Bool) : HeadRule.eval σ ⟨none⟩ = true := rfl

theorem HeadRule.eval_addIntersection (σ : Int → Bool) (A B : HeadRule) :
    (A.addIntersection B).eval σ = (A.eval σ && B.eval σ) := by
  unfold HeadRule.addIntersection HeadRule.eval
  cases hA : A.HeadNode <;> cases hB : B.HeadNode <;> simp [Rule.eval]

theorem HeadRule.eval_complement (σ : Int → Bool) (A : HeadRule) (h : A.noZero = true)
    (hs : A.HeadNode.isNone = false) : A.complement.eval σ = !A.eval σ := by
  unfold HeadRule.complement HeadRule.eval
  unfold HeadRule.noZero at h
  cases hA : A.HeadNode with
  | none => simp [hA] at hs
  | some r =>
    rw [hA] at h
    simp only [Option.map_some']
    exact Rule.eval_complementOf σ r h

namespace constructSystem

open Geometry MonteCarlo ModelSupport

theorem eval_wedgeRule (σ : Int → Bool) (surfOffset : Int) (N i : Nat) (h0 : 0 ≤ surfOffset) :
    (wedgeRule (boltIndexAt surfOffset ((i + N - 1) % N)) (boltIndexAt surfOffset i)).eval σ =
      inWedge σ surfOffset N i := by
  have h1 : 0 ≤ boltIndexAt surfOffset ((i + N - 1) % N) + 3 := by
    unfold boltIndexAt; omega
  have h2 : 0 < boltIndexAt surfOffset i + 3 := by
    unfold boltIndexAt; omega
  simp only [wedgeRule, Rule.eval_inter, Rule.eval_pos σ _ h1, Rule.eval_neg σ _ h2, inWedge]

/-- The truth values of the cells of one position at a point. -/
theorem eval_specRingCells (σ : Int → Bool) (boltMat wallMat sealMat : Int)
    (FBStr EdgeStr sealUnit : HeadRule) (surfOffset cellIndex : Int) (N i : Nat)
    (h0 : 0 ≤ surfOffset) (hz : sealUnit.noZero = true) :
    (specRingCells boltMat wallMat sealMat FBStr EdgeStr sealUnit surfOffset cellIndex N i).map
        (fun c => c.rule.eval σ) =
      [inBolt σ surfOffset i && FBStr.eval σ,
       inWedge σ surfOffset N i && !inBolt σ surfOffset i && FBStr.eval σ && EdgeStr.eval σ &&
         !inSeal σ sealUnit] ++
      (if sealUnit.HeadNode.isNone then []
       else [inWedge σ surfOffset N i && inSeal σ sealUnit]) := by
  have hw := eval_wedgeRule σ surfOffset N i h0
  have h7 : 0 ≤ boltIndexAt surfOffset i + 7 := by
    unfold boltIndexAt; omega
  have h7n : 0 < boltIndexAt surfOffset i + 7 := by
    unfold boltIndexAt; omega
  unfold specRingCells positionCells
  cases hs : sealUnit.HeadNode.isNone with
  | true =>
    simp only [if_true, List.append_nil, List.map_cons, List.map_nil,
      HeadRule.eval_addIntersection, inSeal, hs, Bool.not_true, Bool.false_and, Bool.not_false,
      Bool.and_true, HeadRule.eval_some, HeadRule.eval_none, Rule.eval_inter, hw,
      Rule.eval_pos σ _ h7, Rule.eval_neg σ _ h7n, inBolt, Bool.not_not]
  | false =>
    simp only [Bool.false_eq_true, if_false, List.map_append, List.map_cons, List.map_nil,
      HeadRule.eval_addIntersection, HeadRule.eval_complement σ sealUnit hz hs, inSeal, hs,
      Bool.not_false, Bool.true_and, HeadRule.eval_some, HeadRule.eval_none, Rule.eval_inter,
      hw, Rule.eval_pos σ _ h7, Rule.eval_neg σ _ h7n, inBolt, Bool.not_not, List.cons_append,
      List.nil_append]

/-- Polar form of a pair of reals that is not `(0, 0)`. -/
theorem exists_polar (A B : ℝ) (h : ¬ (A = 0 ∧ B = 0)) :
    ∃ r β : ℝ, 0 < r ∧ A = r * Real.cos β ∧ B = r * Real.sin β := by
  have hz : (⟨A, B⟩ : ℂ) ≠ 0 := by
    intro h0
    apply h
    exact ⟨congrArg Complex.re h0, congrArg Complex.im h0⟩
  refine ⟨Complex.abs ⟨A, B⟩, Complex.arg ⟨A, B⟩, Complex.abs.pos hz, ?_, ?_⟩
  · exact (Complex.abs_mul_cos_arg ⟨A, B⟩).symm
  · exact (Complex.abs_mul_sin_arg ⟨A, B⟩).symm

/-- The sign pattern of `sin` along an arithmetic progression of step `s` with
`N * s = 2π` that starts at `δ` with `0 < δ < s`: the step from a negative
to a positive value happens exactly at the multiples of `N`. -/
theorem sin_step_iff (N : ℕ) (hN : 2 ≤ N) (s : ℝ) (hNs : (N : ℝ) * s = 2 * Real.pi) (δ : ℝ)
    (h0 : 0 < δ) (h1 : δ < s) (m : ℤ) :
    (Real.sin (δ + ((m : ℝ) - 1) * s) < 0 ∧ 0 < Real.sin (δ + (m : ℝ) * s)) ↔
      (N : ℤ) ∣ m := by
  have hN2 : (2 : ℝ) ≤ (N : ℝ) := by exact_mod_cast hN
  have hpi := Real.pi_pos
  have hspos : 0 < s := lt_trans h0 h1
  have hsle : s ≤ Real.pi := by nlinarith
  have hper : ∀ (y : ℝ) (q : ℤ), Real.sin (y + ((q : ℝ) * (N : ℝ)) * s) = Real.sin y := by
    intro y q
    have : y + ((q : ℝ) * (N : ℝ)) * s = y + (q : ℝ) * (2 * Real.pi) := by
      rw [mul_assoc, hNs]
    rw [this]
    exact Real.sin_add_int_mul_two_pi y q
  have hbase1 : Real.sin (δ + ((0 : ℝ) - 1) * s) < 0 := by
    apply Real.sin_neg_of_neg_of_neg_pi_lt <;> linarith
  have hbase0 : 0 < Real.sin (δ + (0 : ℝ) * s) := by
    apply Real.sin_pos_of_pos_of_lt_pi <;> linarith
  constructor
  · rintro ⟨hneg, hpos⟩
    have hNz : (N : ℤ) ≠ 0 := by
      have : 0 < N := by omega
      exact_mod_cast this.ne'
    have hNp : (0 : ℤ) < (N : ℤ) := by
      have : 0 < N := by omega
      exact_mod_cast this
    have hm := Int.emod_add_ediv m N
    have hr0 := Int.emod_nonneg m hNz
    have hrN := Int.emod_lt_of_pos m hNp
    by_contra hnd
    have hrne : m % (N : ℤ) ≠ 0 := fun h => hnd (Int.dvd_of_emod_eq_zero h)
    obtain ⟨r, hr⟩ : ∃ r : ℤ, r = m % (N : ℤ) := ⟨_, rfl⟩
    obtain ⟨q, hq⟩ : ∃ q : ℤ, q = m / (N : ℤ) := ⟨_, rfl⟩
    rw [← hr, ← hq] at hm
    rw [← hr] at hr0 hrN hrne
    have hr1 : 1 ≤ r := by omega
    have hmr : (m : ℝ) = (r : ℝ) + (q : ℝ) * (N : ℝ) := by
      have : m = r + q * N := by rw [mul_comm q]; exact hm.symm
      exact_mod_cast this
    have e1 : δ + ((m : ℝ) - 1) * s = (δ + ((r : ℝ) - 1) * s) + ((q : ℝ) * (N : ℝ)) * s := by
      rw [hmr]; ring
    have e2 : δ + (m : ℝ) * s = (δ + (r : ℝ) * s) + ((q : ℝ) * (N : ℝ)) * s := by
      rw [hmr]; ring
    rw [e1, hper] at hneg
    rw [e2, hper] at hpos
    have hr1R : (1 : ℝ) ≤ (r : ℝ) := by exact_mod_cast hr1
    have hrNR : (r : ℝ) + 1 ≤ (N : ℝ) := by
      have : r + 1 ≤ (N : ℤ) := by omega
      exact_mod_cast this
    have hθpos : 0 ≤ δ + ((r : ℝ) - 1) * s := by nlinarith
    have hθ : Real.pi < δ + ((r : ℝ) - 1) * s := by
      by_contra hle
      have := Real.sin_nonneg_of_nonneg_of_le_pi hθpos (not_lt.mp hle)
      linarith
    have hlt2 : δ + (r : ℝ) * s < 2 * Real.pi := by nlinarith
    have h3 : Real.sin (δ + (r : ℝ) * s - Real.pi) = -Real.sin (δ + (r : ℝ) * s) :=
      Real.sin_sub_pi _
    have h4 : 0 < Real.sin (δ + (r : ℝ) * s - Real.pi) := by
      apply Real.sin_pos_of_pos_of_lt_pi <;> linarith
    linarith
  · rintro ⟨q, rfl⟩
    have e1 : δ + ((((N : ℤ) * q : ℤ) : ℝ) - 1) * s =
        (δ + ((0 : ℝ) - 1) * s) + ((q : ℝ) * (N : ℝ)) * s := by
      push_cast; ring
    have e2 : δ + (((N : ℤ) * q : ℤ) : ℝ) * s =
        (δ + (0 : ℝ) * s) + ((q : ℝ) * (N : ℝ)) * s := by
      push_cast; ring
    rw [e1, hper, e2, hper]
    exact ⟨hbase1, hbase0⟩

/-- Divider values `A cos(a0 + k s) + B sin(a0 + k s)` with `N * s = 2π`, none
of them zero: there is an index `j` such that the wedge condition (the value
of `k-1` positive and the value of `k` negative) holds exactly for the `k`
congruent to `j` modulo `N`. -/
theorem wedge_index (N : ℕ) (hN : 2 ≤ N) (s : ℝ) (hNs : (N : ℝ) * s = 2 * Real.pi) (A B a0 : ℝ)
    (hne : ∀ k : ℤ, A * Real.cos (a0 + (k : ℝ) * s) + B * Real.sin (a0 + (k : ℝ) * s) ≠ 0) :
    ∃ j : ℤ, ∀ k : ℤ,
      (0 < A * Real.cos (a0 + ((k : ℝ) - 1) * s) + B * Real.sin (a0 + ((k : ℝ) - 1) * s) ∧
        A * Real.cos (a0 + (k : ℝ) * s) + B * Real.sin (a0 + (k : ℝ) * s) < 0) ↔
      (N : ℤ) ∣ (k - j) := by
  have hNpos : (0 : ℝ) < (N : ℝ) := by
    have : 0 < N := by omega
    exact_mod_cast this
  have hpi := Real.pi_pos
  have hspos : 0 < s := by
    by_contra hle
    have : (N : ℝ) * s ≤ 0 := mul_nonpos_of_nonneg_of_nonpos hNpos.le (not_lt.mp hle)
    linarith
  have hAB : ¬ (A = 0 ∧ B = 0) := by
    rintro ⟨hA, hB⟩
    have := hne 0
    rw [hA, hB] at this
    simp at this
  obtain ⟨r, β, hr, hA, hB⟩ := exists_polar A B hAB
  have hc : ∀ y : ℝ, A * Real.cos y + B * Real.sin y = r * Real.cos (y - β) := by
    intro y
    rw [hA, hB, Real.cos_sub]
    ring
  obtain ⟨x, hx⟩ : ∃ x : ℝ, x * s = β + Real.pi / 2 - a0 :=
    ⟨(β + Real.pi / 2 - a0) / s, div_mul_cancel₀ _ hspos.ne'⟩
  obtain ⟨j, hj⟩ : ∃ j : ℤ, j = ⌈x⌉ := ⟨_, rfl⟩
  obtain ⟨δ, hδ⟩ : ∃ δ : ℝ, δ = (j : ℝ) * s - (β + Real.pi / 2 - a0) := ⟨_, rfl⟩
  have hδ0 : 0 ≤ δ := by
    have h1 : x ≤ (j : ℝ) := by rw [hj]; exact Int.le_ceil x
    have h2 : x * s ≤ (j : ℝ) * s := mul_le_mul_of_nonneg_right h1 hspos.le
    linarith
  have hδs : δ < s := by
    have h1 : (j : ℝ) < x + 1 := by rw [hj]; exact Int.ceil_lt_add_one x
    have h2 : (j : ℝ) * s < (x + 1) * s := mul_lt_mul_of_pos_right h1 hspos
    have h3 : (x + 1) * s = x * s + s := by ring
    linarith
  have hval : ∀ y : ℝ, A * Real.cos (a0 + y * s) + B * Real.sin (a0 + y * s) =
      -(r * Real.sin (δ + (y - (j : ℝ)) * s)) := by
    intro y
    rw [hc]
    have : a0 + y * s - β = (δ + (y - (j : ℝ)) * s) + Real.pi / 2 := by
      rw [hδ]; ring
    rw [this, Real.cos_add_pi_div_two]
    ring
  have hδne : δ ≠ 0 := by
    intro h0
    have := hne j
    rw [hval] at this
    apply this
    rw [h0]
    simp
  have hδpos : 0 < δ := lt_of_le_of_ne hδ0 (Ne.symm hδne)
  refine ⟨j, fun k => ?_⟩
  rw [hval, hval]
  have key := sin_step_iff N hN s hNs δ hδpos hδs (k - j)
  have e1 : δ + ((k : ℝ) - 1 - (j : ℝ)) * s = δ + (((k - j : ℤ) : ℝ) - 1) * s := by
    push_cast; ring
  have e2 : δ + ((k : ℝ) - (j : ℝ)) * s = δ + ((k - j : ℤ) : ℝ) * s := by
    push_cast; ring
  rw [e1, e2, ← key]
  constructor
  · rintro ⟨h1, h2⟩
    constructor
    · by_contra hcon
      have : 0 ≤ r * Real.sin (δ + (((k - j : ℤ) : ℝ) - 1) * s) :=
        mul_nonneg hr.le (not_lt.mp hcon)
      linarith
    · by_contra hcon
      have : r * Real.sin (δ + ((k - j : ℤ) : ℝ) * s) ≤ 0 :=
        mul_nonpos_of_nonneg_of_nonpos hr.le (not_lt.mp hcon)
      linarith
  · rintro ⟨h1, h2⟩
    constructor
    · have := mul_neg_of_pos_of_neg hr h1
      linarith
    · have := mul_pos hr h2
      linarith

/-- The divider values repeat with period `N`. -/
theorem trig_periodic (N : ℕ) (s : ℝ) (hNs : (N : ℝ) * s = 2 * Real.pi) (A B a0 : ℝ) (k q : ℤ) :
    A * Real.cos (a0 + ((k + q * (N : ℤ) : ℤ) : ℝ) * s) +
        B * Real.sin (a0 + ((k + q * (N : ℤ) : ℤ) : ℝ) * s) =
      A * Real.cos (a0 + (k : ℝ) * s) + B * Real.sin (a0 + (k : ℝ) * s) := by
  have e : a0 + ((k + q * (N : ℤ) : ℤ) : ℝ) * s = (a0 + (k : ℝ) * s) + (q : ℝ) * (2 * Real.pi) := by
    push_cast
    rw [← hNs]
    ring
  rw [e, Real.cos_add_int_mul_two_pi, Real.sin_add_int_mul_two_pi]

/-- A rotation about the unit axis `Y` of a vector `v` orthogonal to it:
`v cos a + (Y × v) sin a`, `a` being the angle in radians. -/
theorem calcQRotDeg_rotate_perp (Angle : ℝ) (Y v : Vec3D) (hY : Y.abs = 1)
    (hv : Y.dotProd v = 0) :
    (Quaternion.calcQRotDeg Angle Y).rotate v =
      (v.scale (Real.cos (Real.pi * Angle / 180))).add
        ((Y.cross v).scale (Real.sin (Real.pi * Angle / 180))) := by
  have hd := (Vec3D.abs_eq_one_iff Y).mp hY
  have h2 : Real.pi * Angle / 180 = 2 * (Real.pi * Angle / 180 / 2) := by ring
  have hcs := Real.cos_sq_add_sin_sq (Real.pi * Angle / 180 / 2)
  unfold Quaternion.calcQRotDeg Quaternion.calcQRot
  rw [Vec3D.unit_of_abs_eq_one Y hY, Quaternion.rotate_eq, h2, Real.cos_two_mul,
    Real.sin_two_mul, ← h2]
  simp only [Vec3D.dotProd, Vec3D.scale, Vec3D.add, Vec3D.cross] at *
  ext <;> simp only
  · linear_combination
      (-(v.x * Real.sin (Real.pi * Angle / 180 / 2) ^ 2)) * hd +
        (2 * Y.x * Real.sin (Real.pi * Angle / 180 / 2) ^ 2) * hv - v.x * hcs
  · linear_combination
      (-(v.y * Real.sin (Real.pi * Angle / 180 / 2) ^ 2)) * hd +
        (2 * Y.y * Real.sin (Real.pi * Angle / 180 / 2) ^ 2) * hv - v.y * hcs
  · linear_combination
      (-(v.z * Real.sin (Real.pi * Angle / 180 / 2) ^ 2)) * hd +
        (2 * Y.z * Real.sin (Real.pi * Angle / 180 / 2) ^ 2) * hv - v.z * hcs

/-- The side value at the divider of position `k` in trigonometric form. -/
theorem dividerValue_eq (self : TwinChopper) (Centre Pt : Vec3D) (angOff : ℝ) (N : Nat)
    (hN : 1 < N) (hY : self.Y.abs = 1) (hXY : self.X.dotProd self.Y = 0) (k : Int) :
    dividerValue self Centre Pt angOff N k =
      (Pt.sub Centre).dotProd self.X *
          Real.cos (Real.pi * (angOff + 360 / (N : ℝ) / 2) / 180 + (k : ℝ) * (2 * Real.pi / (N : ℝ))) +
        (Pt.sub Centre).dotProd (self.Y.cross self.X) *
          Real.sin (Real.pi * (angOff + 360 / (N : ℝ) / 2) / 180 + (k : ℝ) * (2 * Real.pi / (N : ℝ))) := by
  have hNpos : (N : ℝ) ≠ 0 := by
    have : 0 < N := by omega
    exact_mod_cast this.ne'
  have hYX : self.Y.dotProd self.X = 0 := by
    simp only [Vec3D.dotProd] at *
    linarith
  have ha : Real.pi * (angOff + 360 / (N : ℝ) / 2 + (k : ℝ) * (360 / (N : ℝ))) / 180 =
      Real.pi * (angOff + 360 / (N : ℝ) / 2) / 180 + (k : ℝ) * (2 * Real.pi / (N : ℝ)) := by
    field_simp
    ring
  unfold dividerValue
  rw [calcQRotDeg_rotate_perp _ self.Y self.X hY hYX, ha]
  simp only [Vec3D.dotProd, Vec3D.scale, Vec3D.add]
  ring

/-- The divider plane of position `i` is among the surfaces after the call, so
the valuation of a point gives its side of it; off the dividers the side value
is not zero. -/
theorem divider_sides (self : TwinChopper) (System : Simulation) (surfOffset : Int)
    (Centre : Vec3D) (FBStr EdgeStr : HeadRule) (BRad : ℝ) (N : Nat) (radius angOff : ℝ)
    (sealUnit : HeadRule) (sealMat : Int) (Pt : Vec3D) (σ : Int → Bool) (hN : 1 < N)
    (hY : self.Y ≠ ⟨0, 0, 0⟩)
    (hσ : SidesAt (self.createRing System surfOffset Centre FBStr EdgeStr BRad N radius angOff
      sealUnit sealMat).1.SMap Pt σ)
    (hP : OffDividers (self.createRing System surfOffset Centre FBStr EdgeStr BRad N radius
      angOff sealUnit sealMat).1.SMap Pt surfOffset N) (i : Nat) (hi : i < N) :
    (σ (boltIndexAt surfOffset i + 3) = true ↔
      0 < dividerValue self Centre Pt angOff N (i : Int)) ∧
    dividerValue self Centre Pt angOff N (i : Int) ≠ 0 := by
  have hmem : Surface.Plane (boltIndexAt surfOffset i + 3) Centre
      ((Quaternion.calcQRotDeg (angOff + 360 / (N : ℝ) / 2 + (i : ℝ) * (360 / (N : ℝ)))
        self.Y).rotate self.X) ∈
      (self.createRing System surfOffset Centre FBStr EdgeStr BRad N radius angOff
        sealUnit sealMat).1.SMap := by
    rw [createRing_SMap self System surfOffset Centre FBStr EdgeStr BRad N radius angOff
      sealUnit sealMat hN hY]
    refine List.mem_append_right _ (List.mem_flatMap.mpr ⟨i, List.mem_range.mpr hi, ?_⟩)
    simp [specRingSurfaces]
  have hval : dividerValue self Centre Pt angOff N (i : Int) =
      (Surface.Plane (boltIndexAt surfOffset i + 3) Centre
        ((Quaternion.calcQRotDeg (angOff + 360 / (N : ℝ) / 2 + (i : ℝ) * (360 / (N : ℝ)))
          self.Y).rotate self.X)).sideValue Pt := by
    simp only [dividerValue, Surface.sideValue, Int.cast_natCast]
  rw [hval]
  exact ⟨hσ _ hmem, hP _ hmem i hi rfl⟩

/-- Exactly one wedge of the ring contains a point that lies on none of the
divider planes: the divider planes `createRing` builds cut the space off them
into `N` wedges. -/
theorem wedge_exists_unique (self : TwinChopper) (System : Simulation) (surfOffset : Int)
    (Centre : Vec3D) (FBStr EdgeStr : HeadRule) (BRad : ℝ) (N : Nat) (radius angOff : ℝ)
    (sealUnit : HeadRule) (sealMat : Int) (Pt : Vec3D) (σ : Int → Bool) (hN : 1 < N)
    (hY : self.Y.abs = 1) (hXY : self.X.dotProd self.Y = 0)
    (hσ : SidesAt (self.createRing System surfOffset Centre FBStr EdgeStr BRad N radius angOff
      sealUnit sealMat).1.SMap Pt σ)
    (hP : OffDividers (self.createRing System surfOffset Centre FBStr EdgeStr BRad N radius
      angOff sealUnit sealMat).1.SMap Pt surfOffset N) :
    ∃ w, w < N ∧ inWedge σ surfOffset N w = true ∧
      ∀ i, i < N → inWedge σ surfOffset N i = true → i = w := by
  have hY0 := Vec3D.ne_zero_of_abs_eq_one self.Y hY
  have hside := divider_sides self System surfOffset Centre FBStr EdgeStr BRad N radius angOff
    sealUnit sealMat Pt σ hN hY0 hσ hP
  have hNpos : (0 : ℝ) < (N : ℝ) := by
    have : 0 < N := by omega
    exact_mod_cast this
  have hNz : (N : ℤ) ≠ 0 := by
    have : 0 < N := by omega
    exact_mod_cast this.ne'
  have hNp : (0 : ℤ) < (N : ℤ) := by
    have : 0 < N := by omega
    exact_mod_cast this
  have hNs : (N : ℝ) * (2 * Real.pi / (N : ℝ)) = 2 * Real.pi := by
    field_simp
  have hF := dividerValue_eq self Centre Pt angOff N hN hY hXY
  have hper := trig_periodic N (2 * Real.pi / (N : ℝ)) hNs ((Pt.sub Centre).dotProd self.X)
    ((Pt.sub Centre).dotProd (self.Y.cross self.X)) (Real.pi * (angOff + 360 / (N : ℝ) / 2) / 180)
  -- the divider values repeat with period N
  have hperF : ∀ k q : ℤ, dividerValue self Centre Pt angOff N (k + q * (N : ℤ)) =
      dividerValue self Centre Pt angOff N k := by
    intro k q
    rw [hF, hF, hper]
  have hne : ∀ k : ℤ, dividerValue self Centre Pt angOff N k ≠ 0 := by
    intro k
    have hk : k = ((k % (N : ℤ)).toNat : ℤ) + (k / (N : ℤ)) * (N : ℤ) := by
      rw [Int.toNat_of_nonneg (Int.emod_nonneg k hNz)]
      have := Int.emod_add_ediv k N
      linarith
    have hlt : (k % (N : ℤ)).toNat < N := by
      have := Int.emod_lt_of_pos k hNp
      have := Int.emod_nonneg k hNz
      omega
    rw [hk, hperF]
    exact (hside _ hlt).2
  obtain ⟨j, hj⟩ := wedge_index N (by omega) (2 * Real.pi / (N : ℝ)) hNs
    ((Pt.sub Centre).dotProd self.X) ((Pt.sub Centre).dotProd (self.Y.cross self.X))
    (Real.pi * (angOff + 360 / (N : ℝ) / 2) / 180) (fun k => by rw [← hF]; exact hne k)
  -- the wedge condition in terms of the divider values
  have hwedge : ∀ i, i < N → (inWedge σ surfOffset N i = true ↔ (N : ℤ) ∣ ((i : ℤ) - j)) := by
    intro i hi
    have hprevlt : (i + N - 1) % N < N := Nat.mod_lt _ (by omega)
    have hprev : dividerValue self Centre Pt angOff N (((i + N - 1) % N : ℕ) : ℤ) =
        dividerValue self Centre Pt angOff N ((i : ℤ) - 1) := by
      by_cases h0 : i = 0
      · subst h0
        have e1 : (0 + N - 1) % N = N - 1 := by
          rw [Nat.zero_add]
          exact Nat.mod_eq_of_lt (by omega)
        have e2 : (((N - 1 : ℕ)) : ℤ) = ((0 : ℕ) : ℤ) - 1 + 1 * (N : ℤ) := by
          have : 1 ≤ N := by omega
          push_cast [Nat.cast_sub this]
          ring
        rw [e1, e2, hperF]
      · have e1 : (i + N - 1) % N = i - 1 := by
          have : i + N - 1 = (i - 1) + N := by omega
          rw [this, Nat.add_mod_right]
          exact Nat.mod_eq_of_lt (by omega)
        have e2 : (((i - 1 : ℕ)) : ℤ) = (i : ℤ) - 1 := by
          have : 1 ≤ i := by omega
          push_cast [Nat.cast_sub this]
          ring
        rw [e1, e2]
    rw [← hj (i : ℤ)]
    have hc1 : ((((i : ℤ) - 1 : ℤ)) : ℝ) = ((i : ℤ) : ℝ) - 1 := by push_cast; ring
    rw [← hc1, ← hF, ← hF, ← hprev]
    unfold inWedge
    rw [Bool.and_eq_true, (hside _ hprevlt).1, Bool.not_eq_true', ← Bool.not_eq_true,
      (hside i hi).1]
    constructor
    · rintro ⟨h1, h2⟩
      exact ⟨h1, lt_of_le_of_ne (not_lt.mp h2) (hside i hi).2⟩
    · rintro ⟨h1, h2⟩
      exact ⟨h1, not_lt.mpr h2.le⟩
  have hw0 : (j % (N : ℤ)).toNat < N := by
    have := Int.emod_lt_of_pos j hNp
    have := Int.emod_nonneg j hNz
    omega
  have hwj : (((j % (N : ℤ)).toNat : ℕ) : ℤ) = j % (N : ℤ) :=
    Int.toNat_of_nonneg (Int.emod_nonneg j hNz)
  refine ⟨(j % (N : ℤ)).toNat, hw0, ?_, ?_⟩
  · rw [hwedge _ hw0, hwj]
    refine ⟨-(j / (N : ℤ)), ?_⟩
    have := Int.emod_add_ediv j N
    linarith
  · intro i hi hin
    have hd := (hwedge i hi).mp hin
    have h1 : ((i : ℤ) - j) % (N : ℤ) = 0 := Int.emod_eq_zero_of_dvd hd
    have h2 : (i : ℤ) % (N : ℤ) = j % (N : ℤ) := Int.emod_eq_emod_iff_emod_sub_eq_zero.mpr h1
    have h3 : (i : ℤ) % (N : ℤ) = (i : ℤ) :=
      Int.emod_eq_of_lt (by omega) (by exact_mod_cast hi)
    have h4 : (i : ℤ) = j % (N : ℤ) := by rw [← h3, h2]
    have := Int.emod_nonneg j hNz
    omega

/-- The cells of one ring position with their numbers and truth values at a
point: the bolt cell, the wall cell and, with a seal rule, the seal cell. -/
theorem specRingCells_cells (σ : Int → Bool) (boltMat wallMat sealMat : Int)
    (FBStr EdgeStr sealUnit : HeadRule) (surfOffset cellIndex : Int) (N i : Nat)
    (h0 : 0 ≤ surfOffset) (hz : sealUnit.noZero = true) :
    ∃ cb cw : Qhull,
      cb.name = cellIndex + cellsPerPosition sealUnit * (i : Int) ∧
      cw.name = cellIndex + cellsPerPosition sealUnit * (i : Int) + 1 ∧
      cb.rule.eval σ = (inBolt σ surfOffset i && FBStr.eval σ) ∧
      cw.rule.eval σ = (inWedge σ surfOffset N i && !inBolt σ surfOffset i && FBStr.eval σ &&
        EdgeStr.eval σ && !inSeal σ sealUnit) ∧
      ((sealUnit.HeadNode.isNone = true ∧
          specRingCells boltMat wallMat sealMat FBStr EdgeStr sealUnit surfOffset cellIndex N i =
            [cb, cw]) ∨
        (sealUnit.HeadNode.isNone = false ∧ ∃ cs : Qhull,
          cs.name = cellIndex + cellsPerPosition sealUnit * (i : Int) + 2 ∧
          cs.rule.eval σ = (inWedge σ surfOffset N i && inSeal σ sealUnit) ∧
          specRingCells boltMat wallMat sealMat FBStr EdgeStr sealUnit surfOffset cellIndex N i =
            [cb, cw, cs])) := by
  have hev := eval_specRingCells σ boltMat wallMat sealMat FBStr EdgeStr sealUnit surfOffset
    cellIndex N i h0 hz
  unfold specRingCells positionCells at hev ⊢
  refine ⟨⟨cellIndex + cellsPerPosition sealUnit * (i : Int), boltMat, 0,
      (⟨some (Rule.Literal (-(boltIndexAt surfOffset i + 7)))⟩ : HeadRule).addIntersection
        FBStr⟩,
    ⟨cellIndex + cellsPerPosition sealUnit * (i : Int) + 1, wallMat, 0,
      (((⟨some (Rule.Intersection
          (wedgeRule (boltIndexAt surfOffset ((i + N - 1) % N)) (boltIndexAt surfOffset i))
          (Rule.Literal (boltIndexAt surfOffset i + 7)))⟩ : HeadRule).addIntersection
            FBStr).addIntersection EdgeStr).addIntersection
        (if sealUnit.HeadNode.isNone then ⟨none⟩ else sealUnit.complement)⟩,
    rfl, rfl, ?_, ?_, ?_⟩
  · cases hs : sealUnit.HeadNode.isNone with
    | true =>
      simp only [hs, if_true, List.append_nil, List.map_cons, List.map_nil, List.cons.injEq,
        and_true] at hev
      exact hev.1
    | false =>
      simp only [hs, Bool.false_eq_true, if_false, List.cons_append, List.nil_append,
        List.map_cons, List.map_nil, List.cons.injEq, and_true] at hev
      exact hev.1
  · cases hs : sealUnit.HeadNode.isNone with
    | true =>
      simp only [hs, if_true, List.append_nil, List.map_cons, List.map_nil, List.cons.injEq,
        and_true] at hev
      simp only [if_true]
      exact hev.2
    | false =>
      simp only [hs, Bool.false_eq_true, if_false, List.cons_append, List.nil_append,
        List.map_cons, List.map_nil, List.cons.injEq, and_true] at hev
      simp only [Bool.false_eq_true, if_false]
      exact hev.2.1
  · cases hs : sealUnit.HeadNode.isNone with
    | true =>
      refine Or.inl ⟨rfl, ?_⟩
      simp only [if_true, List.append_nil]
    | false =>
      simp only [hs, Bool.false_eq_true, if_false, List.cons_append, List.nil_append,
        List.map_cons, List.map_nil, List.cons.injEq, and_true] at hev
      refine Or.inr ⟨rfl, ⟨cellIndex + cellsPerPosition sealUnit * (i : Int) + 2, sealMat, 0,
        (⟨some (wedgeRule (boltIndexAt surfOffset ((i + N - 1) % N))
          (boltIndexAt surfOffset i))⟩ : HeadRule).addIntersection sealUnit⟩, rfl, hev.2.2, ?_⟩
      simp only [Bool.false_eq_true, if_false, List.cons_append, List.nil_append]

/-- The facts about one ring position at a point where the containments hold:
a cell of the position that contains the point puts it in the wedge of the
position and in the annulus; no two cells of the position contain it; and a
point of the annulus in the wedge lies in a cell of the position. -/
theorem ring_position_facts (σ : Int → Bool) (boltMat wallMat sealMat : Int)
    (FBStr EdgeStr sealUnit : HeadRule) (surfOffset cellIndex : Int) (N i : Nat)
    (h0 : 0 ≤ surfOffset) (hz : sealUnit.noZero = true) (hi : i < N)
    (G : Containments σ surfOffset N FBStr EdgeStr sealUnit) :
    (∀ c ∈ specRingCells boltMat wallMat sealMat FBStr EdgeStr sealUnit surfOffset cellIndex N i,
      c.rule.eval σ = true → inWedge σ surfOffset N i = true ∧
        inAnnulus σ FBStr EdgeStr = true) ∧
    (specRingCells boltMat wallMat sealMat FBStr EdgeStr sealUnit surfOffset cellIndex N
      i).Pairwise (fun c d => ¬ (c.rule.eval σ = true ∧ d.rule.eval σ = true)) ∧
    (inAnnulus σ FBStr EdgeStr = true → inWedge σ surfOffset N i = true →
      ∃ c ∈ specRingCells boltMat wallMat sealMat FBStr EdgeStr sealUnit surfOffset cellIndex
        N i, c.rule.eval σ = true) := by
  have hev := eval_specRingCells σ boltMat wallMat sealMat FBStr EdgeStr sealUnit surfOffset
    cellIndex N i h0 hz
  have hb := G.1 i hi
  have hsl := G.2
  have hmem : ∀ c ∈ specRingCells boltMat wallMat sealMat FBStr EdgeStr sealUnit surfOffset
      cellIndex N i, c.rule.eval σ ∈
        [inBolt σ surfOffset i && FBStr.eval σ,
          inWedge σ surfOffset N i && !inBolt σ surfOffset i && FBStr.eval σ &&
            EdgeStr.eval σ && !inSeal σ sealUnit] ++
        (if sealUnit.HeadNode.isNone then []
          else [inWedge σ surfOffset N i && inSeal σ sealUnit]) := by
    intro c hc
    rw [← hev]
    exact List.mem_map_of_mem (fun c => c.rule.eval σ) hc
  refine ⟨?_, ?_, ?_⟩
  · intro c hc ht
    have hm := hmem c hc
    rw [ht] at hm
    simp only [inAnnulus, inSeal] at *
    cases hB : inBolt σ surfOffset i <;> cases hW : inWedge σ surfOffset N i <;>
      cases hF : FBStr.eval σ <;> cases hE : EdgeStr.eval σ <;>
      cases hN : sealUnit.HeadNode.isNone <;> cases hS : sealUnit.eval σ <;>
      simp_all
  · have hp : List.Pairwise (fun x y : Bool => ¬ (x = true ∧ y = true))
        ((specRingCells boltMat wallMat sealMat FBStr EdgeStr sealUnit surfOffset cellIndex N
          i).map (fun c => c.rule.eval σ)) := by
      rw [hev]
      simp only [inAnnulus, inSeal] at *
      cases hB : inBolt σ surfOffset i <;> cases hW : inWedge σ surfOffset N i <;>
        cases hF : FBStr.eval σ <;> cases hE : EdgeStr.eval σ <;>
        cases hN : sealUnit.HeadNode.isNone <;> cases hS : sealUnit.eval σ <;>
        simp_all
    exact List.pairwise_map.mp hp
  · intro hA hWd
    have hex : true ∈ (specRingCells boltMat wallMat sealMat FBStr EdgeStr sealUnit surfOffset
        cellIndex N i).map (fun c => c.rule.eval σ) := by
      rw [hev]
      simp only [inAnnulus, inSeal] at *
      cases hB : inBolt σ surfOffset i <;> cases hW : inWedge σ surfOffset N i <;>
        cases hF : FBStr.eval σ <;> cases hE : EdgeStr.eval σ <;>
        cases hN : sealUnit.HeadNode.isNone <;> cases hS : sealUnit.eval σ <;>
        simp_all
    obtain ⟨c, hc, hct⟩ := List.mem_map.mp hex
    exact ⟨c, hc, hct⟩

/-- At a point that lies in exactly one wedge, the cells of the ring partition
the annulus exactly when the containments hold there. -/
theorem partition_iff_containments (σ : Int → Bool) (boltMat wallMat sealMat : Int)
    (FBStr EdgeStr sealUnit : HeadRule) (surfOffset cellIndex : Int) (N w : Nat)
    (h0 : 0 ≤ surfOffset) (hz : sealUnit.noZero = true) (hw : w < N)
    (hWw : inWedge σ surfOffset N w = true)
    (huniq : ∀ i, i < N → inWedge σ surfOffset N i = true → i = w) :
    PartitionAt σ ((List.range N).flatMap
        (specRingCells boltMat wallMat sealMat FBStr EdgeStr sealUnit surfOffset cellIndex N))
      FBStr EdgeStr ↔
    Containments σ surfOffset N FBStr EdgeStr sealUnit := by
  constructor
  · rintro ⟨hpw, hun⟩
    have hsym : Symmetric (fun c d : Qhull => ¬ (c.rule.eval σ = true ∧ d.rule.eval σ = true)) :=
      fun c d h hcd => h ⟨hcd.2, hcd.1⟩
    have hdisj : ∀ (i k : Nat) (c d : Qhull), i < N → k < N →
        c ∈ specRingCells boltMat wallMat sealMat FBStr EdgeStr sealUnit surfOffset cellIndex
          N i →
        d ∈ specRingCells boltMat wallMat sealMat FBStr EdgeStr sealUnit surfOffset cellIndex
          N k →
        c.name ≠ d.name → c.rule.eval σ = true → d.rule.eval σ = true → False := by
      intro i k c d hi hk hc hd hne hct hdt
      have hcm := List.mem_flatMap.mpr ⟨i, List.mem_range.mpr hi, hc⟩
      have hdm := List.mem_flatMap.mpr ⟨k, List.mem_range.mpr hk, hd⟩
      exact hpw.forall hsym hcm hdm (fun h => hne (congrArg Qhull.name h)) ⟨hct, hdt⟩
    have hin : ∀ (i : Nat) (c : Qhull), i < N →
        c ∈ specRingCells boltMat wallMat sealMat FBStr EdgeStr sealUnit surfOffset cellIndex
          N i → c.rule.eval σ = true → inAnnulus σ FBStr EdgeStr = true := by
      intro i c hi hc hct
      exact hun.mp ⟨c, List.mem_flatMap.mpr ⟨i, List.mem_range.mpr hi, hc⟩, hct⟩
    obtain ⟨wb, ww, hwbn, hwwn, hwbe, hwwe, hwl⟩ := specRingCells_cells σ boltMat wallMat sealMat
      FBStr EdgeStr sealUnit surfOffset cellIndex N w h0 hz
    have hwbm : wb ∈ specRingCells boltMat wallMat sealMat FBStr EdgeStr sealUnit surfOffset
        cellIndex N w := by
      rcases hwl with ⟨_, h⟩ | ⟨_, _, _, _, h⟩ <;> rw [h] <;> simp
    have hwwm : ww ∈ specRingCells boltMat wallMat sealMat FBStr EdgeStr sealUnit surfOffset
        cellIndex N w := by
      rcases hwl with ⟨_, h⟩ | ⟨_, _, _, _, h⟩ <;> rw [h] <;> simp
    refine ⟨?_, ?_⟩
    · intro i hi hB hF
      obtain ⟨cb, cw, hcbn, _, hcbe, _, hcl⟩ := specRingCells_cells σ boltMat wallMat sealMat
        FBStr EdgeStr sealUnit surfOffset cellIndex N i h0 hz
      have hcbm : cb ∈ specRingCells boltMat wallMat sealMat FBStr EdgeStr sealUnit surfOffset
          cellIndex N i := by
        rcases hcl with ⟨_, h⟩ | ⟨_, _, _, _, h⟩ <;> rw [h] <;> simp
      have hcbt : cb.rule.eval σ = true := by rw [hcbe, hB, hF]; rfl
      have hA := hin i cb hi hcbm hcbt
      have hE : EdgeStr.eval σ = true := by
        simp only [inAnnulus, Bool.and_eq_true] at hA
        exact hA.2
      have hS : inSeal σ sealUnit = false := by
        cases hSv : inSeal σ sealUnit with
        | false => rfl
        | true =>
          exfalso
          rcases hwl with ⟨hnone, _⟩ | ⟨hsome, cs, hcsn, hcse, h⟩
          · simp [inSeal, hnone] at hSv
          · have hcsm : cs ∈ specRingCells boltMat wallMat sealMat FBStr EdgeStr sealUnit
                surfOffset cellIndex N w := by rw [h]; simp
            have hcst : cs.rule.eval σ = true := by rw [hcse, hWw, hSv]; rfl
            refine hdisj i w cb cs hi hw hcbm hcsm ?_ hcbt hcst
            rw [hcbn, hcsn]
            simp only [cellsPerPosition, hsome, Bool.false_eq_true, if_false]
            omega
      refine ⟨?_, hE, hS⟩
      by_contra hWi
      have hiw : i ≠ w := by
        intro h
        rw [h] at hWi
        exact hWi hWw
      cases hBw : inBolt σ surfOffset w with
      | true =>
        have hwbt : wb.rule.eval σ = true := by rw [hwbe, hBw, hF]; rfl
        refine hdisj i w cb wb hi hw hcbm hwbm ?_ hcbt hwbt
        rw [hcbn, hwbn]
        unfold cellsPerPosition
        split <;> omega
      | false =>
        have hwwt : ww.rule.eval σ = true := by rw [hwwe, hWw, hBw, hF, hE, hS]; rfl
        refine hdisj i w cb ww hi hw hcbm hwwm ?_ hcbt hwwt
        rw [hcbn, hwwn]
        unfold cellsPerPosition
        split <;> omega
    · intro hSv
      rcases hwl with ⟨hnone, _⟩ | ⟨hsome, cs, hcsn, hcse, h⟩
      · simp [inSeal, hnone] at hSv
      · have hcsm : cs ∈ specRingCells boltMat wallMat sealMat FBStr EdgeStr sealUnit
            surfOffset cellIndex N w := by rw [h]; simp
        have hcst : cs.rule.eval σ = true := by rw [hcse, hWw, hSv]; rfl
        exact hin w cs hw hcsm hcst
  · intro G
    refine ⟨?_, ?_⟩
    · rw [List.pairwise_flatMap]
      refine ⟨?_, ?_⟩
      · intro i hi
        exact (ring_position_facts σ boltMat wallMat sealMat FBStr EdgeStr sealUnit
          surfOffset cellIndex N i h0 hz (List.mem_range.mp hi) G).2.1
      · refine List.Pairwise.imp_of_mem ?_ (List.pairwise_lt_range N)
        intro i j hi hj hlt c hc d hd hcd
        have fi := (ring_position_facts σ boltMat wallMat sealMat FBStr EdgeStr
          sealUnit surfOffset cellIndex N i h0 hz (List.mem_range.mp hi) G).1 c hc hcd.1
        have fj := (ring_position_facts σ boltMat wallMat sealMat FBStr EdgeStr
          sealUnit surfOffset cellIndex N j h0 hz (List.mem_range.mp hj) G).1 d hd hcd.2
        have h1 := huniq i (List.mem_range.mp hi) fi.1
        have h2 := huniq j (List.mem_range.mp hj) fj.1
        omega
    · constructor
      · rintro ⟨c, hc, hct⟩
        obtain ⟨i, hi, hci⟩ := List.mem_flatMap.mp hc
        exact ((ring_position_facts σ boltMat wallMat sealMat FBStr EdgeStr sealUnit
          surfOffset cellIndex N i h0 hz (List.mem_range.mp hi) G).1 c hci hct).2
      · intro hA
        obtain ⟨c, hc, hct⟩ := (ring_position_facts σ boltMat wallMat sealMat FBStr
          EdgeStr sealUnit surfOffset cellIndex N w h0 hz hw G).2.2 hA hWw
        exact ⟨c, List.mem_flatMap.mpr ⟨w, List.mem_range.mpr hw, hc⟩, hct⟩

/-- C18, amended: for every `N > 1`, with or without a seal rule, for a
component with an orthonormal frame and every point of space that lies on none
of the divider planes `createRing` builds (`σ` being the sides of the point of
the surfaces after the call): the point lies in exactly one of the `N` wedges
between consecutive divider planes, and the bolt, wall and seal cells emitted
partition the ring annulus at the point (no two cells contain it, and it lies
in a cell exactly when it lies in front/back and edge) if and only if the
containments left to the radii hold at the point: between front and back, a
point inside bolt cylinder `i` lies in wedge `i`, inside the edge rule and
outside the seal rule, and a point in the seal rule lies in the annulus.
(Surface numbers are positive: `surfOffset ≥ 0` and no literal 0 in the seal
rule.) -/
theorem C18_ring_partition (self : TwinChopper) (System : Simulation) (surfOffset : Int)
    (Centre : Vec3D) (FBStr EdgeStr : HeadRule) (BRad : ℝ) (N : Nat) (radius angOff : ℝ)
    (sealUnit : HeadRule) (sealMat : Int) (Pt : Vec3D) (σ : Int → Bool) (hN : 1 < N)
    (h0 : 0 ≤ surfOffset) (hz : sealUnit.noZero = true)
    (hframe : attachSystem.OrthoBasis self.X self.Y self.Z)
    (hσ : SidesAt (self.createRing System surfOffset Centre FBStr EdgeStr BRad N radius angOff
      sealUnit sealMat).1.SMap Pt σ)
    (hP : OffDividers (self.createRing System surfOffset Centre FBStr EdgeStr BRad N radius
      angOff sealUnit sealMat).1.SMap Pt surfOffset N) :
    (∃ w, w < N ∧ inWedge σ surfOffset N w = true ∧
      ∀ i, i < N → inWedge σ surfOffset N i = true → i = w) ∧
    ∃ cells : List Qhull,
      (self.createRing System surfOffset Centre FBStr EdgeStr BRad N radius angOff
        sealUnit sealMat).2 = System ++ cells ∧
      (PartitionAt σ cells FBStr EdgeStr ↔
        Containments σ surfOffset N FBStr EdgeStr sealUnit) := by
  obtain ⟨w, hw, hWw, huniq⟩ := wedge_exists_unique self System surfOffset Centre FBStr EdgeStr
    BRad N radius angOff sealUnit sealMat Pt σ hN hframe.2.1 hframe.2.2.2.1 hσ hP
  exact ⟨⟨w, hw, hWw, huniq⟩, _,
    createRing_System self System surfOffset Centre FBStr EdgeStr BRad N radius angOff
      sealUnit sealMat hN,
    partition_iff_containments σ self.boltMat self.wallMat sealMat FBStr EdgeStr sealUnit
      surfOffset self.cellIndex N w h0 hz hw hWw huniq⟩

/-- A turn about the axis `(0,1,0)` of a vector with no `y` component. -/
theorem rotate_about_Y (Angle : ℝ) (v : Vec3D) (hv : v.y = 0) :
    (Quaternion.calcQRotDeg Angle ⟨0, 1, 0⟩).rotate v =
      ⟨v.x * Real.cos (Real.pi * Angle / 180) + v.z * Real.sin (Real.pi * Angle / 180), 0,
       v.z * Real.cos (Real.pi * Angle / 180) - v.x * Real.sin (Real.pi * Angle / 180)⟩ := by
  have hY : (⟨0, 1, 0⟩ : Vec3D).abs = 1 := by
    rw [Vec3D.abs_eq_one_iff]
    simp [Vec3D.dotProd]
  rw [calcQRotDeg_rotate_perp Angle ⟨0, 1, 0⟩ v hY (by simp [Vec3D.dotProd, hv])]
  ext <;> simp [Vec3D.add, Vec3D.scale, Vec3D.cross, hv]
  ring

/-- The surfaces of the example ring of two bolts of radius `radius` on the
circle of radius 5: the bolt cylinders about `(0,0,5)` and `(0,0,-5)` and the
divider planes through the origin with the normals `(0,0,-1)` and `(0,0,1)`. -/
theorem exampleRing_SMap (radius : ℝ) :
    (exampleRing.createRing [] 2000 ⟨0, 0, 0⟩ exampleFB exampleEdge 5 2 radius 0
        ⟨none⟩ 0).1.SMap =
      [Surface.Plane 1 ⟨0, -1, 0⟩ ⟨0, 1, 0⟩, Surface.Plane 11 ⟨0, 1, 0⟩ ⟨0, 1, 0⟩,
       Surface.Cylinder 2007 ⟨0, 0, 0⟩ ⟨0, 1, 0⟩ 4,
       Surface.Cylinder 2017 ⟨0, 0, 0⟩ ⟨0, 1, 0⟩ 6,
       Surface.Cylinder 2107 ⟨0, 0, 5⟩ ⟨0, 1, 0⟩ radius,
       Surface.Plane 2103 ⟨0, 0, 0⟩ ⟨0, 0, -1⟩,
       Surface.Cylinder 2117 ⟨0, 0, -5⟩ ⟨0, 1, 0⟩ radius,
       Surface.Plane 2113 ⟨0, 0, 0⟩ ⟨0, 0, 1⟩] := by
  have hY0 : exampleRing.Y ≠ ⟨0, 0, 0⟩ := by
    intro h
    have := congrArg Vec3D.y h
    simp [exampleRing] at this
  have c0 : Real.cos (Real.pi * 0 / 180) = 1 := by simp
  have s0 : Real.sin (Real.pi * 0 / 180) = 0 := by simp
  have c180 : Real.cos (Real.pi * 180 / 180) = -1 := by
    have : Real.pi * 180 / 180 = Real.pi := by ring
    rw [this, Real.cos_pi]
  have s180 : Real.sin (Real.pi * 180 / 180) = 0 := by
    have : Real.pi * 180 / 180 = Real.pi := by ring
    rw [this, Real.sin_pi]
  have c90 : Real.cos (Real.pi * 90 / 180) = 0 := by
    have : Real.pi * 90 / 180 = Real.pi / 2 := by ring
    rw [this, Real.cos_pi_div_two]
  have s90 : Real.sin (Real.pi * 90 / 180) = 1 := by
    have : Real.pi * 90 / 180 = Real.pi / 2 := by ring
    rw [this, Real.sin_pi_div_two]
  have c270 : Real.cos (Real.pi * 270 / 180) = 0 := by
    have : Real.pi * 270 / 180 = Real.pi / 2 + Real.pi := by ring
    rw [this, Real.cos_add_pi, Real.cos_pi_div_two, neg_zero]
  have s270 : Real.sin (Real.pi * 270 / 180) = -1 := by
    have : Real.pi * 270 / 180 = Real.pi / 2 + Real.pi := by ring
    rw [this, Real.sin_add_pi, Real.sin_pi_div_two]
  have a0 : (0 : ℝ) + ((0 : ℕ) : ℝ) * (360 / ((2 : ℕ) : ℝ)) = 0 := by norm_num
  have a1 : (0 : ℝ) + ((1 : ℕ) : ℝ) * (360 / ((2 : ℕ) : ℝ)) = 180 := by norm_num
  have b0 : (0 : ℝ) + 360 / ((2 : ℕ) : ℝ) / 2 + ((0 : ℕ) : ℝ) * (360 / ((2 : ℕ) : ℝ)) = 90 := by
    norm_num
  have b1 : (0 : ℝ) + 360 / ((2 : ℕ) : ℝ) / 2 + ((1 : ℕ) : ℝ) * (360 / ((2 : ℕ) : ℝ)) = 270 := by
    norm_num
  rw [createRing_SMap exampleRing [] 2000 ⟨0, 0, 0⟩ exampleFB exampleEdge 5 2 radius 0
    ⟨none⟩ 0 (by decide) hY0]
  simp only [List.range_succ, List.range_zero, List.nil_append, List.flatMap_cons,
    List.flatMap_nil, List.append_nil, specRingSurfaces, a0, a1, b0, b1, exampleRing,
    boltIndexAt, List.cons_append, List.singleton_append, Vec3D.scale]
  rw [rotate_about_Y 0 _ (by norm_num), rotate_about_Y 180 _ (by norm_num),
    rotate_about_Y 90 _ (by norm_num), rotate_about_Y 270 _ (by norm_num), c0, s0, c180, s180,
    c90, s90, c270, s270]
  simp only [Vec3D.add]
  norm_num

/-- The truth values of the four cells of the example ring of two bolts
without a seal rule, at a point of valuation `σ`. -/
theorem exampleRing_cells (radius : ℝ) (σ : Int → Bool) :
    (exampleRing.createRing [] 2000 ⟨0, 0, 0⟩ exampleFB exampleEdge 5 2 radius 0
        ⟨none⟩ 0).2.map (fun c => c.rule.eval σ) =
      [inBolt σ 2000 0 && exampleFB.eval σ,
       inWedge σ 2000 2 0 && !inBolt σ 2000 0 && exampleFB.eval σ && exampleEdge.eval σ &&
         !inSeal σ ⟨none⟩,
       inBolt σ 2000 1 && exampleFB.eval σ,
       inWedge σ 2000 2 1 && !inBolt σ 2000 1 && exampleFB.eval σ && exampleEdge.eval σ &&
         !inSeal σ ⟨none⟩] := by
  rw [createRing_System exampleRing [] 2000 ⟨0, 0, 0⟩ exampleFB exampleEdge 5 2 radius 0
    ⟨none⟩ 0 (by decide)]
  have hev := fun i => eval_specRingCells σ exampleRing.boltMat exampleRing.wallMat 0
    exampleFB exampleEdge ⟨none⟩ 2000 exampleRing.cellIndex 2 i (by decide) rfl
  simp only [List.range_succ, List.range_zero, List.nil_append, List.flatMap_append,
    List.flatMap_singleton, List.map_append, hev]
  rfl

/-- C18, the claim as stated fails at points of space. In the ring of two
bolts of radius 2 on the circle of radius 5, between the planes `y = -1` and
`y = 1` and the cylinders of radius 4 and 6: the point `(0, 0, 13/2)` lies in
the bolt cell of position 0 (it is `3/2` from the bolt axis) but not in the
annulus (it is `13/2` from the ring axis, outside the cylinder of radius 6), so
the union of the cells is not the annulus; and the point `(5, 0, 0)` of the
annulus lies on the divider planes and in none of the four cells. The
valuations are the sides of these points of the eight surfaces. -/
theorem C18_counterexample :
    SidesAt (exampleRing.createRing [] 2000 ⟨0, 0, 0⟩ exampleFB exampleEdge 5 2 2 0
      ⟨none⟩ 0).1.SMap ⟨0, 0, 13 / 2⟩ sidesBeyondEdge ∧
    (exampleRing.createRing [] 2000 ⟨0, 0, 0⟩ exampleFB exampleEdge 5 2 2 0
        ⟨none⟩ 0).2.map (fun c => c.rule.eval sidesBeyondEdge) = [true, false, false, false] ∧
    inAnnulus sidesBeyondEdge exampleFB exampleEdge = false ∧
    SidesAt (exampleRing.createRing [] 2000 ⟨0, 0, 0⟩ exampleFB exampleEdge 5 2 2 0
      ⟨none⟩ 0).1.SMap ⟨5, 0, 0⟩ sidesOnDivider ∧
    (exampleRing.createRing [] 2000 ⟨0, 0, 0⟩ exampleFB exampleEdge 5 2 2 0
        ⟨none⟩ 0).2.map (fun c => c.rule.eval sidesOnDivider) = [false, false, false, false] ∧
    inAnnulus sidesOnDivider exampleFB exampleEdge = true := by
  refine ⟨?_, ?_, by decide, ?_, ?_, by decide⟩
  · rw [exampleRing_SMap]
    intro s hs
    simp only [List.mem_cons, List.mem_singleton, List.not_mem_nil, or_false] at hs
    rcases hs with h | h | h | h | h | h | h | h <;> subst h <;>
      simp [Surface.getName, Surface.sideValue, sidesBeyondEdge, Vec3D.sub, Vec3D.cross,
        Vec3D.dotProd] <;> norm_num
  · rw [exampleRing_cells]
    decide
  · rw [exampleRing_SMap]
    intro s hs
    simp only [List.mem_cons, List.mem_singleton, List.not_mem_nil, or_false] at hs
    rcases hs with h | h | h | h | h | h | h | h <;> subst h <;>
      simp [Surface.getName, Surface.sideValue, sidesOnDivider, Vec3D.sub, Vec3D.cross,
        Vec3D.dotProd] <;> norm_num
  · rw [exampleRing_cells]
    decide

/-- Witness of the amended C18: the ring of two bolts of radius 1 and the point
`(3, 0, 4)`, which lies in the annulus, in the wedge of position 0 and outside
both bolt cylinders: the hypotheses hold there, and so do the containments, so
the four cells partition the annulus at the point. -/
theorem C18_witness :
    (1 < 2) ∧
    SidesAt (exampleRing.createRing [] 2000 ⟨0, 0, 0⟩ exampleFB exampleEdge 5 2 1 0
      ⟨none⟩ 0).1.SMap ⟨3, 0, 4⟩ sidesInWall ∧
    OffDividers (exampleRing.createRing [] 2000 ⟨0, 0, 0⟩ exampleFB exampleEdge 5 2 1 0
      ⟨none⟩ 0).1.SMap ⟨3, 0, 4⟩ 2000 2 ∧
    Containments sidesInWall 2000 2 exampleFB exampleEdge ⟨none⟩ ∧
    (∃ w, w < 2 ∧ inWedge sidesInWall 2000 2 w = true ∧
      ∀ i, i < 2 → inWedge sidesInWall 2000 2 i = true → i = w) ∧
    ∃ cells : List Qhull,
      (exampleRing.createRing [] 2000 ⟨0, 0, 0⟩ exampleFB exampleEdge 5 2 1 0
        ⟨none⟩ 0).2 = [] ++ cells ∧
      (PartitionAt sidesInWall cells exampleFB exampleEdge ↔
        Containments sidesInWall 2000 2 exampleFB exampleEdge ⟨none⟩) := by
  have hσ : SidesAt (exampleRing.createRing [] 2000 ⟨0, 0, 0⟩ exampleFB exampleEdge 5 2 1 0
      ⟨none⟩ 0).1.SMap ⟨3, 0, 4⟩ sidesInWall := by
    rw [exampleRing_SMap]
    intro s hs
    simp only [List.mem_cons, List.mem_singleton, List.not_mem_nil, or_false] at hs
    rcases hs with h | h | h | h | h | h | h | h <;> subst h <;>
      simp [Surface.getName, Surface.sideValue, sidesInWall, Vec3D.sub, Vec3D.cross,
        Vec3D.dotProd] <;> norm_num
  have hP : OffDividers (exampleRing.createRing [] 2000 ⟨0, 0, 0⟩ exampleFB exampleEdge 5 2 1 0
      ⟨none⟩ 0).1.SMap ⟨3, 0, 4⟩ 2000 2 := by
    rw [exampleRing_SMap]
    intro s hs i hi hn
    simp only [List.mem_cons, List.mem_singleton, List.not_mem_nil, or_false] at hs
    have hi2 : i = 0 ∨ i = 1 := by omega
    rcases hs with h | h | h | h | h | h | h | h <;> subst h <;>
      rcases hi2 with h2 | h2 <;> subst h2 <;>
      simp [Surface.getName, Surface.sideValue, boltIndexAt, Vec3D.sub, Vec3D.dotProd] at hn ⊢
  have hframe : attachSystem.OrthoBasis exampleRing.X exampleRing.Y exampleRing.Z :=
    attachSystem.orthonormal_mk0 "Ring" 0
  have hC : Containments sidesInWall 2000 2 exampleFB exampleEdge ⟨none⟩ := by
    refine ⟨?_, by decide⟩
    intro i hi
    have hi2 : i = 0 ∨ i = 1 := by omega
    rcases hi2 with h2 | h2 <;> subst h2 <;> decide
  have h := C18_ring_partition exampleRing [] 2000 ⟨0, 0, 0⟩ exampleFB exampleEdge 5 2 1 0
    ⟨none⟩ 0 ⟨3, 0, 4⟩ sidesInWall (by decide) (by decide) rfl hframe hσ hP
  exact ⟨by decide, hσ, hP, hC, h.1, h.2⟩

end constructSystem

/-! ## The mesh bounding box of `meshConstruct::calcXYZ` (C20) -/

namespace tallySystem

open Geometry attachSystem

/-- The eight entries of `Cube`: entry 4 is never written and stays the zero
vector, and entry 7 is overwritten by the last pass of the second loop, so
`BPos` itself is not among them. -/
theorem calcXYZCube_eq (APos BPos : Vec3D) :
    calcXYZCube APos BPos =
      [APos, ⟨BPos.x, APos.y, APos.z⟩, ⟨APos.x, BPos.y, APos.z⟩, ⟨APos.x, APos.y, BPos.z⟩,
       ⟨0, 0, 0⟩, ⟨APos.x, BPos.y, BPos.z⟩, ⟨BPos.x, APos.y, BPos.z⟩,
       ⟨BPos.x, BPos.y, APos.z⟩] := rfl

/-- C20, the code at the failing input: with the identity frame at the origin
(`sideIndex = 0` of a freshly constructed component), `APos = (1,1,1)` and
`BPos = (2,2,2)`, `calcXYZ` returns `APos = (0,0,0)`, `BPos = (2,2,2)`: the
zero vector left in `Cube[4]` is taken for a corner. The claim gives
`(1,1,1)`, `(2,2,2)`. -/
theorem C20_calcXYZ_at_unit_box :
    calcXYZ (FixedComp.mk0 "Object" 0) 0 ⟨1, 1, 1⟩ ⟨2, 2, 2⟩ = .ok (⟨0, 0, 0⟩, ⟨2, 2, 2⟩) ∧
    calcXYZCube ⟨1, 1, 1⟩ ⟨2, 2, 2⟩ =
      [⟨1, 1, 1⟩, ⟨2, 1, 1⟩, ⟨1, 2, 1⟩, ⟨1, 1, 2⟩, ⟨0, 0, 0⟩, ⟨1, 2, 2⟩, ⟨2, 1, 2⟩,
       ⟨2, 2, 1⟩] := by
  refine ⟨?_, rfl⟩
  have hA : ((FixedComp.mk0 "tmpComp" 0).createUnitVectorSide (FixedComp.mk0 "Object" 0) 0) =
      ⟨(FixedComp.mk0 "tmpComp" 0).createUnitVector (FixedComp.mk0 "Object" 0), none⟩ := by
    simp [FixedComp.createUnitVectorSide]
  unfold calcXYZ
  rw [hA]
  simp only [calcXYZCube_eq, FixedComp.createUnitVector, FixedComp.mk0, List.getD_cons_zero,
    List.getD_cons_succ, List.range_succ, List.range_zero, List.nil_append, List.foldl_append,
    List.foldl_cons, List.foldl_nil, calcXYZBounds, calcXYZPoint, Vec3D.get, Vec3D.set,
    Vec3D.add, Vec3D.scale, List.cons_append, Nat.zero_add]
  norm_num

end tallySystem

/-! ## Theorems: signed link copies -/

namespace attachSystem

open Geometry

/-- `setLinkCopy` with both indices in range: nothing is thrown, link `Index`
becomes the link of `FC`, and nothing else changes. -/
theorem setLinkCopy_ok (self FC : FixedComp) (Index sideIndex : Nat) (L : LinkUnit)
    (hI : Index < self.LU.length) (hL : FC.LU[sideIndex]? = some L) :
    (self.setLinkCopy Index FC sideIndex).thrown = none ∧
    (self.setLinkCopy Index FC sideIndex).self.LU[Index]? = some L ∧
    OnlyLinkChanged self Index (self.setLinkCopy Index FC sideIndex) := by
  have hs := lt_length_of_getElem _ _ _ hL
  have hv := vecAt_of_getElem _ _ _ hL
  have heq : self.setLinkCopy Index FC sideIndex =
      ⟨{ self with LU := vecModify (fun _ => L) self.LU Index }, none⟩ := by
    simp only [FixedComp.setLinkCopy, ge_iff_le, Nat.not_le.mpr hI, Nat.not_le.mpr hs, if_false,
      hv]
  rw [heq]
  refine ⟨rfl, ?_, rfl, rfl, rfl, rfl, rfl, rfl, rfl, vecModify_length _ _ _, ?_⟩
  · rw [vecModify_getElem_eq, List.getElem?_eq_getElem hI]
    rfl
  · intro j hj
    exact vecModify_getElem_ne _ self.LU Index j hj

/-- `setLinkComponent` with both indices in range: nothing is thrown, link
`Index` becomes the complemented link of `FC`, and nothing else changes. -/
theorem setLinkComponent_ok (self FC : FixedComp) (Index sideIndex : Nat) (L : LinkUnit)
    (hI : Index < self.LU.length) (hL : FC.LU[sideIndex]? = some L) :
    (self.setLinkComponent Index FC sideIndex).thrown = none ∧
    (self.setLinkComponent Index FC sideIndex).self.LU[Index]? = some L.complement ∧
    OnlyLinkChanged self Index (self.setLinkComponent Index FC sideIndex) := by
  have hs := lt_length_of_getElem _ _ _ hL
  have hv := vecAt_of_getElem _ _ _ hL
  have heq : self.setLinkComponent Index FC sideIndex =
      ⟨{ self with
          LU := vecModify LinkUnit.complement (vecModify (fun _ => L) self.LU Index) Index },
        none⟩ := by
    simp only [FixedComp.setLinkComponent, ge_iff_le, Nat.not_le.mpr hI, Nat.not_le.mpr hs,
      if_false, hv]
  rw [heq]
  refine ⟨rfl, ?_, rfl, rfl, rfl, rfl, rfl, rfl, rfl, ?_, ?_⟩
  · rw [vecModify_getElem_eq, vecModify_getElem_eq, List.getElem?_eq_getElem hI]
    rfl
  · rw [vecModify_length, vecModify_length]
  · intro j hj
    rw [vecModify_getElem_ne _ _ Index j hj, vecModify_getElem_ne _ _ Index j hj]

/-- `setLinkCopy` and `setLinkComponent` with an index out of range throw
`IndexError` and leave the component as it was. -/
theorem setLink_fail (self FC : FixedComp) (Index sideIndex : Nat)
    (h : Index ≥ self.LU.length ∨ sideIndex ≥ FC.LU.length) :
    self.setLinkCopy Index FC sideIndex = ⟨self, some Failure.IndexError⟩ ∧
    self.setLinkComponent Index FC sideIndex = ⟨self, some Failure.IndexError⟩ := by
  unfold FixedComp.setLinkCopy FixedComp.setLinkComponent
  by_cases hI : Index ≥ self.LU.length
  · simp only [hI, if_true, and_self]
  · have hs : sideIndex ≥ FC.LU.length := h.resolve_left hI
    simp only [hI, hs, if_true, if_false, and_self]

/-- A call of `setLinkCopy` or `setLinkComponent` that throws leaves the
component as it was. -/
theorem setLink_thrown_unchanged (self FC : FixedComp) (Index sideIndex : Nat) :
    ((self.setLinkCopy Index FC sideIndex).thrown ≠ none →
      (self.setLinkCopy Index FC sideIndex).self = self) ∧
    ((self.setLinkComponent Index FC sideIndex).thrown ≠ none →
      (self.setLinkComponent Index FC sideIndex).self = self) := by
  by_cases h : Index ≥ self.LU.length ∨ sideIndex ≥ FC.LU.length
  · rw [(setLink_fail self FC Index sideIndex h).1, (setLink_fail self FC Index sideIndex h).2]
    exact ⟨fun _ => rfl, fun _ => rfl⟩
  · have hI : Index < self.LU.length := by omega
    have hs : sideIndex < FC.LU.length := by omega
    have hL : FC.LU[sideIndex]? = some FC.LU[sideIndex] := List.getElem?_eq_getElem hs
    refine ⟨fun hc => absurd (setLinkCopy_ok self FC Index sideIndex _ hI hL).1 hc,
      fun hc => absurd (setLinkComponent_ok self FC Index sideIndex _ hI hL).1 hc⟩

/-- C21: `setLinkSignedCopy` dispatches on the sign of `sideIndex`. For
`sideIndex = +k` (with `k ≥ 1`) it is `setLinkCopy` on link `k-1` of `FC`, for
`sideIndex = -k` it is `setLinkComponent` on link `k-1`, and for `sideIndex = 0`
it throws `IndexError` with the component unchanged. With `Index` in range and
`k` at most the link count of `FC`, nothing is thrown, link `Index` becomes the
exact copy (for `+k`) or the complemented copy (for `-k`) of link `k-1` of `FC`
and nothing else changes. With `Index` out of range or `k` above the link count
of `FC`, both signs throw `IndexError` and leave the component unchanged; and
whatever the arguments, a call that throws leaves the component unchanged. -/
theorem C21_setLinkSignedCopy (self FC : FixedComp) (Index k : Nat) (hk : 1 ≤ k) :
    self.setLinkSignedCopy Index FC (k : Int) = self.setLinkCopy Index FC (k - 1) ∧
    self.setLinkSignedCopy Index FC (-(k : Int)) = self.setLinkComponent Index FC (k - 1) ∧
    self.setLinkSignedCopy Index FC 0 = ⟨self, some Failure.IndexError⟩ ∧
    (Index < self.LU.length → k ≤ FC.LU.length →
      ∃ L : LinkUnit, FC.LU[k - 1]? = some L ∧
        (self.setLinkSignedCopy Index FC (k : Int)).thrown = none ∧
        (self.setLinkSignedCopy Index FC (k : Int)).self.LU[Index]? = some L ∧
        OnlyLinkChanged self Index (self.setLinkSignedCopy Index FC (k : Int)) ∧
        (self.setLinkSignedCopy Index FC (-(k : Int))).thrown = none ∧
        (self.setLinkSignedCopy Index FC (-(k : Int))).self.LU[Index]? = some L.complement ∧
        OnlyLinkChanged self Index (self.setLinkSignedCopy Index FC (-(k : Int)))) ∧
    ((Index ≥ self.LU.length ∨ k > FC.LU.length) →
      self.setLinkSignedCopy Index FC (k : Int) = ⟨self, some Failure.IndexError⟩ ∧
      self.setLinkSignedCopy Index FC (-(k : Int)) = ⟨self, some Failure.IndexError⟩) ∧
    (∀ sideIndex : Int, (self.setLinkSignedCopy Index FC sideIndex).thrown ≠ none →
      (self.setLinkSignedCopy Index FC sideIndex).self = self) := by
  have hpos : self.setLinkSignedCopy Index FC (k : Int) = self.setLinkCopy Index FC (k - 1) := by
    have h1 : ((k : Int) > 0) := by omega
    have h2 : ((k : Int) - 1).toNat = k - 1 := by omega
    simp only [FixedComp.setLinkSignedCopy, h1, if_true, h2]
  have hneg : self.setLinkSignedCopy Index FC (-(k : Int)) =
      self.setLinkComponent Index FC (k - 1) := by
    have h1 : ¬ (-(k : Int) > 0) := by omega
    have h2 : (-(k : Int) < 0) := by omega
    have h3 : (-1 - -(k : Int)).toNat = k - 1 := by omega
    simp only [FixedComp.setLinkSignedCopy, h1, h2, if_true, if_false, h3]
  refine ⟨hpos, hneg, ?_, ?_, ?_, ?_⟩
  · simp [FixedComp.setLinkSignedCopy]
  · intro hI hF
    have hs : k - 1 < FC.LU.length := by omega
    have hL : FC.LU[k - 1]? = some FC.LU[k - 1] := List.getElem?_eq_getElem hs
    refine ⟨FC.LU[k - 1], hL, ?_⟩
    rw [hpos, hneg]
    exact ⟨(setLinkCopy_ok self FC Index _ _ hI hL).1, (setLinkCopy_ok self FC Index _ _ hI hL).2.1,
      (setLinkCopy_ok self FC Index _ _ hI hL).2.2, (setLinkComponent_ok self FC Index _ _ hI hL).1,
      (setLinkComponent_ok self FC Index _ _ hI hL).2.1,
      (setLinkComponent_ok self FC Index _ _ hI hL).2.2⟩
  · intro h
    rw [hpos, hneg]
    refine setLink_fail self FC Index (k - 1) ?_
    rcases h with h | h
    · exact Or.inl h
    · exact Or.inr (by omega)
  · intro sideIndex
    unfold FixedComp.setLinkSignedCopy
    by_cases h1 : sideIndex > 0
    · simp only [h1, if_true]
      exact (setLink_thrown_unchanged self FC Index _).1
    · by_cases h2 : sideIndex < 0
      · simp only [h1, h2, if_true, if_false]
        exact (setLink_thrown_unchanged self FC Index _).2
      · simp only [h1, h2, if_false]
        exact fun _ => trivial

/-- C21 at a concrete input: link 0 of a fresh two-link component copied from
the signed link `1` of `exampleAligned`. -/
theorem C21_witness :
    (1 ≤ 1) ∧
    ((FixedComp.mk0 "T" 2).setLinkSignedCopy 0 exampleAligned ((1 : Nat) : Int)).thrown = none ∧
    ((FixedComp.mk0 "T" 2).setLinkSignedCopy 0 exampleAligned (-((1 : Nat) : Int))).self.LU[0]? =
      some (LinkUnit.complement
        ⟨some ⟨0, 1, 0⟩, some ⟨0, 5, 0⟩, 11, HeadRule.ofSurf 11, ⟨none⟩⟩) := by
  have h := (C21_setLinkSignedCopy (FixedComp.mk0 "T" 2) exampleAligned 0 1 (by decide)).2.2.2.1
    (by decide) (by decide)
  obtain ⟨L, hL, h1, _, _, _, h5, _⟩ := h
  have hL2 : L = ⟨some ⟨0, 1, 0⟩, some ⟨0, 5, 0⟩, 11, HeadRule.ofSurf 11, ⟨none⟩⟩ := by
    have : exampleAligned.LU[1 - 1]? =
        some ⟨some ⟨0, 1, 0⟩, some ⟨0, 5, 0⟩, 11, HeadRule.ofSurf 11, ⟨none⟩⟩ := rfl
    rw [this] at hL
    exact (Option.some.inj hL).symm
  subst hL2
  exact ⟨by decide, h1, h5⟩

end attachSystem

/-! ## Theorems: exit window and link axes -/

namespace attachSystem

open Geometry

/-- The sides `getExitWindow` reads for each `outIndex` from 0 to 5. For 0, 1,
2, 3 and 5 they are the four sides outside the pair of `outIndex`; for 4 they
are `0, 1, 4, 5`, the pair `(4,5)` itself with the pair `(0,1)`. -/
theorem exitWindowSides_table :
    FixedComp.exitWindowSides 0 = [2, 3, 4, 5] ∧ FixedComp.exitWindowSides 1 = [2, 3, 4, 5] ∧
    FixedComp.exitWindowSides 2 = [0, 1, 4, 5] ∧ FixedComp.exitWindowSides 3 = [0, 1, 4, 5] ∧
    FixedComp.exitWindowSides 4 = [0, 1, 4, 5] ∧ FixedComp.exitWindowSides 5 = [2, 3, 0, 1] := by
  decide

/-- With at least six link points every side of `oA` can be read: the four
window entries are the absolute link surfaces of the sides listed. -/
theorem exitWindowSurfs_eq (self : FixedComp) (os : List Nat) (window : List Int)
    (h : ∀ o ∈ os, o < self.LU.length) :
    FixedComp.exitWindowSurfs self os window =
      .ok (window ++ os.map fun o => |(self.LU.getD o LinkUnit.empty).linkSurf|) := by
  induction os generalizing window with
  | nil => simp [FixedComp.exitWindowSurfs]
  | cons o os ih =>
    have ho : o < self.LU.length := h o (List.mem_cons_self _ _)
    have hg : self.LU.getD o LinkUnit.empty = self.LU[o] := by
      rw [List.getD_eq_getElem?_getD, List.getElem?_eq_getElem ho]
      rfl
    simp only [FixedComp.exitWindowSurfs, getLinkSurf_of_lt self o ho]
    rw [ih _ (fun p hp => h p (List.mem_cons_of_mem _ hp))]
    simp only [List.map_cons, List.append_assoc, List.singleton_append, hg, LinkUnit.getLinkSurf]

/-- For every component with at least six link points and every `outIndex`
below six, `getExitWindow` returns: the viewed surface is the absolute value of
the registered link surface, and the window has five entries, the first four
being the absolute link surfaces of the sides `exitWindowSides outIndex` and
the fifth the dividing surface found in the link text, or 0. -/
theorem getExitWindow_window (display : HeadRule → String)
    (sect : String → Option (Int × String)) (realSurf : Int → Int) (self : FixedComp)
    (outIndex : Nat) (h6 : 6 ≤ self.LU.length) (ho : outIndex < 6) :
    self.getExitWindow display sect realSurf outIndex =
      .ok (|realSurf (self.LU.getD outIndex LinkUnit.empty).linkSurf|,
        ((FixedComp.exitWindowSides outIndex).map fun o =>
          |(self.LU.getD o LinkUnit.empty).linkSurf|) ++
        [if FixedComp.exitWindowDivide sect (self.LU.getD outIndex LinkUnit.empty).linkSurf 2
              (LinkUnit.getLinkString display (self.LU.getD outIndex LinkUnit.empty)) 0 ≠ 0 ∧
            |FixedComp.exitWindowDivide sect (self.LU.getD outIndex LinkUnit.empty).linkSurf 2
              (LinkUnit.getLinkString display (self.LU.getD outIndex LinkUnit.empty)) 0| ≠
              |(self.LU.getD outIndex LinkUnit.empty).linkSurf|
          then FixedComp.exitWindowDivide sect (self.LU.getD outIndex LinkUnit.empty).linkSurf 2
              (LinkUnit.getLinkString display (self.LU.getD outIndex LinkUnit.empty)) 0
          else 0]) := by
  have hlt : outIndex < self.LU.length := by omega
  have hs : ∀ o ∈ FixedComp.exitWindowSides outIndex, o < self.LU.length := by
    intro o hmem
    have : o < 6 := by
      unfold FixedComp.exitWindowSides at hmem
      split at hmem
      · split at hmem <;> simp at hmem <;> omega
      · simp at hmem
        omega
    omega
  have hg : self.LU.getD outIndex LinkUnit.empty = self.LU[outIndex] := by
    rw [List.getD_eq_getElem?_getD, List.getElem?_eq_getElem hlt]
    rfl
  have hstr : self.getLinkString display outIndex =
      .ok (LinkUnit.getLinkString display self.LU[outIndex]) := by
    have hv : vecAt self.LU outIndex = .ok self.LU[outIndex] :=
      vecAt_of_getElem _ _ _ (List.getElem?_eq_getElem hlt)
    simp only [FixedComp.getLinkString, ge_iff_le, Nat.not_le.mpr hlt, if_false, hv, Except.map]
  unfold FixedComp.getExitWindow
  simp only [Nat.not_lt.mpr h6, if_false, Nat.not_lt.mpr (Nat.le_of_lt hlt),
    exitWindowSurfs_eq self _ [] hs, List.nil_append, hstr, getLinkSurf_of_lt self outIndex hlt,
    hg, LinkUnit.getLinkSurf]
  split
  · rw [List.dropLast_concat]
  · rfl

/-- C22, the code at the failing input: for the component with six link points
of link surfaces 1 to 6 and `outIndex = 4`, the window is `[1, 2, 5, 6, 0]`:
its first four entries are the link surfaces of the sides 0, 1, 4 and 5, which
include side 4 itself and its partner 5 and leave out the sides 2 and 3. The
claim gives the surfaces of the sides 0, 1, 2, 3, that is `1, 2, 3, 4`. The
table `oA` is switched by `outIndex>4`, so only `outIndex = 5` takes the branch
of the pair `(4,5)`; the other five values of `outIndex` follow the claim. -/
theorem C22_getExitWindow_at_side_4 :
    FixedComp.getExitWindow (fun _ => "") (fun _ => none) id FixedComp.exampleSixLinks 4 =
      .ok (5, [1, 2, 5, 6, 0]) ∧
    FixedComp.exitWindowSides 4 = [0, 1, 4, 5] ∧
    FixedComp.exitWindowSides 5 = [2, 3, 0, 1] ∧
    FixedComp.exitWindowSides 3 = [0, 1, 4, 5] ∧
    FixedComp.exitWindowSides 1 = [2, 3, 4, 5] := by
  refine ⟨rfl, ?_, ?_, ?_, ?_⟩ <;> decide

/-- After `XVec=YVec*ZPrime; ZVec=YVec*XVec;` and the optional change of sign
of both, the three vectors are pairwise orthogonal and `ZVec = YVec × XVec`,
which is `-(XVec × YVec)`: the opposite hand to `Z = X × Y`. -/
theorem calcLinkAxis_hand (self : FixedComp) (sideIndex : Int) (XVec YVec ZVec : Vec3D)
    (hs : sideIndex ≠ 0) (h : self.calcLinkAxis sideIndex = .ok (XVec, YVec, ZVec)) :
    self.getSignedLinkAxis sideIndex = .ok YVec ∧
    XVec.dotProd YVec = 0 ∧ ZVec.dotProd YVec = 0 ∧ XVec.dotProd ZVec = 0 ∧
    ZVec = YVec.cross XVec ∧ ZVec = (XVec.cross YVec).neg := by
  unfold FixedComp.calcLinkAxis at h
  simp only [hs, if_false] at h
  cases hax : self.getSignedLinkAxis sideIndex with
  | error e =>
    rw [hax] at h
    exact Except.noConfusion h
  | ok Y1 =>
    rw [hax] at h
    dsimp only at h
    generalize (if |self.Z.dotProd Y1| < 1.0 - zeroTol then self.Z else self.X) = ZPrime at h
    split at h
    · have h1 := Except.ok.inj h
      simp only [Prod.mk.injEq] at h1
      obtain ⟨hX, hY, hZ⟩ := h1
      subst hX hY hZ
      refine ⟨rfl, ?_, ?_, ?_, ?_, ?_⟩
      · simp only [Vec3D.dotProd, Vec3D.cross, Vec3D.scale]
        ring
      · simp only [Vec3D.dotProd, Vec3D.cross, Vec3D.scale]
        ring
      · simp only [Vec3D.dotProd, Vec3D.cross, Vec3D.scale]
        ring
      · ext <;> simp only [Vec3D.cross, Vec3D.scale] <;> ring
      · ext <;> simp only [Vec3D.cross, Vec3D.scale, Vec3D.neg] <;> ring
    · have h1 := Except.ok.inj h
      simp only [Prod.mk.injEq] at h1
      obtain ⟨hX, hY, hZ⟩ := h1
      subst hX hY hZ
      refine ⟨rfl, ?_, ?_, ?_, rfl, ?_⟩
      · simp only [Vec3D.dotProd, Vec3D.cross]
        ring
      · simp only [Vec3D.dotProd, Vec3D.cross]
        ring
      · simp only [Vec3D.dotProd, Vec3D.cross]
        ring
      · ext <;> simp only [Vec3D.cross, Vec3D.neg] <;> ring

/-- C28, the code at the failing input: `exampleAligned` has the standard
right-handed basis and its first link axis is its own `Y = (0,1,0)`. For
`sideIndex = 1` `calcLinkAxis` returns `X`, `Y` and `-Z = (0,0,-1)`, while for
`sideIndex = 0` it returns `X`, `Y`, `Z`; the triple for `sideIndex = 1` is
orthogonal but `XVec × YVec` is `(0,0,1)`, not `ZVec`. The claim gives the
frame's own `X`, `Y`, `Z` and `ZVec = XVec × YVec`. -/
theorem C28_calcLinkAxis_own_Y :
    exampleAligned.getSignedLinkAxis 1 = .ok exampleAligned.Y ∧
    Orthonormal exampleAligned ∧
    exampleAligned.calcLinkAxis 1 = .ok (⟨1, 0, 0⟩, ⟨0, 1, 0⟩, ⟨0, 0, -1⟩) ∧
    exampleAligned.calcLinkAxis 0 = .ok (⟨1, 0, 0⟩, ⟨0, 1, 0⟩, ⟨0, 0, 1⟩) ∧
    Vec3D.cross ⟨1, 0, 0⟩ ⟨0, 1, 0⟩ = (⟨0, 0, 1⟩ : Vec3D) ∧
    (⟨0, 0, 1⟩ : Vec3D) ≠ ⟨0, 0, -1⟩ := by
  have hax : exampleAligned.getSignedLinkAxis 1 = .ok ⟨0, 1, 0⟩ := by
    simp [FixedComp.getSignedLinkAxis, FixedComp.getSignedLU, linkIndexOf, exampleAligned, vecAt,
      LinkUnit.getAxis, Except.bind]
  refine ⟨hax, ?_, ?_, ?_, ?_, ?_⟩
  · have h := orthonormal_mk0 "Aligned" 0
    exact h
  · unfold FixedComp.calcLinkAxis
    rw [hax]
    simp only [exampleAligned, Vec3D.dotProd, Vec3D.cross, zeroTol]
    norm_num
  · simp [FixedComp.calcLinkAxis, exampleAligned]
  · ext <;> simp [Vec3D.cross]
  · intro h
    have hz := congrArg Vec3D.z h
    norm_num at hz

end attachSystem

/-! ## Theorems: motor cut-outs of the twin chopper -/

namespace constructSystem

/-- What the two functions compute: both test the lowest bit of each flag, so
`motorBackExclude` equals `motorFrontExclude` on every pair of flags. -/
theorem motorExclude_bits (motorAFlag motorBFlag : Int) :
    (3017 ∈ motorFrontExclude motorAFlag motorBFlag ↔ buildsFrontRingA motorAFlag) ∧
    (4017 ∈ motorFrontExclude motorAFlag motorBFlag ↔ buildsFrontRingB motorBFlag) ∧
    motorBackExclude motorAFlag motorBFlag = motorFrontExclude motorAFlag motorBFlag := by
  unfold motorFrontExclude motorBackExclude buildsFrontRingA buildsFrontRingB
  by_cases hA : Int.land motorAFlag 1 ≠ 0 <;> by_cases hB : Int.land motorBFlag 1 ≠ 0 <;>
    simp [hA, hB]

/-- C27, the code at the failing input: with `motorAFlag = 2` and
`motorBFlag = 0` `createObjects` builds the back ring of motor A
(`motorAFlag & 2` is not zero) but `motorBackExclude` returns the empty text,
without `3017`; with `motorAFlag = 1` the back ring is not built but
`motorBackExclude` contains `3017`. The claim ties `3017` in the back cut to
`motorAFlag & 2`. `motorFrontExclude` follows the front bit as claimed. -/
theorem C27_motorBackExclude_bit :
    buildsBackRingA 2 ∧ motorBackExclude 2 0 = [] ∧ 3017 ∉ motorBackExclude 2 0 ∧
    ¬ buildsBackRingA 1 ∧ 3017 ∈ motorBackExclude 1 0 ∧
    buildsBackRingB 2 ∧ 4017 ∉ motorBackExclude 0 2 ∧
    (∀ motorAFlag motorBFlag : Int,
      (3017 ∈ motorFrontExclude motorAFlag motorBFlag ↔ Int.land motorAFlag 1 ≠ 0) ∧
      (4017 ∈ motorFrontExclude motorAFlag motorBFlag ↔ Int.land motorBFlag 1 ≠ 0)) := by
  refine ⟨by unfold buildsBackRingA; decide, by decide, by decide,
    by unfold buildsBackRingA; decide, by decide, by unfold buildsBackRingB; decide, by decide, ?_⟩
  intro motorAFlag motorBFlag
  unfold motorFrontExclude
  by_cases hA : Int.land motorAFlag 1 ≠ 0 <;> by_cases hB : Int.land motorBFlag 1 ≠ 0 <;>
    simp [hA, hB]

end constructSystem

/-! ## Theorems: populating a vector of fractions -/

namespace ModelSupport

open Geometry

/-- `Vec.back()` just after `Vec.push_back(v)`. -/
theorem getLastD_concat (Vec : List ℝ) (v : ℝ) : (Vec ++ [v]).getLastD 0 = v := by
  cases Vec with
  | nil => rfl
  | cons a l => simp [List.getLastD]

/-- `Vec.back()` of a vector of one entry. -/
theorem getLastD_single (v : ℝ) : ([v] : List ℝ).getLastD 0 = v := rfl

/-- The fraction loop appends to the vector it is given: the entries it adds
are those it would add to an empty vector. -/
theorem populateDivideLoop_append (Control : FuncDataBase) (N : Nat) (Name : String)
    (n i : Nat) (frac : ℝ) (Vec : List ℝ) :
    populateDivideLoop Control N Name n i frac Vec =
      Vec ++ populateDivideLoop Control N Name n i frac [] := by
  induction n generalizing i frac Vec with
  | zero => simp [populateDivideLoop]
  | succ n ih =>
    simp only [populateDivideLoop, getLastD_concat, List.nil_append, getLastD_single]
    rw [ih, ih (i + 1) _ [_], List.append_assoc]

/-- The fraction loop run from the empty vector adds one entry per round. -/
theorem populateDivideLoop_length (Control : FuncDataBase) (N : Nat) (Name : String)
    (n i : Nat) (frac : ℝ) :
    (populateDivideLoop Control N Name n i frac []).length = n := by
  induction n generalizing i frac with
  | zero => rfl
  | succ n ih =>
    simp only [populateDivideLoop, getLastD_concat, List.nil_append]
    rw [populateDivideLoop_append, List.length_append, ih]
    simp [Nat.add_comm]

/-- The length loop appends to the vector it is given. -/
theorem populateDivideLenLoop_append (Control : FuncDataBase) (N : Nat) (Name : String)
    (TLen : ℝ) (n i : Nat) (curLen frac : ℝ) (Vec : List ℝ) :
    populateDivideLenLoop Control N Name TLen n i curLen frac Vec =
      Vec ++ populateDivideLenLoop Control N Name TLen n i curLen frac [] := by
  induction n generalizing i curLen frac Vec with
  | zero => simp [populateDivideLenLoop]
  | succ n ih =>
    simp only [populateDivideLenLoop, List.nil_append]
    split
    · simp only [List.dropLast_concat, getLastD_concat, List.dropLast_single, List.nil_append,
        getLastD_single]
      rw [ih, ih (i + 1) _ _ [_], List.append_assoc]
    · simp only [getLastD_concat, getLastD_single]
      rw [ih, ih (i + 1) _ _ [_], List.append_assoc]

/-- The length loop run from the empty vector adds one entry per round. -/
theorem populateDivideLenLoop_length (Control : FuncDataBase) (N : Nat) (Name : String)
    (TLen : ℝ) (n i : Nat) (curLen frac : ℝ) :
    (populateDivideLenLoop Control N Name TLen n i curLen frac []).length = n := by
  induction n generalizing i curLen frac with
  | zero => rfl
  | succ n ih =>
    simp only [populateDivideLenLoop, List.nil_append]
    split
    · simp only [List.dropLast_single, List.nil_append]
      rw [populateDivideLenLoop_append, List.length_append, ih]
      simp [Nat.add_comm]
    · rw [populateDivideLenLoop_append, List.length_append, ih]
      simp [Nat.add_comm]

/-- The `int` default loop adds one entry per round. -/
theorem populateDivideIntLoop_length (Control : FuncDataBase) (Name : String)
    (n i : Nat) (defV : Int) (Vec : List Int) :
    (populateDivideIntLoop Control Name n i defV Vec).length = Vec.length + n := by
  induction n generalizing i defV Vec with
  | zero => rfl
  | succ n ih =>
    simp only [populateDivideIntLoop]
    rw [ih, List.length_append]
    simp only [List.length_singleton]
    omega

/-- The `double` default loop adds one entry per round. -/
theorem populateDivideDefLoop_length (Control : FuncDataBase) (Name : String) (defValue : ℝ)
    (n i : Nat) (Vec : List ℝ) :
    (populateDivideDefLoop Control Name defValue n i Vec).length = Vec.length + n := by
  induction n generalizing i Vec with
  | zero => rfl
  | succ n ih =>
    simp only [populateDivideDefLoop]
    rw [ih, List.length_append]
    simp only [List.length_singleton]
    omega

/-- The two fraction forms keep what the vector held on entry and append to
it; with the guard of `populateDivideLen` false the vector is left as it was. -/
theorem populateDivide_appends (Control : FuncDataBase) (N : Nat) (Name : String) (TLen : ℝ)
    (Vec : List ℝ) :
    populateDivide Control N Name Vec = Vec ++ populateDivide Control N Name [] ∧
    populateDivideLen Control N Name TLen Vec = Vec ++ populateDivideLen Control N Name TLen [] := by
  constructor
  · unfold populateDivide
    split
    · exact populateDivideLoop_append _ _ _ _ _ _ _
    · simp
  · unfold populateDivideLen
    split
    · exact populateDivideLenLoop_append _ _ _ _ _ _ _ _ _
    · simp

/-- The fraction form given the vector `[1/2]` and `N = 2` with no variable
defined returns `[1/2, 1/2]`: the entry held on entry is still there, and the
length is 2, not `N-1 = 1`. The comment of the function calls the argument the
"Vector to populate [and clear]". -/
theorem populateDivide_keeps_prior :
    populateDivide emptyControl 2 "F" [1 / 2] = [1 / 2, 1 / 2] ∧
    populateDivide emptyControl 2 "F" [] = [1 / 2] := by
  constructor
  · simp only [populateDivide, populateDivideLoop, FuncDataBase.EvalDefVar, emptyControl]
    norm_num
  · simp only [populateDivide, populateDivideLoop, FuncDataBase.EvalDefVar, emptyControl]
    norm_num

/-- C25, counterexample: `populateDivideLen` with `N = 3`, a total length
`TLen = 0` and an empty vector leaves the vector empty: its guard
`N && TLen>Geometry::zeroTol` is false. The claim gives the length `N-1 = 2`. -/
theorem C25_counterexample :
    populateDivideLen emptyControl 3 "F" 0 [] = [] ∧
    (populateDivideLen emptyControl 3 "F" 0 []).length ≠ 3 - 1 := by
  have h : populateDivideLen emptyControl 3 "F" 0 [] = [] := by
    have ht : ¬ ((0 : ℝ) > zeroTol) := by
      unfold zeroTol
      norm_num
    simp only [populateDivideLen, ht, and_false, if_false]
  rw [h]
  exact ⟨rfl, by decide⟩

/-- C25, amended: the two default-value forms of `populateDivide` clear the
vector: for every initial content the vector after the call is the one
obtained from the empty vector, and its length is `N`. The fraction form of
`populateDivide` called with an empty vector gives `N-1` entries (none when
`N = 0`); `populateDivideLen` called with an empty vector gives `N-1` entries
when `TLen > zeroTol` and leaves the vector empty otherwise. -/
theorem C25_populateDivide_lengths (Control : FuncDataBase) (N : Nat) (Name : String) :
    (∀ (defValue : Int) (Vec : List Int),
      populateDivideInt Control N Name defValue Vec = populateDivideInt Control N Name defValue [] ∧
      (populateDivideInt Control N Name defValue Vec).length = N) ∧
    (∀ (defValue : ℝ) (Vec : List ℝ),
      populateDivideDef Control N Name defValue Vec = populateDivideDef Control N Name defValue [] ∧
      (populateDivideDef Control N Name defValue Vec).length = N) ∧
    (populateDivide Control N Name []).length = N - 1 ∧
    (∀ TLen : ℝ, TLen > zeroTol → (populateDivideLen Control N Name TLen []).length = N - 1) ∧
    (∀ TLen : ℝ, ¬ TLen > zeroTol → populateDivideLen Control N Name TLen [] = []) := by
  refine ⟨?_, ?_, ?_, ?_, ?_⟩
  · intro defValue Vec
    refine ⟨rfl, ?_⟩
    unfold populateDivideInt
    rw [populateDivideIntLoop_length]
    simp
  · intro defValue Vec
    refine ⟨rfl, ?_⟩
    unfold populateDivideDef
    split
    · rw [populateDivideDefLoop_length]
      simp
    · simp only [List.length_nil]
      omega
  · unfold populateDivide
    split
    · exact populateDivideLoop_length _ _ _ _ _ _
    · simp only [List.length_nil]
      omega
  · intro TLen hT
    unfold populateDivideLen
    split
    · exact populateDivideLenLoop_length _ _ _ _ _ _ _ _
    · rename_i hc
      have hN : N = 0 := by
        by_contra hne
        exact hc ⟨hne, hT⟩
      simp [hN]
  · intro TLen hT
    simp only [populateDivideLen, hT, and_false, if_false]

end ModelSupport

/-! ## Theorems: default fractions -/

namespace ModelSupport

open Geometry

/-- The update of the default, `((N-i-1.0)*v+1.0)/(N-i)`, is `v` plus an equal
share of what remains, `(1-v)/(N-i)`, when `i < N`. -/
theorem frac_update (N i : Nat) (v : ℝ) (hi : i < N) :
    ((((N - i : Nat) : ℝ) - 1.0) * v + 1.0) / ((N - i : Nat) : ℝ) =
      v + (1 - v) / ((N : ℝ) - (i : ℝ)) := by
  have hc : ((N - i : Nat) : ℝ) = (N : ℝ) - (i : ℝ) := by
    rw [Nat.cast_sub (Nat.le_of_lt hi)]
  have hne : (N : ℝ) - (i : ℝ) ≠ 0 := by
    have : (i : ℝ) < (N : ℝ) := by exact_mod_cast hi
    linarith
  rw [hc]
  field_simp
  ring

/-- The fraction loop unrolled by one round. -/
theorem populateDivideLoop_succ (Control : FuncDataBase) (N : Nat) (Name : String)
    (n i : Nat) (frac : ℝ) :
    populateDivideLoop Control N Name (n + 1) i frac [] =
      Control.EvalDefVar (Name ++ makeString i) frac ::
        populateDivideLoop Control N Name n (i + 1)
          (((((N - i : Nat) : ℝ) - 1.0) * Control.EvalDefVar (Name ++ makeString i) frac + 1.0) /
            ((N - i : Nat) : ℝ)) [] := by
  simp only [populateDivideLoop, List.nil_append, getLastD_single]
  rw [populateDivideLoop_append]
  rfl

/-- The entries the fraction loop writes, started at index `i` with the
default `frac` and `i + n = N`: the first is the variable of index `i` or
`frac`; a defined variable is stored as it is; and an entry whose variable is
not defined is the entry before it, `v`, plus `(1 - v)/(N - k)`, `k` being the
index of the entry before. -/
theorem populateDivideLoop_entries (Control : FuncDataBase) (N : Nat) (Name : String)
    (n i : Nat) (frac : ℝ) (hN : i + n = N) :
    (0 < n → (populateDivideLoop Control N Name n i frac [])[0]? =
      some (Control.EvalDefVar (Name ++ makeString i) frac)) ∧
    (∀ (k : Nat) (v : ℝ), 0 < k → k < n → Control.vars (Name ++ makeString (i + k)) = some v →
      (populateDivideLoop Control N Name n i frac [])[k]? = some v) ∧
    (∀ k : Nat, k + 1 < n → Control.vars (Name ++ makeString (i + k + 1)) = none →
      ∃ v : ℝ, (populateDivideLoop Control N Name n i frac [])[k]? = some v ∧
        (populateDivideLoop Control N Name n i frac [])[k + 1]? =
          some (v + (1 - v) / ((N : ℝ) - ((i + k : Nat) : ℝ)))) := by
  induction n generalizing i frac with
  | zero =>
    refine ⟨fun h => absurd h (by decide), fun k v _ hk => absurd hk (by omega),
      fun k hk => absurd hk (by omega)⟩
  | succ n ih =>
    rw [populateDivideLoop_succ]
    have hi : i < N := by omega
    obtain ⟨ih0, ih1, ih2⟩ := ih (i + 1)
      (((((N - i : Nat) : ℝ) - 1.0) * Control.EvalDefVar (Name ++ makeString i) frac + 1.0) /
        ((N - i : Nat) : ℝ)) (by omega)
    refine ⟨fun _ => List.getElem?_cons_zero, ?_, ?_⟩
    · intro k v hk0 hk hv
      obtain ⟨k1, rfl⟩ : ∃ k1, k = k1 + 1 := ⟨k - 1, by omega⟩
      rw [List.getElem?_cons_succ]
      by_cases hk1 : k1 = 0
      · subst hk1
        rw [ih0 (by omega)]
        simp only [FuncDataBase.EvalDefVar, Nat.zero_add] at hv ⊢
        rw [hv]
        rfl
      · refine ih1 k1 v (by omega) (by omega) ?_
        rw [← hv]
        congr 3
        omega
    · intro k hk hv
      cases k with
      | zero =>
        refine ⟨Control.EvalDefVar (Name ++ makeString i) frac, List.getElem?_cons_zero, ?_⟩
        rw [List.getElem?_cons_succ, ih0 (by omega)]
        simp only [Nat.add_zero] at hv ⊢
        simp only [FuncDataBase.EvalDefVar, hv, Option.getD_none]
        rw [← frac_update N i _ hi]
      | succ k1 =>
        have hv1 : Control.vars (Name ++ makeString (i + 1 + k1 + 1)) = none := by
          rw [← hv]
          congr 3
          omega
        obtain ⟨v, hv2, hv3⟩ := ih2 k1 (by omega) hv1
        refine ⟨v, ?_, ?_⟩
        · rw [List.getElem?_cons_succ]
          exact hv2
        · rw [List.getElem?_cons_succ, hv3]
          congr 5
          omega

/-- With no variable defined, the loop started at index `i` with the default
`i/N` writes `i/N, (i+1)/N, ...`. -/
theorem populateDivideLoop_equal (Control : FuncDataBase) (N : Nat) (Name : String)
    (hnone : ∀ i : Nat, Control.vars (Name ++ makeString i) = none)
    (n i : Nat) (hN : i + n = N) :
    populateDivideLoop Control N Name n i ((i : ℝ) / (N : ℝ)) [] =
      (List.range n).map fun k => (((i + k : Nat) : ℝ)) / (N : ℝ) := by
  induction n generalizing i with
  | zero => rfl
  | succ n ih =>
    have hi : i < N := by omega
    have hNpos : (0 : ℝ) < (N : ℝ) := by
      have : 0 < N := by omega
      exact_mod_cast this
    have hlt : (i : ℝ) < (N : ℝ) := by exact_mod_cast hi
    rw [populateDivideLoop_succ]
    simp only [FuncDataBase.EvalDefVar, hnone, Option.getD_none]
    have hf : ((((N - i : Nat) : ℝ) - 1.0) * ((i : ℝ) / (N : ℝ)) + 1.0) / ((N - i : Nat) : ℝ) =
        ((i + 1 : Nat) : ℝ) / (N : ℝ) := by
      rw [frac_update N i _ hi]
      have hne : (N : ℝ) - (i : ℝ) ≠ 0 := by linarith
      push_cast
      field_simp
      ring
    rw [hf, ih (i + 1) (by omega), List.range_succ_eq_map, List.map_cons, List.map_map]
    refine congrArg₂ List.cons (by simp) ?_
    refine List.map_congr_left ?_
    intro k _
    simp only [Function.comp]
    congr 2
    omega

/-- C26: the fraction form `populateDivide(Control,N,Name,Vec)` called with an
empty vector and `N ≥ 1`. The result has `N-1` entries, entry `k` (from 0)
standing for the index `k+1`. A defined variable is stored as it is; the first
entry, when its variable is not defined, is `1/N`; and every later entry whose
variable is not defined is `v + (1 - v)/(N - i)`, `v` being the entry stored
at the index `i` just before. With no variable defined the result is
`[1/N, 2/N, ..., (N-1)/N]`. The divisors `N` and `N - i` (for every loop index
`i < N`, as the real number and as the `size_t` difference) are not zero. -/
theorem C26_populateDivide_fractions (Control : FuncDataBase) (N : Nat) (Name : String)
    (hN : 1 ≤ N) :
    (populateDivide Control N Name []).length = N - 1 ∧
    (∀ (i : Nat) (v : ℝ), 1 ≤ i → i < N → Control.vars (Name ++ makeString i) = some v →
      (populateDivide Control N Name [])[i - 1]? = some v) ∧
    (2 ≤ N → Control.vars (Name ++ makeString 1) = none →
      (populateDivide Control N Name [])[0]? = some (1 / (N : ℝ))) ∧
    (∀ i : Nat, 1 ≤ i → i + 1 < N → Control.vars (Name ++ makeString (i + 1)) = none →
      ∃ v : ℝ, (populateDivide Control N Name [])[i - 1]? = some v ∧
        (populateDivide Control N Name [])[i]? = some (v + (1 - v) / ((N : ℝ) - (i : ℝ)))) ∧
    ((∀ i : Nat, Control.vars (Name ++ makeString i) = none) →
      populateDivide Control N Name [] =
        (List.range (N - 1)).map fun k => ((k + 1 : Nat) : ℝ) / (N : ℝ)) ∧
    (N : ℝ) ≠ 0 ∧
    (∀ i : Nat, i < N → (N : ℝ) - (i : ℝ) ≠ 0 ∧ ((N - i : Nat) : ℝ) ≠ 0) := by
  have hpos : N > 0 := hN
  have hdef : populateDivide Control N Name [] =
      populateDivideLoop Control N Name (N - 1) 1 (1.0 / (N : ℝ)) [] := by
    simp only [populateDivide, hpos, if_true]
  have hNr : (N : ℝ) ≠ 0 := by
    have : (0 : ℝ) < (N : ℝ) := by exact_mod_cast hpos
    linarith
  obtain ⟨e0, e1, e2⟩ := populateDivideLoop_entries Control N Name (N - 1) 1 (1.0 / (N : ℝ))
    (by omega)
  rw [hdef]
  refine ⟨populateDivideLoop_length _ _ _ _ _ _, ?_, ?_, ?_, ?_, hNr, ?_⟩
  · intro i v hi1 hiN hv
    by_cases h1 : i = 1
    · subst h1
      rw [e0 (by omega)]
      simp only [FuncDataBase.EvalDefVar, hv]
      rfl
    · have h := e1 (i - 1) v (by omega) (by omega) (by
        rw [← hv]
        congr 3
        omega)
      exact h
  · intro h2 hv
    rw [e0 (by omega)]
    simp only [FuncDataBase.EvalDefVar, hv, Option.getD_none]
    norm_num
  · intro i hi1 hiN hv
    obtain ⟨v, hv2, hv3⟩ := e2 (i - 1) (by omega) (by
      rw [← hv]
      congr 3
      omega)
    refine ⟨v, hv2, ?_⟩
    have hidx : i - 1 + 1 = i := by omega
    have hcast : ((1 + (i - 1) : Nat) : ℝ) = (i : ℝ) := by
      congr 1
      omega
    rw [hidx, hcast] at hv3
    exact hv3
  · intro hnone
    have h := populateDivideLoop_equal Control N Name hnone (N - 1) 1 (by omega)
    have h1 : ((1 : Nat) : ℝ) / (N : ℝ) = 1.0 / (N : ℝ) := by norm_num
    rw [h1] at h
    rw [h]
    refine List.map_congr_left ?_
    intro k _
    congr 2
    omega
  · intro i hi
    have hlt : (i : ℝ) < (N : ℝ) := by exact_mod_cast hi
    refine ⟨by linarith, ?_⟩
    rw [Nat.cast_sub (Nat.le_of_lt hi)]
    linarith

/-- C26 at a concrete input: `N = 4` with no variable defined gives
`[1/4, 2/4, 3/4]`. -/
theorem C26_witness :
    (1 ≤ 4) ∧ populateDivide emptyControl 4 "F" [] = [1 / 4, 2 / 4, 3 / 4] := by
  refine ⟨by decide, ?_⟩
  rw [(C26_populateDivide_fractions emptyControl 4 "F" (by decide)).2.2.2.2.1 (fun _ => rfl)]
  simp [List.range_succ]
  norm_num

end ModelSupport

/-! ## Theorems: populating a range -/

namespace ModelSupport

open Geometry

/-- Reading `Vec[i]` after `Vec[i]=v`, for `i` in range. -/
theorem getD_set_eq (Vec : List ℝ) (i : Nat) (v : ℝ) (h : i < Vec.length) :
    (Vec.set i v).getD i 0 = v := by
  simp [List.getD_eq_getElem?_getD, h]

/-- Reading `Vec[j]` after `Vec[i]=v`, for `j ≠ i`. -/
theorem getD_set_ne (Vec : List ℝ) (i j : Nat) (v : ℝ) (h : i ≠ j) :
    (Vec.set i v).getD j 0 = Vec.getD j 0 := by
  simp [List.getD_eq_getElem?_getD, List.getElem?_set_ne h]

/-- The inner loop `Vec[j]=Vec[j-1]+step` over `j, ..., j+n-1`: if the entry
before agrees with a sequence `acc` that grows by `step` over these indices,
then the entries written are those of `acc`; the other entries and the length
are unchanged. -/
theorem stepFill_acc (step : ℝ) (acc : Nat → ℝ) (n j : Nat) (Vec : List ℝ)
    (hj : 1 ≤ j) (hlen : j + n ≤ Vec.length) (h0 : Vec.getD (j - 1) 0 = acc (j - 1))
    (hacc : ∀ k, j ≤ k → k < j + n → acc k = acc (k - 1) + step) :
    (stepFill step n j Vec).length = Vec.length ∧
    (∀ k, k < j → (stepFill step n j Vec).getD k 0 = Vec.getD k 0) ∧
    (∀ k, j + n ≤ k → (stepFill step n j Vec).getD k 0 = Vec.getD k 0) ∧
    (∀ k, j ≤ k → k < j + n → (stepFill step n j Vec).getD k 0 = acc k) := by
  induction n generalizing j Vec with
  | zero =>
    refine ⟨rfl, fun _ _ => rfl, fun _ _ => rfl, fun k h1 h2 => absurd h2 (by omega)⟩
  | succ n ih =>
    have hjl : j < Vec.length := by omega
    have hnew : (Vec.set j (Vec.getD (j - 1) 0 + step)).getD j 0 = acc j := by
      rw [getD_set_eq _ _ _ hjl, h0, hacc j (Nat.le_refl j) (by omega)]
    obtain ⟨i1, i2, i3, i4⟩ := ih (j + 1) (Vec.set j (Vec.getD (j - 1) 0 + step)) (by omega)
      (by rw [List.length_set]; omega)
      (by rw [Nat.add_sub_cancel]; exact hnew)
      (fun k h1 h2 => hacc k (by omega) (by omega))
    simp only [stepFill]
    refine ⟨by rw [i1, List.length_set], ?_, ?_, ?_⟩
    · intro k hk
      rw [i2 k (by omega), getD_set_ne _ _ _ _ (by omega)]
    · intro k hk
      rw [i3 k (by omega), getD_set_ne _ _ _ _ (by omega)]
    · intro k hk1 hk2
      by_cases hkj : k = j
      · subst hkj
        rw [i2 k (by omega)]
        exact hnew
      · exact i4 k (by omega) (by omega)

/-- The running total grows by the increment of each index. -/
theorem addRangeAcc_pred (Control : FuncDataBase) (N : Nat) (Name : String) (ARange step : ℝ)
    (k : Nat) (hk : 1 ≤ k) :
    addRangeAcc Control N Name ARange step k =
      addRangeAcc Control N Name ARange step (k - 1) + addRangeIncr Control N Name step k := by
  obtain ⟨k1, rfl⟩ : ∃ k1, k = k1 + 1 := ⟨k - 1, by omega⟩
  rfl

/-- The first loop of `populateAddRange` run over the indices `i, ..., i+n-1`:
the length is kept, a defined variable is written at its index and nothing
else changes, `sum` grows by the defined values, `cnt` by their number, and
`setValues` receives the defined indices in order. -/
theorem populateAddRangeCollect_spec (Control : FuncDataBase) (Name : String) (n i : Nat)
    (Vec : List ℝ) (sum : ℝ) (cnt : Nat) (setValues : List Nat) (hlen : i + n ≤ Vec.length) :
    (populateAddRangeCollect Control Name n i (Vec, sum, cnt, setValues)).1.length = Vec.length ∧
    (∀ k, (populateAddRangeCollect Control Name n i (Vec, sum, cnt, setValues)).1.getD k 0 =
      if i ≤ k ∧ k < i + n then (Control.vars (Name ++ makeString k)).getD (Vec.getD k 0)
      else Vec.getD k 0) ∧
    (populateAddRangeCollect Control Name n i (Vec, sum, cnt, setValues)).2.1 =
      sum + (((List.range' i n).filter fun k => Control.hasVariable (Name ++ makeString k)).map
        fun k => Control.EvalDefVar (Name ++ makeString k) 0).sum ∧
    (populateAddRangeCollect Control Name n i (Vec, sum, cnt, setValues)).2.2.1 =
      cnt + ((List.range' i n).filter fun k => Control.hasVariable (Name ++ makeString k)).length ∧
    (populateAddRangeCollect Control Name n i (Vec, sum, cnt, setValues)).2.2.2 =
      setValues ++ (List.range' i n).filter fun k => Control.hasVariable (Name ++ makeString k) := by
  induction n generalizing i Vec sum cnt setValues with
  | zero =>
    refine ⟨rfl, fun k => ?_, ?_, ?_, ?_⟩
    · have : ¬ (i ≤ k ∧ k < i + 0) := by omega
      simp only [populateAddRangeCollect, this, if_false]
    · simp [populateAddRangeCollect]
    · simp [populateAddRangeCollect]
    · simp [populateAddRangeCollect]
  | succ n ih =>
    have hil : i < Vec.length := by omega
    cases hv : Control.vars (Name ++ makeString i) with
    | none =>
      have hp : Control.hasVariable (Name ++ makeString i) = false := by
        simp [FuncDataBase.hasVariable, hv]
      obtain ⟨i1, i2, i3, i4, i5⟩ := ih (i + 1) Vec sum cnt setValues (by omega)
      simp only [populateAddRangeCollect, hv, List.range'_succ, List.filter_cons, hp,
        Bool.false_eq_true, if_false]
      refine ⟨i1, ?_, i3, i4, i5⟩
      intro k
      rw [i2 k]
      by_cases hk : k = i
      · subst hk
        have h1 : ¬ (k + 1 ≤ k ∧ k < k + 1 + n) := by omega
        have h2 : k ≤ k ∧ k < k + (n + 1) := by omega
        simp only [h1, h2, if_false, if_true, hv, Option.getD_none, and_self]
      · by_cases hr : i + 1 ≤ k ∧ k < i + 1 + n
        · have h2 : i ≤ k ∧ k < i + (n + 1) := by omega
          simp only [hr, h2, if_true, and_self]
        · have h2 : ¬ (i ≤ k ∧ k < i + (n + 1)) := by omega
          simp only [hr, h2, if_false]
    | some fA =>
      have hp : Control.hasVariable (Name ++ makeString i) = true := by
        simp [FuncDataBase.hasVariable, hv]
      obtain ⟨i1, i2, i3, i4, i5⟩ := ih (i + 1) (Vec.set i fA) (sum + fA) (cnt + 1)
        (setValues ++ [i]) (by rw [List.length_set]; omega)
      simp only [populateAddRangeCollect, hv, List.range'_succ, List.filter_cons, hp, if_true]
      refine ⟨by rw [i1, List.length_set], ?_, ?_, ?_, ?_⟩
      · intro k
        rw [i2 k]
        by_cases hk : k = i
        · subst hk
          have h1 : ¬ (k + 1 ≤ k ∧ k < k + 1 + n) := by omega
          have h2 : k ≤ k ∧ k < k + (n + 1) := by omega
          simp only [h1, h2, if_false, if_true, hv, Option.getD_some, and_self]
          exact getD_set_eq _ _ _ hil
        · rw [getD_set_ne _ _ _ _ (fun h => hk h.symm)]
          by_cases hr : i + 1 ≤ k ∧ k < i + 1 + n
          · have h2 : i ≤ k ∧ k < i + (n + 1) := by omega
            simp only [hr, h2, if_true, and_self]
          · have h2 : ¬ (i ≤ k ∧ k < i + (n + 1)) := by omega
            simp only [hr, h2, if_false]
      · rw [i3]
        simp only [List.map_cons, List.sum_cons, FuncDataBase.EvalDefVar, hv, Option.getD_some]
        ring
      · rw [i4]
        simp only [List.length_cons]
        omega
      · rw [i5]
        simp

end ModelSupport

namespace ModelSupport

open Geometry

/-- One visit of the second loop of `populateAddRange` at the entry `t` of
`setValues`, all indices strictly between `aPt` and `t` having no variable:
afterwards the entries up to `t` are the running totals, and the entries after
`t` and the length are unchanged. -/
theorem populateAddRange_visit (step : ℝ) (N : Nat) (p : Nat → Bool) (d acc : Nat → ℝ)
    (hacc : ∀ k, 1 ≤ k → acc k = acc (k - 1) + d k)
    (hd : ∀ k, 1 ≤ k → k ≤ N → (p k = false ∨ k = N) → d k = step)
    (aPt t : Nat) (Vec : List ℝ) (ht : aPt < t) (htN : t ≤ N) (hlen : Vec.length = N + 1)
    (hgap : ∀ j, aPt < j → j < t → p j = false)
    (hlow : ∀ k, k ≤ aPt → Vec.getD k 0 = acc k) (hval : Vec.getD t 0 = d t) :
    (((stepFill step (t - (aPt + 1)) (aPt + 1) Vec).set t
        ((stepFill step (t - (aPt + 1)) (aPt + 1) Vec).getD t 0 +
          (stepFill step (t - (aPt + 1)) (aPt + 1) Vec).getD (t - 1) 0)).length = N + 1) ∧
    (∀ k, k ≤ t →
      ((stepFill step (t - (aPt + 1)) (aPt + 1) Vec).set t
        ((stepFill step (t - (aPt + 1)) (aPt + 1) Vec).getD t 0 +
          (stepFill step (t - (aPt + 1)) (aPt + 1) Vec).getD (t - 1) 0)).getD k 0 = acc k) ∧
    (∀ k, t < k →
      ((stepFill step (t - (aPt + 1)) (aPt + 1) Vec).set t
        ((stepFill step (t - (aPt + 1)) (aPt + 1) Vec).getD t 0 +
          (stepFill step (t - (aPt + 1)) (aPt + 1) Vec).getD (t - 1) 0)).getD k 0 =
        Vec.getD k 0) := by
  obtain ⟨s1, s2, s3, s4⟩ := stepFill_acc step acc (t - (aPt + 1)) (aPt + 1) Vec (by omega)
    (by omega) (by rw [Nat.add_sub_cancel]; exact hlow aPt (Nat.le_refl _))
    (fun k h1 h2 => by
      rw [hacc k (by omega), hd k (by omega) (by omega) (Or.inl (hgap k (by omega) (by omega)))])
  have hprev : (stepFill step (t - (aPt + 1)) (aPt + 1) Vec).getD (t - 1) 0 = acc (t - 1) := by
    by_cases h : t - 1 = aPt
    · rw [s2 (t - 1) (by omega), h]
      exact hlow aPt (Nat.le_refl _)
    · exact s4 (t - 1) (by omega) (by omega)
  have hcur : (stepFill step (t - (aPt + 1)) (aPt + 1) Vec).getD t 0 = d t := by
    rw [s3 t (by omega)]
    exact hval
  refine ⟨by rw [List.length_set, s1, hlen], ?_, ?_⟩
  · intro k hk
    by_cases hkt : k = t
    · subst hkt
      rw [getD_set_eq _ _ _ (by rw [s1, hlen]; omega), hcur, hprev, hacc k (by omega)]
      ring
    · rw [getD_set_ne _ _ _ _ (fun h => hkt h.symm)]
      by_cases hka : k ≤ aPt
      · rw [s2 k (by omega)]
        exact hlow k hka
      · exact s4 k (by omega) (by omega)
  · intro k hk
    rw [getD_set_ne _ _ _ _ (by omega), s3 k (by omega)]

/-- The second loop of `populateAddRange` over the defined indices from `c` on
and then `N`: the result has `N+1` entries, the running totals. -/
theorem populateAddRangeFill_spec (step : ℝ) (N : Nat) (p : Nat → Bool) (d acc : Nat → ℝ)
    (hacc : ∀ k, 1 ≤ k → acc k = acc (k - 1) + d k)
    (hd : ∀ k, 1 ≤ k → k ≤ N → (p k = false ∨ k = N) → d k = step)
    (m c aPt : Nat) (Vec : List ℝ) (hc : aPt < c) (hN : c + m = N) (hlen : Vec.length = N + 1)
    (hgap : ∀ j, aPt < j → j < c → p j = false)
    (hlow : ∀ k, k ≤ aPt → Vec.getD k 0 = acc k)
    (hhigh : ∀ k, aPt < k → k ≤ N → (p k = true ∨ k = N) → Vec.getD k 0 = d k) :
    (populateAddRangeFill step ((List.range' c m).filter p ++ [N]) aPt Vec).length = N + 1 ∧
    ∀ k, k ≤ N →
      (populateAddRangeFill step ((List.range' c m).filter p ++ [N]) aPt Vec).getD k 0 = acc k := by
  induction m generalizing c aPt Vec with
  | zero =>
    have hcN : c = N := by omega
    subst hcN
    have hne : c ≠ 0 := by omega
    obtain ⟨v1, v2, _⟩ := populateAddRange_visit step c p d acc hacc hd aPt c Vec hc
      (Nat.le_refl _) hlen hgap hlow (hhigh c hc (Nat.le_refl _) (Or.inr rfl))
    simp only [List.range'_zero, List.filter_nil, List.nil_append, populateAddRangeFill, hne,
      ne_eq, not_false_eq_true, if_true]
    exact ⟨v1, v2⟩
  | succ m ih =>
    cases hp : p c with
    | false =>
      simp only [List.range'_succ, List.filter_cons, hp, Bool.false_eq_true, if_false]
      refine ih (c + 1) aPt Vec (by omega) (by omega) hlen ?_ hlow hhigh
      intro j h1 h2
      by_cases hjc : j = c
      · rw [hjc]
        exact hp
      · exact hgap j h1 (by omega)
    | true =>
      have hne : c ≠ 0 := by omega
      obtain ⟨v1, v2, v3⟩ := populateAddRange_visit step N p d acc hacc hd aPt c Vec hc
        (by omega) hlen hgap hlow (hhigh c hc (by omega) (Or.inl hp))
      simp only [List.range'_succ, List.filter_cons, hp, if_true, List.cons_append,
        populateAddRangeFill, hne, ne_eq, not_false_eq_true]
      refine ih (c + 1) c _ (by omega) (by omega) v1 (fun j h1 h2 => absurd h2 (by omega)) v2 ?_
      intro k h1 h2 h3
      rw [v3 k h1]
      exact hhigh k (by omega) h2 h3

end ModelSupport

namespace ModelSupport

open Geometry

/-- The running total after `j ≤ N-1` increments: `ARange`, plus the defined
variables among the indices `1..j`, plus one common step for each index
without a variable. -/
theorem addRangeAcc_partial (Control : FuncDataBase) (N : Nat) (Name : String)
    (ARange step : ℝ) (j : Nat) (hj : j + 1 ≤ N) :
    addRangeAcc Control N Name ARange step j =
      ARange +
      (((List.range' 1 j).filter fun k => Control.hasVariable (Name ++ makeString k)).map
        fun k => Control.EvalDefVar (Name ++ makeString k) 0).sum +
      ((j : ℝ) -
        (((List.range' 1 j).filter fun k =>
          Control.hasVariable (Name ++ makeString k)).length : ℝ)) * step := by
  induction j with
  | zero => simp [addRangeAcc]
  | succ j ih =>
    have hlt : j + 1 < N := by omega
    rw [addRangeAcc, ih (by omega), List.range'_concat, List.filter_append]
    simp only [addRangeIncr, hlt, if_true, Nat.one_mul, List.filter_cons, List.filter_nil]
    cases hv : Control.vars (Name ++ makeString (1 + j)) with
    | none =>
      have hv1 : Control.vars (Name ++ makeString (j + 1)) = none := by
        rw [Nat.add_comm]
        exact hv
      simp only [FuncDataBase.hasVariable, FuncDataBase.EvalDefVar, hv, hv1, Option.isSome_none,
        Bool.false_eq_true, if_false, List.append_nil, Option.getD_none]
      push_cast
      ring
    | some v =>
      have hv1 : Control.vars (Name ++ makeString (j + 1)) = some v := by
        rw [Nat.add_comm]
        exact hv
      simp only [FuncDataBase.hasVariable, FuncDataBase.EvalDefVar, hv, hv1, Option.isSome_some,
        if_true, List.map_append, List.map_cons, List.map_nil, List.sum_append, List.sum_cons,
        List.sum_nil, List.length_append, List.length_singleton, Option.getD_some]
      push_cast
      ring

/-- The number of defined indices is below `N`, so the divisor of the common
step, as the `size_t` difference and as a real number, is not zero. -/
theorem definedIndices_length_lt (Control : FuncDataBase) (N : Nat) (Name : String) (hN : 0 < N) :
    (definedIndices Control N Name).length < N := by
  have h := List.length_filter_le (fun i => Control.hasVariable (Name ++ makeString i))
    (List.range' 1 (N - 1))
  rw [List.length_range'] at h
  unfold definedIndices
  omega

/-- With `N > 0` the vector `populateAddRange` returns has `N+1` entries, the
running totals of the increments for the common step of the claim. -/
theorem populateAddRange_eq_acc (Control : FuncDataBase) (N : Nat) (Name : String)
    (ARange BRange : ℝ) (Vec : List ℝ) (hN : 0 < N) :
    (populateAddRange Control N Name ARange BRange Vec).length = N + 1 ∧
    ∀ k, k ≤ N → (populateAddRange Control N Name ARange BRange Vec).getD k 0 =
      addRangeAcc Control N Name ARange (commonStep Control N Name ARange BRange) k := by
  have hcnt := definedIndices_length_lt Control N Name hN
  have hlen0 : ((List.replicate (N + 1) (0 : ℝ)).set 0 ARange).length = N + 1 := by
    rw [List.length_set, List.length_replicate]
  obtain ⟨c1, c2, c3, c4, c5⟩ := populateAddRangeCollect_spec Control Name (N - 1) 1
    ((List.replicate (N + 1) (0 : ℝ)).set 0 ARange) 0.0 0 [0] (by rw [hlen0]; omega)
  have hstep : (BRange - ARange -
      (populateAddRangeCollect Control Name (N - 1) 1
        ((List.replicate (N + 1) (0 : ℝ)).set 0 ARange, 0.0, 0, [0])).2.1) /
      ((N - (populateAddRangeCollect Control Name (N - 1) 1
        ((List.replicate (N + 1) (0 : ℝ)).set 0 ARange, 0.0, 0, [0])).2.2.1 : Nat) : ℝ) =
      commonStep Control N Name ARange BRange := by
    rw [c3, c4]
    unfold commonStep definedSum definedIndices
    unfold definedIndices at hcnt
    rw [Nat.zero_add, Nat.cast_sub (Nat.le_of_lt hcnt)]
    norm_num
  unfold populateAddRange
  simp only [hN, if_true]
  rw [hstep, c5]
  simp only [List.singleton_append, List.cons_append, populateAddRangeFill, ne_eq,
    not_true_eq_false, if_false]
  refine populateAddRangeFill_spec (commonStep Control N Name ARange BRange) N
    (fun k => Control.hasVariable (Name ++ makeString k))
    (addRangeIncr Control N Name (commonStep Control N Name ARange BRange))
    (addRangeAcc Control N Name ARange (commonStep Control N Name ARange BRange))
    (fun k hk => addRangeAcc_pred Control N Name ARange _ k hk) ?_ (N - 1) 1 0 _ (by omega)
    (by omega) (by rw [List.length_set, c1, hlen0]) (fun j h1 h2 => absurd h2 (by omega)) ?_ ?_
  · intro k hk1 hkN hk
    unfold addRangeIncr
    split
    · rename_i hlt
      rcases hk with hk | hk
      · simp only [FuncDataBase.hasVariable] at hk
        cases hv : Control.vars (Name ++ makeString k) with
        | none => simp only [FuncDataBase.EvalDefVar, hv, Option.getD_none]
        | some v =>
          rw [hv] at hk
          exact absurd hk (by simp)
      · omega
    · rfl
  · intro k hk
    have hk0 : k = 0 := by omega
    subst hk0
    rw [getD_set_ne _ _ _ _ (by omega), c2 0]
    have h1 : ¬ (1 ≤ 0 ∧ 0 < 1 + (N - 1)) := by omega
    simp only [h1, if_false]
    rw [getD_set_eq _ _ _ (by rw [List.length_replicate]; omega)]
    rfl
  · intro k hk0 hkN hk
    by_cases hkN2 : k = N
    · subst hkN2
      rw [getD_set_eq _ _ _ (by rw [c1, hlen0]; omega)]
      simp only [addRangeIncr, Nat.lt_irrefl, if_false]
    · have hlt : k < N := by omega
      have hpk : Control.hasVariable (Name ++ makeString k) = true := by
        rcases hk with hk | hk
        · exact hk
        · exact absurd hk hkN2
      obtain ⟨v, hv⟩ : ∃ v, Control.vars (Name ++ makeString k) = some v := by
        simp only [FuncDataBase.hasVariable, Option.isSome_iff_exists] at hpk
        exact hpk
      rw [getD_set_ne _ _ _ _ (fun h => hkN2 h.symm), c2 k]
      have h1 : 1 ≤ k ∧ k < 1 + (N - 1) := by omega
      simp only [h1, and_self, if_true, hv, Option.getD_some, addRangeIncr, hlt,
        FuncDataBase.EvalDefVar]

/-- C24: `populateAddRange` with `N > 0`, whatever the vector held on entry.
The result has `N+1` entries and starts at `ARange`; the difference
`Vec[i]-Vec[i-1]` is the variable `Name+i` when it is defined (`1 ≤ i < N`) and
otherwise (also for `i = N`) the common step
`(BRange-ARange-sum of the defined increments)/(N-number defined)`; the last
entry is `BRange`; and the number of defined increments is below `N`, so the
divisor is not zero. -/
theorem C24_populateAddRange (Control : FuncDataBase) (N : Nat) (Name : String)
    (ARange BRange : ℝ) (Vec : List ℝ) (hN : 0 < N) :
    (populateAddRange Control N Name ARange BRange Vec).length = N + 1 ∧
    (populateAddRange Control N Name ARange BRange Vec)[0]? = some ARange ∧
    (∀ (i : Nat) (v : ℝ), 1 ≤ i → i < N → Control.vars (Name ++ makeString i) = some v →
      (populateAddRange Control N Name ARange BRange Vec).getD i 0 -
        (populateAddRange Control N Name ARange BRange Vec).getD (i - 1) 0 = v) ∧
    (∀ i : Nat, 1 ≤ i → i ≤ N → (i = N ∨ Control.vars (Name ++ makeString i) = none) →
      (populateAddRange Control N Name ARange BRange Vec).getD i 0 -
        (populateAddRange Control N Name ARange BRange Vec).getD (i - 1) 0 =
        commonStep Control N Name ARange BRange) ∧
    (populateAddRange Control N Name ARange BRange Vec)[N]? = some BRange ∧
    (definedIndices Control N Name).length < N ∧
    (N : ℝ) - ((definedIndices Control N Name).length : ℝ) ≠ 0 := by
  obtain ⟨hlen, hacc⟩ := populateAddRange_eq_acc Control N Name ARange BRange Vec hN
  have hcnt := definedIndices_length_lt Control N Name hN
  have hdiv : (N : ℝ) - ((definedIndices Control N Name).length : ℝ) ≠ 0 := by
    have : ((definedIndices Control N Name).length : ℝ) < (N : ℝ) := by exact_mod_cast hcnt
    linarith
  have hget : ∀ k, k ≤ N → (populateAddRange Control N Name ARange BRange Vec)[k]? =
      some ((populateAddRange Control N Name ARange BRange Vec).getD k 0) := by
    intro k hk
    rw [List.getD_eq_getElem?_getD, List.getElem?_eq_getElem (by rw [hlen]; omega)]
    rfl
  refine ⟨hlen, ?_, ?_, ?_, ?_, hcnt, hdiv⟩
  · rw [hget 0 (by omega), hacc 0 (by omega)]
    rfl
  · intro i v hi1 hiN hv
    rw [hacc i (by omega), hacc (i - 1) (by omega), addRangeAcc_pred _ _ _ _ _ i hi1]
    simp only [addRangeIncr, hiN, if_true, FuncDataBase.EvalDefVar, hv, Option.getD_some]
    ring
  · intro i hi1 hiN hi
    rw [hacc i hiN, hacc (i - 1) (by omega), addRangeAcc_pred _ _ _ _ _ i hi1]
    have hincr : addRangeIncr Control N Name (commonStep Control N Name ARange BRange) i =
        commonStep Control N Name ARange BRange := by
      unfold addRangeIncr
      split
      · rcases hi with hi | hi
        · omega
        · simp only [FuncDataBase.EvalDefVar, hi, Option.getD_none]
      · rfl
    rw [hincr]
    ring
  · rw [hget N (Nat.le_refl _), hacc N (Nat.le_refl _)]
    have hN1 : N - 1 + 1 = N := by omega
    rw [addRangeAcc_pred _ _ _ _ _ N hN, addRangeAcc_partial _ _ _ _ _ (N - 1) (by omega)]
    simp only [addRangeIncr, Nat.lt_irrefl, if_false]
    have hc : ((N - 1 : Nat) : ℝ) = (N : ℝ) - 1 := by
      rw [Nat.cast_sub hN]
      norm_num
    rw [hc]
    have hs : commonStep Control N Name ARange BRange *
        ((N : ℝ) - ((definedIndices Control N Name).length : ℝ)) =
        BRange - ARange - definedSum Control N Name := by
      unfold commonStep
      field_simp
    unfold definedSum definedIndices at hs
    unfold definedIndices at hdiv
    congr 1
    linear_combination hs

/-- C24 at a concrete input: `N = 3` with no variable defined, from 1 to 7. -/
theorem C24_witness :
    (0 < 3) ∧ (populateAddRange emptyControl 3 "F" 1 7 [])[3]? = some 7 :=
  ⟨by decide, (C24_populateAddRange emptyControl 3 "F" 1 7 [] (by decide)).2.2.2.2.1⟩

end ModelSupport

/-! ## Theorems: a piecewise-linear range -/

namespace ModelSupport

open Geometry

/-- The first loop of `populateRange` run over the indices `i, ..., i+n-1`: the
length is kept, a defined variable is written at its index and nothing else
changes, and `setValues` receives the defined indices in order. -/
theorem populateRangeCollect_spec (Control : FuncDataBase) (Name : String) (n i : Nat)
    (Vec : List ℝ) (setValues : List Nat) (hlen : i + n ≤ Vec.length) :
    (populateRangeCollect Control Name n i (Vec, setValues)).1.length = Vec.length ∧
    (∀ k, (populateRangeCollect Control Name n i (Vec, setValues)).1.getD k 0 =
      if i ≤ k ∧ k < i + n then (Control.vars (Name ++ makeString k)).getD (Vec.getD k 0)
      else Vec.getD k 0) ∧
    (populateRangeCollect Control Name n i (Vec, setValues)).2 =
      setValues ++ (List.range' i n).filter fun k => Control.hasVariable (Name ++ makeString k) := by
  induction n generalizing i Vec setValues with
  | zero =>
    refine ⟨rfl, fun k => ?_, ?_⟩
    · have : ¬ (i ≤ k ∧ k < i + 0) := by omega
      simp only [populateRangeCollect, this, if_false]
    · simp [populateRangeCollect]
  | succ n ih =>
    have hil : i < Vec.length := by omega
    cases hv : Control.vars (Name ++ makeString i) with
    | none =>
      have hp : Control.hasVariable (Name ++ makeString i) = false := by
        simp [FuncDataBase.hasVariable, hv]
      obtain ⟨i1, i2, i5⟩ := ih (i + 1) Vec setValues (by omega)
      simp only [populateRangeCollect, hv, List.range'_succ, List.filter_cons, hp,
        Bool.false_eq_true, if_false]
      refine ⟨i1, ?_, i5⟩
      intro k
      rw [i2 k]
      by_cases hk : k = i
      · subst hk
        have h1 : ¬ (k + 1 ≤ k ∧ k < k + 1 + n) := by omega
        have h2 : k ≤ k ∧ k < k + (n + 1) := by omega
        simp only [h1, h2, if_false, if_true, hv, Option.getD_none, and_self]
      · by_cases hr : i + 1 ≤ k ∧ k < i + 1 + n
        · have h2 : i ≤ k ∧ k < i + (n + 1) := by omega
          simp only [hr, h2, if_true, and_self]
        · have h2 : ¬ (i ≤ k ∧ k < i + (n + 1)) := by omega
          simp only [hr, h2, if_false]
    | some fA =>
      have hp : Control.hasVariable (Name ++ makeString i) = true := by
        simp [FuncDataBase.hasVariable, hv]
      obtain ⟨i1, i2, i5⟩ := ih (i + 1) (Vec.set i fA) (setValues ++ [i])
        (by rw [List.length_set]; omega)
      simp only [populateRangeCollect, hv, List.range'_succ, List.filter_cons, hp, if_true]
      refine ⟨by rw [i1, List.length_set], ?_, ?_⟩
      · intro k
        rw [i2 k]
        by_cases hk : k = i
        · subst hk
          have h1 : ¬ (k + 1 ≤ k ∧ k < k + 1 + n) := by omega
          have h2 : k ≤ k ∧ k < k + (n + 1) := by omega
          simp only [h1, h2, if_false, if_true, hv, Option.getD_some, and_self]
          exact getD_set_eq _ _ _ hil
        · rw [getD_set_ne _ _ _ _ (fun h => hk h.symm)]
          by_cases hr : i + 1 ≤ k ∧ k < i + 1 + n
          · have h2 : i ≤ k ∧ k < i + (n + 1) := by omega
            simp only [hr, h2, if_true, and_self]
          · have h2 : ¬ (i ≤ k ∧ k < i + (n + 1)) := by omega
            simp only [hr, h2, if_false]
      · rw [i5]
        simp

/-- One visit of the second loop of `populateRange` at the entry `t` of
`setValues`: the entries from `aPt` to `t` lie on the straight line from
`Vec[aPt]` to `Vec[t]`, and every entry outside the open interval between
them, and the length, is unchanged. -/
theorem populateRange_visit (aPt t : Nat) (Vec : List ℝ) (ht : aPt < t)
    (hlen : t < Vec.length) :
    (stepFill ((Vec.getD t 0 - Vec.getD aPt 0) / ((t - aPt : Nat) : ℝ))
      (t - (aPt + 1)) (aPt + 1) Vec).length = Vec.length ∧
    (∀ k, (k ≤ aPt ∨ t ≤ k) →
      (stepFill ((Vec.getD t 0 - Vec.getD aPt 0) / ((t - aPt : Nat) : ℝ))
        (t - (aPt + 1)) (aPt + 1) Vec).getD k 0 = Vec.getD k 0) ∧
    (∀ k, aPt ≤ k → k ≤ t →
      (stepFill ((Vec.getD t 0 - Vec.getD aPt 0) / ((t - aPt : Nat) : ℝ))
        (t - (aPt + 1)) (aPt + 1) Vec).getD k 0 =
        Vec.getD aPt 0 +
          ((k : ℝ) - (aPt : ℝ)) * (Vec.getD t 0 - Vec.getD aPt 0) / ((t : ℝ) - (aPt : ℝ))) := by
  have hcast : ((t - aPt : Nat) : ℝ) = (t : ℝ) - (aPt : ℝ) := Nat.cast_sub (Nat.le_of_lt ht)
  have hne : (t : ℝ) - (aPt : ℝ) ≠ 0 := by
    have : (aPt : ℝ) < (t : ℝ) := by exact_mod_cast ht
    linarith
  obtain ⟨s1, s2, s3, s4⟩ := stepFill_acc
    ((Vec.getD t 0 - Vec.getD aPt 0) / ((t - aPt : Nat) : ℝ))
    (fun k => Vec.getD aPt 0 +
      ((k : ℝ) - (aPt : ℝ)) * ((Vec.getD t 0 - Vec.getD aPt 0) / ((t - aPt : Nat) : ℝ)))
    (t - (aPt + 1)) (aPt + 1) Vec (by omega) (by omega)
    (by
      simp only [Nat.add_sub_cancel]
      ring)
    (fun k h1 h2 => by
      have hk : ((k - 1 : Nat) : ℝ) = (k : ℝ) - 1 := by
        rw [Nat.cast_sub (by omega)]
        norm_num
      simp only [hk]
      ring)
  refine ⟨s1, ?_, ?_⟩
  · intro k hk
    rcases hk with hk | hk
    · exact s2 k (by omega)
    · exact s3 k (by omega)
  · intro k hk1 hk2
    by_cases hka : k = aPt
    · subst hka
      rw [s2 k (by omega)]
      ring
    · by_cases hkt : k = t
      · subst hkt
        rw [s3 k (by omega)]
        field_simp
      · rw [s4 k (by omega) (by omega), hcast]
        ring

/-- The second loop of `populateRange` over the defined indices from `c` on and
then `N`, started with `aVal = Vec[aPt]`: the result has `N+1` entries; the
entries up to `aPt` are unchanged; every later fixed entry (a defined index or
`N`) keeps its value; and between two neighbouring fixed entries from `aPt` on
the entries lie on the straight line through them. -/
theorem populateRangeFill_spec (N : Nat) (p : Nat → Bool) (val : Nat → ℝ)
    (m c aPt : Nat) (Vec : List ℝ) (aVal : ℝ) (hc : aPt < c) (hN : c + m = N)
    (hlen : Vec.length = N + 1) (hgap : ∀ j, aPt < j → j < c → p j = false)
    (haVal : aVal = Vec.getD aPt 0)
    (hhigh : ∀ k, aPt < k → k ≤ N → (p k = true ∨ k = N) → Vec.getD k 0 = val k) :
    (populateRangeFill ((List.range' c m).filter p ++ [N]) aVal aPt Vec).length = N + 1 ∧
    (∀ k, k ≤ aPt →
      (populateRangeFill ((List.range' c m).filter p ++ [N]) aVal aPt Vec).getD k 0 =
        Vec.getD k 0) ∧
    (∀ k, aPt < k → k ≤ N → (p k = true ∨ k = N) →
      (populateRangeFill ((List.range' c m).filter p ++ [N]) aVal aPt Vec).getD k 0 = val k) ∧
    (∀ a b, aPt ≤ a → a < b → b ≤ N → (a = aPt ∨ p a = true) → (p b = true ∨ b = N) →
      (∀ k, a < k → k < b → p k = false) → ∀ j, a ≤ j → j ≤ b →
      (populateRangeFill ((List.range' c m).filter p ++ [N]) aVal aPt Vec).getD j 0 =
        (populateRangeFill ((List.range' c m).filter p ++ [N]) aVal aPt Vec).getD a 0 +
          ((j : ℝ) - (a : ℝ)) *
            ((populateRangeFill ((List.range' c m).filter p ++ [N]) aVal aPt Vec).getD b 0 -
              (populateRangeFill ((List.range' c m).filter p ++ [N]) aVal aPt Vec).getD a 0) /
            ((b : ℝ) - (a : ℝ))) := by
  induction m generalizing c aPt Vec aVal with
  | zero =>
    have hcN : c = N := by omega
    subst hcN
    have hne : c ≠ 0 := by omega
    obtain ⟨v1, v2, v3⟩ := populateRange_visit aPt c Vec hc (by omega)
    simp only [List.range'_zero, List.filter_nil, List.nil_append, populateRangeFill, hne,
      ne_eq, not_false_eq_true, if_true, haVal]
    refine ⟨by rw [v1, hlen], fun k hk => v2 k (Or.inl hk), ?_, ?_⟩
    · intro k hk1 hk2 hk3
      have hkc : k = c := by
        rcases hk3 with hk3 | hk3
        · by_contra hne2
          have := hgap k hk1 (by omega)
          rw [this] at hk3
          exact absurd hk3 (by simp)
        · exact hk3
      subst hkc
      rw [v2 k (Or.inr (Nat.le_refl _))]
      exact hhigh k hk1 hk2 hk3
    · intro a b ha hab hb hfa hfb hnone j hj1 hj2
      have haa : a = aPt := by
        rcases hfa with hfa | hfa
        · exact hfa
        · by_contra hne2
          have := hgap a (by omega) (by omega)
          rw [this] at hfa
          exact absurd hfa (by simp)
      have hbb : b = c := by
        rcases hfb with hfb | hfb
        · by_contra hne2
          have := hgap b (by omega) (by omega)
          rw [this] at hfb
          exact absurd hfb (by simp)
        · exact hfb
      subst haa hbb
      rw [v3 j hj1 hj2, v2 a (Or.inl (Nat.le_refl _)), v2 b (Or.inr (Nat.le_refl _))]
  | succ m ih =>
    cases hp : p c with
    | false =>
      simp only [List.range'_succ, List.filter_cons, hp, Bool.false_eq_true, if_false]
      refine ih (c + 1) aPt Vec aVal (by omega) (by omega) hlen ?_ haVal hhigh
      intro j h1 h2
      by_cases hjc : j = c
      · rw [hjc]
        exact hp
      · exact hgap j h1 (by omega)
    | true =>
      have hne : c ≠ 0 := by omega
      obtain ⟨v1, v2, v3⟩ := populateRange_visit aPt c Vec hc (by omega)
      simp only [List.range'_succ, List.filter_cons, hp, if_true, List.cons_append,
        populateRangeFill, hne, ne_eq, not_false_eq_true, haVal]
      obtain ⟨r1, r2, r3, r4⟩ := ih (c + 1) c
        (stepFill ((Vec.getD c 0 - Vec.getD aPt 0) / ((c - aPt : Nat) : ℝ))
          (c - (aPt + 1)) (aPt + 1) Vec)
        ((stepFill ((Vec.getD c 0 - Vec.getD aPt 0) / ((c - aPt : Nat) : ℝ))
          (c - (aPt + 1)) (aPt + 1) Vec).getD c 0)
        (by omega) (by omega) (by rw [v1, hlen]) (fun j h1 h2 => absurd h2 (by omega)) rfl
        (fun k h1 h2 h3 => by
          rw [v2 k (Or.inr (by omega))]
          exact hhigh k (by omega) h2 h3)
      refine ⟨r1, ?_, ?_, ?_⟩
      · intro k hk
        rw [r2 k (by omega), v2 k (Or.inl hk)]
      · intro k hk1 hk2 hk3
        by_cases hkc : c < k
        · exact r3 k hkc hk2 hk3
        · have hkc2 : k = c := by
            by_contra hne2
            rcases hk3 with hk3 | hk3
            · have := hgap k hk1 (by omega)
              rw [this] at hk3
              exact absurd hk3 (by simp)
            · omega
          subst hkc2
          rw [r2 k (Nat.le_refl _), v2 k (Or.inr (Nat.le_refl _))]
          exact hhigh k hk1 hk2 hk3
      · intro a b ha hab hb hfa hfb hnone j hj1 hj2
        by_cases hac : c ≤ a
        · refine r4 a b hac hab hb ?_ hfb hnone j hj1 hj2
          rcases hfa with hfa | hfa
          · omega
          · by_cases h : a = c
            · exact Or.inl h
            · exact Or.inr hfa
        · have haa : a = aPt := by
            rcases hfa with hfa | hfa
            · exact hfa
            · by_contra hne2
              have := hgap a (by omega) (by omega)
              rw [this] at hfa
              exact absurd hfa (by simp)
          have hbc : b ≤ c := by
            by_contra hlt
            have := hnone c (by omega) (by omega)
            rw [hp] at this
            exact absurd this (by simp)
          have hbb : b = c := by
            by_contra hne2
            rcases hfb with hfb | hfb
            · have := hgap b (by omega) (by omega)
              rw [this] at hfb
              exact absurd hfb (by simp)
            · omega
          subst haa hbb
          rw [r2 j hj2, r2 a (by omega), r2 b (Nat.le_refl _), v3 j hj1 hj2,
            v2 a (Or.inl (Nat.le_refl _)), v2 b (Or.inr (Nat.le_refl _))]

end ModelSupport

namespace ModelSupport

open Geometry

/-- C23: `populateRange`, whatever the vector held on entry (it is discarded:
the result is the same for every initial vector). For `N = 0` the result is
empty. For `N > 0` it has `N+1` entries, `Vec[0] = ARange`, `Vec[N] = BRange`,
and every index `1 ≤ i < N` whose variable `Name+i` is defined holds the value
of the variable. Between two neighbouring fixed entries `a < b` (index 0, index
`N` or an index with a defined variable, none defined strictly between) every
entry `j` is the linear interpolation
`Vec[a] + (j-a)*(Vec[b]-Vec[a])/(b-a)`; with no variable defined,
`Vec[j] = ARange + j*(BRange-ARange)/N`. -/
theorem C23_populateRange (Control : FuncDataBase) (N : Nat) (Name : String)
    (ARange BRange : ℝ) (Vec : List ℝ) :
    (N = 0 → populateRange Control N Name ARange BRange Vec = []) ∧
    (∀ Vec2 : List ℝ, populateRange Control N Name ARange BRange Vec =
      populateRange Control N Name ARange BRange Vec2) ∧
    (0 < N →
      (populateRange Control N Name ARange BRange Vec).length = N + 1 ∧
      (populateRange Control N Name ARange BRange Vec)[0]? = some ARange ∧
      (populateRange Control N Name ARange BRange Vec)[N]? = some BRange ∧
      (∀ (i : Nat) (v : ℝ), 1 ≤ i → i < N → Control.vars (Name ++ makeString i) = some v →
        (populateRange Control N Name ARange BRange Vec)[i]? = some v) ∧
      (∀ a b j : Nat, a < j → j < b → b ≤ N →
        (a = 0 ∨ Control.hasVariable (Name ++ makeString a) = true) →
        (b = N ∨ Control.hasVariable (Name ++ makeString b) = true) →
        (∀ k, a < k → k < b → Control.vars (Name ++ makeString k) = none) →
        (populateRange Control N Name ARange BRange Vec).getD j 0 =
          (populateRange Control N Name ARange BRange Vec).getD a 0 +
            ((j : ℝ) - (a : ℝ)) *
              ((populateRange Control N Name ARange BRange Vec).getD b 0 -
                (populateRange Control N Name ARange BRange Vec).getD a 0) /
              ((b : ℝ) - (a : ℝ))) ∧
      ((∀ i : Nat, Control.vars (Name ++ makeString i) = none) →
        ∀ j : Nat, j ≤ N →
          (populateRange Control N Name ARange BRange Vec).getD j 0 =
            ARange + (j : ℝ) * (BRange - ARange) / (N : ℝ))) := by
  refine ⟨?_, fun _ => rfl, ?_⟩
  · intro h0
    simp [populateRange, h0]
  intro hN
  have hlen0 : ((List.replicate (N + 1) (0 : ℝ)).set 0 ARange).length = N + 1 := by
    rw [List.length_set, List.length_replicate]
  obtain ⟨c1, c2, c5⟩ := populateRangeCollect_spec Control Name (N - 1) 1
    ((List.replicate (N + 1) (0 : ℝ)).set 0 ARange) [0] (by rw [hlen0]; omega)
  have hlen1 : ((populateRangeCollect Control Name (N - 1) 1
      ((List.replicate (N + 1) (0 : ℝ)).set 0 ARange, [0])).1.set N BRange).length = N + 1 := by
    rw [List.length_set, c1, hlen0]
  have hzero : ((populateRangeCollect Control Name (N - 1) 1
      ((List.replicate (N + 1) (0 : ℝ)).set 0 ARange, [0])).1.set N BRange).getD 0 0 = ARange := by
    rw [getD_set_ne _ _ _ _ (by omega), c2 0]
    have h1 : ¬ (1 ≤ 0 ∧ 0 < 1 + (N - 1)) := by omega
    simp only [h1, if_false]
    exact getD_set_eq _ _ _ (by rw [List.length_replicate]; omega)
  have hdef : populateRange Control N Name ARange BRange Vec =
      populateRangeFill
        (((List.range' 1 (N - 1)).filter fun k => Control.hasVariable (Name ++ makeString k)) ++
          [N]) ARange 0
        ((populateRangeCollect Control Name (N - 1) 1
          ((List.replicate (N + 1) (0 : ℝ)).set 0 ARange, [0])).1.set N BRange) := by
    unfold populateRange
    simp only [hN, if_true]
    rw [c5]
    simp only [List.singleton_append, List.cons_append]
    rw [populateRangeFill]
    simp only [ne_eq, not_true_eq_false, if_false, List.nil_append]
  obtain ⟨r1, r2, r3, r4⟩ := populateRangeFill_spec N
    (fun k => Control.hasVariable (Name ++ makeString k))
    (fun k => if k = N then BRange else (Control.vars (Name ++ makeString k)).getD 0)
    (N - 1) 1 0
    ((populateRangeCollect Control Name (N - 1) 1
      ((List.replicate (N + 1) (0 : ℝ)).set 0 ARange, [0])).1.set N BRange)
    ARange (by omega) (by omega) hlen1 (fun j h1 h2 => absurd h2 (by omega)) hzero.symm
    (by
      intro k hk0 hkN hk
      by_cases hkN2 : k = N
      · subst hkN2
        rw [getD_set_eq _ _ _ (by rw [c1, hlen0]; omega)]
        simp only [if_true]
      · have hpk : Control.hasVariable (Name ++ makeString k) = true := by
          rcases hk with hk | hk
          · exact hk
          · exact absurd hk hkN2
        obtain ⟨v, hv⟩ : ∃ v, Control.vars (Name ++ makeString k) = some v := by
          simp only [FuncDataBase.hasVariable, Option.isSome_iff_exists] at hpk
          exact hpk
        rw [getD_set_ne _ _ _ _ (fun h => hkN2 h.symm), c2 k]
        have h1 : 1 ≤ k ∧ k < 1 + (N - 1) := by omega
        simp only [h1, and_self, if_true, hv, Option.getD_some, hkN2, if_false])
  rw [← hdef] at r1 r2 r3 r4
  have hget : ∀ k, k ≤ N → (populateRange Control N Name ARange BRange Vec)[k]? =
      some ((populateRange Control N Name ARange BRange Vec).getD k 0) := by
    intro k hk
    rw [List.getD_eq_getElem?_getD, List.getElem?_eq_getElem (by rw [r1]; omega)]
    rfl
  have hA : (populateRange Control N Name ARange BRange Vec).getD 0 0 = ARange := by
    rw [r2 0 (Nat.le_refl _)]
    exact hzero
  have hB : (populateRange Control N Name ARange BRange Vec).getD N 0 = BRange := by
    rw [r3 N hN (Nat.le_refl _) (Or.inr rfl)]
    simp only [if_true]
  refine ⟨r1, ?_, ?_, ?_, ?_, ?_⟩
  · rw [hget 0 (by omega), hA]
  · rw [hget N (Nat.le_refl _), hB]
  · intro i v hi1 hiN hv
    have hpk : Control.hasVariable (Name ++ makeString i) = true := by
      simp [FuncDataBase.hasVariable, hv]
    rw [hget i (by omega), r3 i (by omega) (by omega) (Or.inl hpk)]
    have hne : i ≠ N := by omega
    simp only [hne, if_false, hv, Option.getD_some]
  · intro a b j haj hjb hbN hfa hfb hnone
    refine r4 a b (by omega) (by omega) hbN ?_ ?_ ?_ j (by omega) (by omega)
    · exact hfa
    · rcases hfb with hfb | hfb
      · exact Or.inr hfb
      · exact Or.inl hfb
    · intro k hk1 hk2
      simp only [FuncDataBase.hasVariable, hnone k hk1 hk2, Option.isSome_none]
  · intro hnone j hj
    have h := r4 0 N (Nat.le_refl _) hN (Nat.le_refl _) (Or.inl rfl) (Or.inr rfl)
      (fun k _ _ => by simp only [FuncDataBase.hasVariable, hnone k, Option.isSome_none])
      j (by omega) hj
    rw [h, hA, hB]
    simp only [Nat.cast_zero, sub_zero]

end ModelSupport
